import Mathlib

/-!
# Multistream layer of the Opus codec (`src/opus_multistream.c`)

A shallow embedding of the channel-layout validators, the stream locators, the
multistream encoder and decoder and the encoder control dispatch.

Conventions of the embedding.

* C `int` values are `Int`; signed arithmetic is taken not to overflow. The one unsigned
  computation, the bitrate share, is reduced modulo `2 ^ 32`.
* An `unsigned char` array is a function into `Nat` that is read modulo 256.
* A memory buffer reached through a pointer is a function `Int → _` together
  with an offset; a store is `upd`.
* A counted `for` loop `for (; i < n; i++)` is a recursion on the number
  `(n - i).toNat` of iterations that remain, carrying the index `i`.
* The `while` loops of the decoder, whose trip count is not a syntactic bound,
  carry fuel and return `none` when it runs out.
* The single-stream codec (`opus_encode_native`, `opus_decode_native`,
  `opus_encoder_ctl`) and `encode_size` live outside this file of the
  repository: they are parameters, and every call made to them is recorded in
  a log that is part of the result.
* `ptr`, the cursor over the sub-codec states laid out after the multistream
  state, is the index of the sub-codec it designates: `ptr += align(size)`
  is `ptr + 1`.
-/

namespace OpusMS

/-- Sample type of the canonical path (`opus_val16`), here in the fixed-point reading. -/
abbrev opus_val16 := Int

/-- Modelled from the spec: success code of `opus_defines.h`, a header that is not part of the
sources at hand. -/
def OPUS_OK : Int := 0

/-- Modelled from the spec: `BadArgument` code of `opus_defines.h`, a negative code. -/
def OPUS_BAD_ARG : Int := -1

/-- Modelled from the spec: `BufferTooSmall` code of `opus_defines.h`, a negative code. -/
def OPUS_BUFFER_TOO_SMALL : Int := -2

/-- Modelled from the spec: `CorruptedData` code of `opus_defines.h`, a negative code. -/
def OPUS_CORRUPTED_DATA : Int := -4

/-- Store `v` at index `a` of a buffer. -/
def upd {β : Type} (f : Int → β) (a : Int) (v : β) : Int → β :=
  fun x => if x = a then v else f x

/-- The struct `ChannelLayout`; `mapping` is the array `unsigned char mapping[256]`. -/
structure ChannelLayout where
  nb_channels : Int
  nb_streams : Int
  nb_coupled_streams : Int
  mapping : Nat → Nat

/-- The read `layout->mapping[i]`, promoted to `int`. -/
def ChannelLayout.entry (layout : ChannelLayout) (i : Int) : Int :=
  ((layout.mapping i.toNat % 256 : Nat) : Int)

/-- Loop of `validate_layout`: the `for` over the channels from `i` on. -/
def validate_layout_loop (layout : ChannelLayout) (max_channel : Int) : Nat → Int → Int
  | 0, _ => 1
  | k + 1, i =>
    if layout.entry i ≥ max_channel ∧ layout.entry i ≠ 255 then 0
    else validate_layout_loop layout max_channel k (i + 1)

/-- The function `validate_layout`. -/
def validate_layout (layout : ChannelLayout) : Int :=
  let max_channel := layout.nb_streams + layout.nb_coupled_streams
  if max_channel > 255 then 0
  else validate_layout_loop layout max_channel (layout.nb_channels - 0).toNat 0

/-- The scan shared by the three lookups: `for (; i < nb_channels; i++) if (mapping[i] == target)
return i;` followed by `return -1`. -/
def scan_mapping (layout : ChannelLayout) (target : Int) : Nat → Int → Int
  | 0, _ => -1
  | k + 1, i => if layout.entry i = target then i else scan_mapping layout target k (i + 1)

/-- The function `get_left_channel`. -/
def get_left_channel (layout : ChannelLayout) (stream_id prev : Int) : Int :=
  let i := if prev < 0 then 0 else prev + 1
  scan_mapping layout (stream_id * 2) (layout.nb_channels - i).toNat i

/-- The function `get_right_channel`. -/
def get_right_channel (layout : ChannelLayout) (stream_id prev : Int) : Int :=
  let i := if prev < 0 then 0 else prev + 1
  scan_mapping layout (stream_id * 2 + 1) (layout.nb_channels - i).toNat i

/-- The function `get_mono_channel`. -/
def get_mono_channel (layout : ChannelLayout) (stream_id prev : Int) : Int :=
  let i := if prev < 0 then 0 else prev + 1
  scan_mapping layout (2 * layout.nb_coupled_streams + stream_id) (layout.nb_channels - i).toNat i

/-- Loop of `validate_encoder_layout`: the `for` over the streams from `s` on. -/
def validate_encoder_layout_loop (layout : ChannelLayout) : Nat → Int → Int
  | 0, _ => 1
  | k + 1, s =>
    if s < layout.nb_coupled_streams then
      if get_left_channel layout s (-1) = -1 then 0
      else if get_right_channel layout s (-1) = -1 then 0
      else validate_encoder_layout_loop layout k (s + 1)
    else
      if get_mono_channel layout s (-1) = -1 then 0
      else validate_encoder_layout_loop layout k (s + 1)

/-- The function `validate_encoder_layout`. -/
def validate_encoder_layout (layout : ChannelLayout) : Int :=
  validate_encoder_layout_loop layout (layout.nb_streams - 0).toNat 0

/-- What an init function leaves behind: its return code, the layout it stored and the channel
counts of the sub-codec init calls it made, in order. -/
structure InitResult where
  ret : Int
  layout : ChannelLayout
  inits : List Int

/-- The first four statements of both init functions: the three counts are stored and
`mapping[i]` is copied for `i < nb_channels`; the other entries of the state keep their old
contents. -/
def store_layout (st : ChannelLayout) (channels streams coupled_streams : Int)
    (mapping : Nat → Nat) : ChannelLayout :=
  { nb_channels := channels
    nb_streams := streams
    nb_coupled_streams := coupled_streams
    mapping := fun i => if (i : Int) < channels then mapping i % 256 else st.mapping i }

/-- The two init loops: `for (i=0;i<nb_coupled_streams;i++)` initialises with 2 channels, then
`for (;i<nb_streams;i++)` goes on from the same `i` with 1 channel. -/
def init_calls (layout : ChannelLayout) : List Int :=
  let i : Int := (layout.nb_coupled_streams - 0).toNat
  List.replicate (layout.nb_coupled_streams - 0).toNat 2
    ++ List.replicate (layout.nb_streams - i).toNat 1

/-- The function `opus_multistream_encoder_init`. -/
def opus_multistream_encoder_init (st : ChannelLayout) (channels streams coupled_streams : Int)
    (mapping : Nat → Nat) : InitResult :=
  let layout := store_layout st channels streams coupled_streams mapping
  if validate_layout layout = 0 ∨ validate_encoder_layout layout = 0 then
    { ret := OPUS_BAD_ARG, layout := layout, inits := [] }
  else
    { ret := OPUS_OK, layout := layout, inits := init_calls layout }

/-- The function `opus_multistream_decoder_init`. -/
def opus_multistream_decoder_init (st : ChannelLayout) (channels streams coupled_streams : Int)
    (mapping : Nat → Nat) : InitResult :=
  let layout := store_layout st channels streams coupled_streams mapping
  if validate_layout layout = 0 then
    { ret := OPUS_BAD_ARG, layout := layout, inits := [] }
  else
    { ret := OPUS_OK, layout := layout, inits := init_calls layout }

/-! ## Encoder -/

/-- The single-stream encoder and the length encoder, as the multistream encoder sees them.
`opus_encode_native enc buf frame_size max_data_bytes` is the call on sub-encoder number `enc`:
it gives the returned length and the contents of `tmp_data` after the call.
`encode_size size` gives the bytes that `encode_size(size, data)` writes at `data`; the value
it returns is their number. -/
structure EncoderEnv where
  opus_encode_native : Nat → (Int → opus_val16) → Int → Int → Int × (Int → Nat)
  encode_size : Int → List Nat

/-- One recorded call of the single-stream encoder: the sub-encoder addressed, the stream index
of the loop, the arguments `buf`, `frame_size` and `max_data_bytes`, the returned length, and
the value `tot_size` had when the call was made. -/
structure EncCall where
  enc : Nat
  s : Int
  buf : Int → opus_val16
  frame_size : Int
  max_data_bytes : Int
  len : Int
  tot_size : Int

/-- What `opus_multistream_encode` leaves behind: the return value, the output buffer `data`
(indexed from the pointer the caller passed) and the calls made to the sub-encoders. -/
structure EncResult where
  ret : Int
  data : Int → Nat
  calls : List EncCall

/-- The local variables of the encode loop that live across iterations: `ptr`, the offset of
the moving pointer `data` from its initial value, `tot_size`, the scratch `buf`, the output
buffer and the log. -/
structure EncState where
  ptr : Nat
  dp : Int
  tot_size : Int
  buf : Int → opus_val16
  data : Int → Nat
  calls : List EncCall

/-- The coupled copy loop: `buf[2*i] = pcm[nb_channels*i+left]; buf[2*i+1] =
pcm[nb_channels*i+right];` for the iterations from `i` on. -/
def deinterleave_coupled (pcm : Int → opus_val16) (nb_channels left right : Int) :
    Nat → Int → (Int → opus_val16) → (Int → opus_val16)
  | 0, _, buf => buf
  | k + 1, i, buf =>
    deinterleave_coupled pcm nb_channels left right k (i + 1)
      (upd (upd buf (2 * i) (pcm (nb_channels * i + left))) (2 * i + 1)
        (pcm (nb_channels * i + right)))

/-- The mono copy loop: `buf[i] = pcm[nb_channels*i+chan];` for the iterations from `i` on. -/
def deinterleave_mono (pcm : Int → opus_val16) (nb_channels chan : Int) :
    Nat → Int → (Int → opus_val16) → (Int → opus_val16)
  | 0, _, buf => buf
  | k + 1, i, buf =>
    deinterleave_mono pcm nb_channels chan k (i + 1) (upd buf i (pcm (nb_channels * i + chan)))

/-- Store the bytes `bs` from offset `d` on. -/
def write_bytes (dst : Int → Nat) (d : Int) : List Nat → (Int → Nat)
  | [] => dst
  | b :: bs => write_bytes (upd dst d b) (d + 1) bs

/-- The macro `OPUS_COPY(dst + d, src + s, n)`: `n` elements are copied, none when `n ≤ 0`. -/
def OPUS_COPY (dst : Int → Nat) (d : Int) (src : Int → Nat) (s : Int) (n : Int) : Int → Nat :=
  fun j => if d ≤ j ∧ j < d + n then src (s + (j - d)) else dst j

/-- The first part of the body of the stream loop: the scratch `buf` after the copy loop of
stream `s`, coupled or mono. -/
def stream_buf (layout : ChannelLayout) (pcm : Int → opus_val16) (frame_size s : Int)
    (buf : Int → opus_val16) : Int → opus_val16 :=
  if s < layout.nb_coupled_streams then
    let left := get_left_channel layout s (-1)
    let right := get_right_channel layout s (-1)
    deinterleave_coupled pcm layout.nb_channels left right (frame_size - 0).toNat 0 buf
  else
    let chan := get_mono_channel layout s (-1)
    deinterleave_mono pcm layout.nb_channels chan (frame_size - 0).toNat 0 buf

/-- The stream loop of `opus_multistream_encode`, from stream `s` on, and the `return tot_size`
that follows it. -/
def encode_loop (layout : ChannelLayout) (env : EncoderEnv) (pcm : Int → opus_val16)
    (frame_size max_data_bytes : Int) : Nat → Int → EncState → EncResult
  | 0, _, st => { ret := st.tot_size, data := st.data, calls := st.calls }
  | k + 1, s, st =>
    let buf := stream_buf layout pcm frame_size s st.buf
    let curr_max := max_data_bytes - st.tot_size
    let curr_max := curr_max - (2 * (layout.nb_streams - s) - 1)
    let out := env.opus_encode_native st.ptr buf frame_size curr_max
    let len := out.1
    let tmp_data := out.2
    let call : EncCall :=
      { enc := st.ptr, s := s, buf := buf, frame_size := frame_size, max_data_bytes := curr_max,
        len := len, tot_size := st.tot_size }
    let calls := st.calls ++ [call]
    if len < 0 then { ret := len, data := st.data, calls := calls }
    else
      let data1 := upd st.data st.dp (tmp_data 0)
      let dp1 := st.dp + 1
      let sized : (Int → Nat) × Int × Int :=
        if s ≠ layout.nb_streams - 1 then
          let bytes := env.encode_size (len - 1)
          (write_bytes data1 dp1 bytes, dp1 + bytes.length, st.tot_size + bytes.length)
        else (data1, dp1, st.tot_size)
      let tot_size := sized.2.2 + len
      let data3 := OPUS_COPY sized.1 sized.2.1 tmp_data 1 (len - 1)
      encode_loop layout env pcm frame_size max_data_bytes k (s + 1)
        { ptr := st.ptr + 1, dp := sized.2.1, tot_size := tot_size, buf := buf, data := data3,
          calls := calls }

/-- The function `opus_multistream_encode` on the canonical sample type (`opus_multistream_encode`
when `FIXED_POINT` is set, `opus_multistream_encode_float` otherwise). `buf0` and `data0` are the
contents of the scratch buffer and of the output buffer on entry. -/
def opus_multistream_encode (layout : ChannelLayout) (env : EncoderEnv) (pcm : Int → opus_val16)
    (frame_size : Int) (data0 : Int → Nat) (max_data_bytes : Int) (buf0 : Int → opus_val16) :
    EncResult :=
  if max_data_bytes < 2 * layout.nb_streams - 1 then
    { ret := OPUS_BUFFER_TOO_SMALL, data := data0, calls := [] }
  else
    encode_loop layout env pcm frame_size max_data_bytes (layout.nb_streams - 0).toNat 0
      { ptr := 0, dp := 0, tot_size := 0, buf := buf0, data := data0, calls := [] }

/-- The first `n` bytes of a buffer. -/
def first_bytes (data : Int → Nat) (n : Int) : List Nat :=
  (List.range n.toNat).map (fun j => data (j : Int))

/-! ## Encoder control -/

/-- Modelled from the spec: request code `OPUS_SET_BITRATE_REQUEST` of `opus_defines.h`, a header
that is not part of the sources at hand; only the fact that the code selects the bitrate case of
the `switch` is used. -/
def OPUS_SET_BITRATE_REQUEST : Int := 4002

/-- One recorded call `opus_encoder_ctl(enc, request, value)`. -/
structure CtlCall where
  enc : Nat
  request : Int
  value : Nat
deriving DecidableEq, Repr

/-- What `opus_multistream_encoder_ctl` leaves behind. -/
structure CtlResult where
  ret : Int
  calls : List CtlCall
deriving DecidableEq, Repr

/-- The loop of the `OPUS_SET_BITRATE_REQUEST` case, from stream `s` on: `enc` is read from `ptr`,
and `ptr` is not moved in this loop. The results of the calls are dropped. -/
def set_bitrate_loop (layout : ChannelLayout) (request : Int) (value : Nat) (ptr : Nat) :
    Nat → Int → List CtlCall → List CtlCall
  | 0, _, calls => calls
  | k + 1, s, calls =>
    let call : CtlCall :=
      { enc := ptr, request := request,
        value := value * (if s < layout.nb_coupled_streams then 2 else 1) % 2 ^ 32 }
    set_bitrate_loop layout request value ptr k (s + 1) (calls ++ [call])

/-- The loop of the two other cases of the `switch`, from stream `s` on: the call goes to the
sub-encoder at `ptr`, `ptr` moves on, and the loop is left at the first negative result. -/
def broadcast_loop (ctl : Nat → Int → Nat → Int) (request : Int) (value : Nat) :
    Nat → Int → Nat → Int → List CtlCall → CtlResult
  | 0, _, _, ret, calls => { ret := ret, calls := calls }
  | k + 1, s, ptr, _, calls =>
    let ret := ctl ptr request value
    let call : CtlCall := { enc := ptr, request := request, value := value }
    let calls := calls ++ [call]
    if ret < 0 then { ret := ret, calls := calls }
    else broadcast_loop ctl request value k (s + 1) (ptr + 1) ret calls

/-- The function `opus_multistream_encoder_ctl` for a request with one 32-bit argument `value`
(for the query requests, the address handed through). `ctl enc request value` is the result of
`opus_encoder_ctl` on sub-encoder number `enc`. -/
def opus_multistream_encoder_ctl (layout : ChannelLayout) (ctl : Nat → Int → Nat → Int)
    (request : Int) (value : Nat) : CtlResult :=
  if request = OPUS_SET_BITRATE_REQUEST then
    let chan := layout.nb_streams + layout.nb_coupled_streams
    let value := value % 2 ^ 32 / (chan % 2 ^ 32).toNat
    { ret := OPUS_OK
      calls := set_bitrate_loop layout request value 0 (layout.nb_streams - 0).toNat 0 [] }
  else
    broadcast_loop ctl request value (layout.nb_streams - 0).toNat 0 0 OPUS_OK []

/-! ## Decoder -/

/-- What one call of the single-stream decoder gives back: its return value, the value it
stores in `packet_offset` and the contents of the scratch `buf` after the call. -/
structure DecOut where
  ret : Int
  packet_offset : Int
  buf : Int → opus_val16

/-- The single-stream decoder as the multistream decoder sees it:
`dec_native dec data len frame_size decode_fec self_delimited` is the call
`opus_decode_native(dec, data, len, buf, frame_size, decode_fec, self_delimited, &packet_offset)`
on sub-decoder number `dec`, with `data` the packet bytes from the current pointer on. -/
abbrev SubDecoder := Nat → (Int → Nat) → Int → Int → Int → Int → DecOut

/-- One recorded call of the single-stream decoder. -/
structure DecCall where
  dec : Nat
  s : Int
  len : Int
  frame_size : Int
  out : DecOut

/-- What `opus_multistream_decode_native` leaves behind: the return value, the output buffer
`pcm` and the calls made to the sub-decoders. -/
structure DecResult where
  ret : Int
  pcm : Int → opus_val16
  calls : List DecCall

/-- The local variables of the decode loop that live across iterations: `ptr`, the offset of
the moving pointer `data`, `len`, `frame_size`, the output buffer and the log. -/
structure DecState where
  ptr : Nat
  off : Int
  len : Int
  frame_size : Int
  pcm : Int → opus_val16
  calls : List DecCall

/-- The innermost loop of the decoder: `pcm[nb_channels*i+chan] = src(i)` for the iterations
from `i` on, where `src(i)` is `buf[2*i]`, `buf[2*i+1]`, `buf[i]` or `0`. -/
def fill_channel (nb_channels chan : Int) (src : Int → opus_val16) :
    Nat → Int → (Int → opus_val16) → (Int → opus_val16)
  | 0, _, pcm => pcm
  | k + 1, i, pcm =>
    fill_channel nb_channels chan src k (i + 1) (upd pcm (nb_channels * i + chan) (src i))

/-- One scatter loop of the decoder, entered with the cursor `prev`:
`while ((chan = get(prev)) != -1) { for (i...) pcm[..] = src(i); prev = chan; }`.
The result is `none` when the fuel runs out before the loop is left. -/
def scatter (nb_channels : Int) (get : Int → Int) (src : Int → opus_val16) (frame_size : Int) :
    Nat → Int → (Int → opus_val16) → Option (Int → opus_val16)
  | 0, _, _ => none
  | fuel + 1, prev, pcm =>
    let chan := get prev
    if chan ≠ -1 then
      scatter nb_channels get src frame_size fuel chan
        (fill_channel nb_channels chan src (frame_size - 0).toNat 0 pcm)
    else some pcm

/-- The loop over the muted channels, from channel `c` on. -/
def mute_loop (layout : ChannelLayout) (frame_size : Int) :
    Nat → Int → (Int → opus_val16) → (Int → opus_val16)
  | 0, _, pcm => pcm
  | k + 1, c, pcm =>
    mute_loop layout frame_size k (c + 1)
      (if layout.entry c = 255 then
        fill_channel layout.nb_channels c (fun _ => 0) (frame_size - 0).toNat 0 pcm
      else pcm)

/-- The scatter of stream `s`: the left and the right loop for a coupled stream, the mono loop
otherwise. -/
def scatter_stream (layout : ChannelLayout) (s : Int) (buf : Int → opus_val16)
    (frame_size : Int) (fuel : Nat) (pcm : Int → opus_val16) : Option (Int → opus_val16) :=
  if s < layout.nb_coupled_streams then
    (scatter layout.nb_channels (get_left_channel layout s) (fun i => buf (2 * i)) frame_size
      fuel (-1) pcm).bind
    (fun pcm1 =>
      scatter layout.nb_channels (get_right_channel layout s) (fun i => buf (2 * i + 1))
        frame_size fuel (-1) pcm1)
  else
    scatter layout.nb_channels (get_mono_channel layout s) (fun i => buf i) frame_size
      fuel (-1) pcm

/-- The stream loop of `opus_multistream_decode_native`, from stream `s` on, followed by the
muting loop and `return frame_size`. `fuel` is the fuel given to each scatter loop. -/
def decode_loop (layout : ChannelLayout) (dec_native : SubDecoder) (data : Int → Nat)
    (decode_fec : Int) (fuel : Nat) : Nat → Int → DecState → Option DecResult
  | 0, _, st =>
    some { ret := st.frame_size
           pcm := mute_loop layout st.frame_size (layout.nb_channels - 0).toNat 0 st.pcm
           calls := st.calls }
  | k + 1, s, st =>
    if st.len ≤ 0 then
      some { ret := OPUS_CORRUPTED_DATA, pcm := st.pcm, calls := st.calls }
    else
      let out := dec_native st.ptr (fun j => data (st.off + j)) st.len st.frame_size decode_fec 1
      let call : DecCall :=
        { dec := st.ptr, s := s, len := st.len, frame_size := st.frame_size, out := out }
      let calls := st.calls ++ [call]
      let ret := out.ret
      let off := st.off + out.packet_offset
      let len := st.len - out.packet_offset
      if ret > st.frame_size then
        some { ret := OPUS_BUFFER_TOO_SMALL, pcm := st.pcm, calls := calls }
      else if s > 0 ∧ ret ≠ st.frame_size then
        some { ret := OPUS_CORRUPTED_DATA, pcm := st.pcm, calls := calls }
      else if ret ≤ 0 then
        some { ret := ret, pcm := st.pcm, calls := calls }
      else
        let frame_size := ret
        (scatter_stream layout s out.buf frame_size fuel st.pcm).bind
        (fun pcm =>
          decode_loop layout dec_native data decode_fec fuel k (s + 1)
            { ptr := st.ptr + 1, off := off, len := len, frame_size := frame_size, pcm := pcm,
              calls := calls })

/-- The function `opus_multistream_decode_native`; `pcm0` is the contents of the output buffer
on entry. Each scatter loop gets `nb_channels + 1` units of fuel. -/
def opus_multistream_decode_native (layout : ChannelLayout) (dec_native : SubDecoder)
    (data : Int → Nat) (len : Int) (pcm0 : Int → opus_val16) (frame_size decode_fec : Int) :
    Option DecResult :=
  if len < 2 * layout.nb_streams - 1 then
    some { ret := OPUS_BUFFER_TOO_SMALL, pcm := pcm0, calls := [] }
  else
    decode_loop layout dec_native data decode_fec (layout.nb_channels.toNat + 1)
      (layout.nb_streams - 0).toNat 0
      { ptr := 0, off := 0, len := len, frame_size := frame_size, pcm := pcm0, calls := [] }

/-! ## Concrete layouts and stub codecs used in the evaluations -/

/-- The layout with the three counts given and the mapping read from a list (`0` beyond it). -/
def layout_of (nb_channels nb_streams nb_coupled_streams : Int) (mapping : List Nat) :
    ChannelLayout :=
  { nb_channels := nb_channels, nb_streams := nb_streams,
    nb_coupled_streams := nb_coupled_streams, mapping := fun i => mapping.getD i 0 }

/-- Modelled from the spec: the length encoder `encode_size` of the single-stream codec, one
byte below 252 and two bytes from there on. -/
def stub_encode_size (size : Int) : List Nat :=
  if size < 252 then [size.toNat]
  else [252 + size.toNat % 4, (size.toNat - (252 + size.toNat % 4)) / 4]

/-- Modelled from the spec: a lossless stub single-stream encoder. Sub-encoder `enc` has 2
channels when `enc < nb_coupled` and 1 otherwise; it emits the ToC byte `toc enc` followed by
the raw samples of its channels, one byte each. -/
def stub_encode (nb_coupled : Nat) (toc : Nat → Nat) (enc : Nat) (buf : Int → opus_val16)
    (frame_size _max_data_bytes : Int) : Int × (Int → Nat) :=
  let channels : Int := if enc < nb_coupled then 2 else 1
  (1 + channels * frame_size, fun j => if j = 0 then toc enc else (buf (j - 1)).toNat % 256)

/-- Modelled from the spec: the self-delimited decode of the lossless stub. It reads the ToC
byte, the length field written by `stub_encode_size` and that many sample bytes; it returns the
number of samples per channel, the bytes consumed and the samples. A packet shorter than its
length field announces is refused with `OPUS_CORRUPTED_DATA`. -/
def stub_decode (nb_coupled : Nat) : SubDecoder :=
  fun dec data len _frame_size _decode_fec _self_delimited =>
    let channels : Int := if dec < nb_coupled then 2 else 1
    let b0 := data 1
    let hdr : Int := if b0 < 252 then 2 else 3
    let n : Int := if b0 < 252 then b0 else 4 * data 2 + b0
    if len < hdr + n then
      { ret := OPUS_CORRUPTED_DATA, packet_offset := 0, buf := fun _ => 0 }
    else
      { ret := n / channels, packet_offset := hdr + n, buf := fun j => data (hdr + j) }

/-- The framing of the specification: per stream the ToC byte, then (for every stream but the
last) the length field of `payload_length - 1`, then the remaining payload bytes. -/
def framed_packet (encode_size : Int → List Nat) : List (List Nat) → List Nat
  | [] => []
  | [p] => p
  | p :: q :: ps =>
    p.take 1 ++ encode_size ((p.length : Int) - 1) ++ p.drop 1
      ++ framed_packet encode_size (q :: ps)

/-- The payload a recorded call left in `tmp_data`: its first `len` bytes. -/
def payload_of (env : EncoderEnv) (c : EncCall) : List Nat :=
  first_bytes (env.opus_encode_native c.enc c.buf c.frame_size c.max_data_bytes).2 c.len

/-! ## Specification-side definitions -/

/-- The contract of a lookup in the words of the specification: `r` is the smallest channel
index `i > after` (`i ≥ 0` when `after < 0`) below `nb_channels` whose mapping entry is `slot`,
and `r = -1` when there is none. -/
def IsLookupResult (layout : ChannelLayout) (slot after r : Int) : Prop :=
  (r = -1 ∧ ∀ i, after < i → 0 ≤ i → i < layout.nb_channels → layout.entry i ≠ slot) ∨
  (after < r ∧ 0 ≤ r ∧ r < layout.nb_channels ∧ layout.entry r = slot ∧
    ∀ i, after < i → 0 ≤ i → i < r → layout.entry i ≠ slot)

/-- Some channel of the layout is mapped to `slot`. -/
def HasChannel (layout : ChannelLayout) (slot : Int) : Prop :=
  ∃ i, 0 ≤ i ∧ i < layout.nb_channels ∧ layout.entry i = slot

/-- Channel `ch` is the lowest-index channel of the layout mapped to `slot`. -/
def IsLowestChannel (layout : ChannelLayout) (slot ch : Int) : Prop :=
  0 ≤ ch ∧ ch < layout.nb_channels ∧ layout.entry ch = slot ∧
    ∀ i, 0 ≤ i → i < ch → layout.entry i ≠ slot

/-- The source-channel requirement of stream `s` for an encoder. -/
def StreamCovered (layout : ChannelLayout) (s : Int) : Prop :=
  (s < layout.nb_coupled_streams → HasChannel layout (2 * s) ∧ HasChannel layout (2 * s + 1)) ∧
  (¬ s < layout.nb_coupled_streams → HasChannel layout (2 * layout.nb_coupled_streams + s))

/-- Stream `t` feeds channel `c`: the mapping entry of `c` is the left or the right slot of the
coupled stream `t`, or the slot that the mono lookup uses for the mono stream `t`. -/
def Feeds (layout : ChannelLayout) (t c : Int) : Prop :=
  (t < layout.nb_coupled_streams ∧ (layout.entry c = 2 * t ∨ layout.entry c = 2 * t + 1)) ∨
  (¬ t < layout.nb_coupled_streams ∧ layout.entry c = 2 * layout.nb_coupled_streams + t)

/-- The sample of frame `i` that stream `t` scatters to a channel `c` it feeds. -/
def routed_sample (layout : ChannelLayout) (t : Int) (buf : Int → opus_val16) (c i : Int) :
    opus_val16 :=
  if t < layout.nb_coupled_streams then
    if layout.entry c = 2 * t then buf (2 * i) else buf (2 * i + 1)
  else buf i

/-- What the stream loop entered at stream `s` in state `st` guarantees about its result `r`:
the log grows by calls of the streams from `s` on, each on its own sub-decoder; a non-positive
result of a call decides the return value; and when the return value is positive every stream
was decoded with that sample count, muted channels are zero, fed channels hold the routed
samples and the channels fed by no stream from `s` on are untouched. -/
def DecodePost (layout : ChannelLayout) (s : Int) (st : DecState) (r : DecResult) : Prop :=
  ∃ suffix : List DecCall, r.calls = st.calls ++ suffix ∧
    (∀ call ∈ suffix, s ≤ call.s ∧ call.s < layout.nb_streams ∧ (call.dec : Int) = call.s) ∧
    ((s = 0 → 0 ≤ st.frame_size) → ∀ call ∈ suffix, call.out.ret ≤ 0 →
      r.ret = if call.s = 0 then call.out.ret else OPUS_CORRUPTED_DATA) ∧
    (0 < r.ret →
      (0 < s → r.ret = st.frame_size) ∧
      (∀ t, s ≤ t → t < layout.nb_streams → ∃ call ∈ suffix, call.s = t) ∧
      (∀ call ∈ suffix, call.out.ret = r.ret) ∧
      (∀ c i, 0 ≤ c → c < layout.nb_channels →
        (layout.entry c = 255 → 0 ≤ i → i < r.ret → r.pcm (layout.nb_channels * i + c) = 0) ∧
        (layout.entry c ≠ 255 →
          (∀ call ∈ suffix, Feeds layout call.s c → 0 ≤ i → i < r.ret →
            r.pcm (layout.nb_channels * i + c)
              = routed_sample layout call.s call.out.buf c i) ∧
          ((∀ t, s ≤ t → t < layout.nb_streams → ¬ Feeds layout t c) →
            r.pcm (layout.nb_channels * i + c) = st.pcm (layout.nb_channels * i + c)))))

/-- The cursor protocol of the scatter loops of the decoder with the copy left out:
`prev = -1; while ((chan = get(prev)) != -1) prev = chan;`. The result is the list of the
channels returned, in the order of the calls; each unit of fuel pays for one call of the lookup,
and the result is `none` when the fuel runs out before a call returns `-1`. -/
def cursor_walk (get : Int → Int) : Nat → Int → Option (List Int)
  | 0, _ => none
  | fuel + 1, prev =>
    let chan := get prev
    if chan ≠ -1 then (cursor_walk get fuel chan).map (fun rest => chan :: rest)
    else some []

/-- The cursor protocol on the lookup `get` started at `-1` ends within `nb_channels + 1` calls
and returns, in strictly increasing order and without repetition, exactly the channels below
`nb_channels` that are mapped to `slot`. -/
def EnumeratesSlot (layout : ChannelLayout) (get : Int → Int) (slot : Int) : Prop :=
  ∃ chans, cursor_walk get (layout.nb_channels.toNat + 1) (-1) = some chans ∧
    chans.length + 1 ≤ layout.nb_channels.toNat + 1 ∧
    (0 ≤ layout.nb_channels → ((chans.length : Int) + 1 ≤ layout.nb_channels + 1)) ∧
    chans.Pairwise (fun a b => a < b) ∧ chans.Nodup ∧
    ∀ i, i ∈ chans ↔ 0 ≤ i ∧ i < layout.nb_channels ∧ layout.entry i = slot

/-- A recorded call of the single-stream decoder passes the three checks that follow it in the
stream loop: the result is positive, does not exceed the `frame_size` it was given and, after
the first stream, equals it. -/
def DecCall.passes (c : DecCall) : Prop :=
  0 < c.out.ret ∧ c.out.ret ≤ c.frame_size ∧ (0 < c.s → c.out.ret = c.frame_size)

/-- The packet bytes consumed by a list of recorded calls: the sum of their `packet_offset`. -/
def consumed (calls : List DecCall) : Int :=
  (calls.map (fun c => c.out.packet_offset)).sum

/-- A layout with coupled and mono streams that both validators accept: 255 channels, 254
streams of which 1 is coupled, channels 0 and 1 on the slots 0 and 1 and channel `i ≥ 2` on the
slot `i + 1`, so that the last channel is on 255. -/
def sentinel_mixed_layout : ChannelLayout :=
  { nb_channels := 255, nb_streams := 254, nb_coupled_streams := 1,
    mapping := fun i => if i < 2 then i else i + 1 }

/-- The byte `mapping[i]` of the array the caller hands to an init function, promoted to
`int`. -/
def mapping_byte (mapping : Nat → Nat) (i : Nat) : Int :=
  ((mapping i % 256 : Nat) : Int)

/-! ## Lemmas on the layout functions -/

theorem entry_nonneg (layout : ChannelLayout) (i : Int) : 0 ≤ layout.entry i := by
  unfold ChannelLayout.entry
  exact Int.ofNat_nonneg _

theorem entry_le (layout : ChannelLayout) (i : Int) : layout.entry i ≤ 255 := by
  unfold ChannelLayout.entry
  have : layout.mapping i.toNat % 256 < 256 := Nat.mod_lt _ (by decide)
  omega

theorem scan_mapping_spec (layout : ChannelLayout) (target : Int) (k : Nat) :
    ∀ i : Int, 0 ≤ i →
      (scan_mapping layout target k i = -1 ∧
        ∀ j, i ≤ j → j < i + k → layout.entry j ≠ target) ∨
      (i ≤ scan_mapping layout target k i ∧ scan_mapping layout target k i < i + k ∧
        layout.entry (scan_mapping layout target k i) = target ∧
        ∀ j, i ≤ j → j < scan_mapping layout target k i → layout.entry j ≠ target) := by
  induction k with
  | zero =>
    intro i _
    left
    refine ⟨rfl, ?_⟩
    intro j h1 h2
    simp at h2
    omega
  | succ k ih =>
    intro i hi
    rw [scan_mapping]
    by_cases h : layout.entry i = target
    · right
      rw [if_pos h]
      refine ⟨le_refl _, by push_cast; omega, h, ?_⟩
      intro j h1 h2
      omega
    · rw [if_neg h]
      rcases ih (i + 1) (by omega) with ⟨h1, h2⟩ | ⟨h1, h2, h3, h4⟩
      · left
        refine ⟨h1, ?_⟩
        intro j hj1 hj2
        by_cases hji : j = i
        · subst hji
          exact h
        · exact h2 j (by omega) (by push_cast at hj2; omega)
      · right
        refine ⟨by omega, by push_cast; omega, h3, ?_⟩
        intro j hj1 hj2
        by_cases hji : j = i
        · subst hji
          exact h
        · exact h4 j (by omega) hj2

/-- The scan started from the cursor `prev` meets the contract of a lookup. -/
theorem scan_from_cursor (layout : ChannelLayout) (target prev : Int) :
    IsLookupResult layout target prev
      (scan_mapping layout target
        (layout.nb_channels - (if prev < 0 then 0 else prev + 1)).toNat
        (if prev < 0 then 0 else prev + 1)) := by
  have hstart : (0 : Int) ≤ (if prev < 0 then 0 else prev + 1) := by
    split <;> omega
  have hs := scan_mapping_spec layout target
    (layout.nb_channels - (if prev < 0 then 0 else prev + 1)).toNat _ hstart
  generalize scan_mapping layout target
    (layout.nb_channels - (if prev < 0 then 0 else prev + 1)).toNat
    (if prev < 0 then 0 else prev + 1) = r at hs
  unfold IsLookupResult
  rcases hs with ⟨h1, h2⟩ | ⟨h1, h2, h3, h4⟩
  · left
    refine ⟨h1, ?_⟩
    intro i hi1 hi2 hi3
    apply h2 i
    · split <;> omega
    · split <;> omega
  · right
    refine ⟨?_, ?_, ?_, h3, ?_⟩
    · split at h1 <;> omega
    · split at h1 <;> omega
    · split at h2 <;> omega
    · intro i hi1 hi2 hi3
      apply h4 i _ hi3
      split <;> omega

theorem get_left_channel_spec (layout : ChannelLayout) (stream_id prev : Int) :
    IsLookupResult layout (2 * stream_id) prev (get_left_channel layout stream_id prev) := by
  have h := scan_from_cursor layout (stream_id * 2) prev
  have e : stream_id * 2 = 2 * stream_id := by ring
  rw [← e]
  exact h

theorem get_right_channel_spec (layout : ChannelLayout) (stream_id prev : Int) :
    IsLookupResult layout (2 * stream_id + 1) prev (get_right_channel layout stream_id prev) := by
  have h := scan_from_cursor layout (stream_id * 2 + 1) prev
  have e : stream_id * 2 = 2 * stream_id := by ring
  rw [← e]
  exact h

theorem get_mono_channel_spec (layout : ChannelLayout) (stream_id prev : Int) :
    IsLookupResult layout (2 * layout.nb_coupled_streams + stream_id) prev
      (get_mono_channel layout stream_id prev) :=
  scan_from_cursor layout (2 * layout.nb_coupled_streams + stream_id) prev

/-- A lookup from the cursor `-1` fails exactly when no channel is mapped to the slot. -/
theorem lookup_first_ne_iff (layout : ChannelLayout) (slot r : Int)
    (h : IsLookupResult layout slot (-1) r) : r ≠ -1 ↔ HasChannel layout slot := by
  unfold IsLookupResult at h
  unfold HasChannel
  rcases h with ⟨h1, h2⟩ | ⟨h1, h2, h3, h4, _⟩
  · constructor
    · intro hne
      exact absurd h1 hne
    · rintro ⟨i, hi1, hi2, hi3⟩
      exact absurd hi3 (h2 i (by omega) hi1 hi2)
  · constructor
    · intro _
      exact ⟨r, h2, h3, h4⟩
    · intro _
      omega

theorem validate_layout_loop_spec (layout : ChannelLayout) (max_channel : Int) (k : Nat) :
    ∀ i : Int,
      (validate_layout_loop layout max_channel k i = 1 ∨
        validate_layout_loop layout max_channel k i = 0) ∧
      (validate_layout_loop layout max_channel k i = 1 ↔
        ∀ j, i ≤ j → j < i + k → layout.entry j = 255 ∨ layout.entry j < max_channel) := by
  induction k with
  | zero =>
    intro i
    refine ⟨Or.inl rfl, ?_⟩
    constructor
    · intro _ j h1 h2
      simp at h2
      omega
    · intro _
      rfl
  | succ k ih =>
    intro i
    rw [validate_layout_loop]
    by_cases h : layout.entry i ≥ max_channel ∧ layout.entry i ≠ 255
    · rw [if_pos h]
      refine ⟨Or.inr rfl, ?_⟩
      constructor
      · intro h0
        exact absurd h0 (by decide)
      · intro hall
        have := hall i (le_refl _) (by push_cast; omega)
        omega
    · rw [if_neg h]
      refine ⟨(ih (i + 1)).1, ?_⟩
      rw [(ih (i + 1)).2]
      constructor
      · intro hall j h1 h2
        by_cases hji : j = i
        · subst hji
          omega
        · exact hall j (by omega) (by push_cast at h2; omega)
      · intro hall j h1 h2
        exact hall j (by omega) (by push_cast; omega)

theorem validate_layout_zero_or_one (layout : ChannelLayout) :
    validate_layout layout = 1 ∨ validate_layout layout = 0 := by
  unfold validate_layout
  simp only
  split
  · right
    rfl
  · exact (validate_layout_loop_spec layout _ _ 0).1

theorem validate_layout_iff (layout : ChannelLayout) :
    validate_layout layout = 1 ↔
      layout.nb_streams + layout.nb_coupled_streams ≤ 255 ∧
      ∀ i, 0 ≤ i → i < layout.nb_channels →
        layout.entry i = 255 ∨ layout.entry i < layout.nb_streams + layout.nb_coupled_streams := by
  unfold validate_layout
  simp only
  split
  · rename_i h
    constructor
    · intro h0
      exact absurd h0 (by decide)
    · rintro ⟨h1, _⟩
      omega
  · rename_i h
    rw [(validate_layout_loop_spec layout _ _ 0).2]
    constructor
    · intro hall
      refine ⟨by omega, ?_⟩
      intro i h1 h2
      exact hall i h1 (by omega)
    · rintro ⟨_, hall⟩ j h1 h2
      exact hall j h1 (by omega)

theorem validate_encoder_layout_loop_spec (layout : ChannelLayout) (k : Nat) :
    ∀ s : Int,
      (validate_encoder_layout_loop layout k s = 1 ∨
        validate_encoder_layout_loop layout k s = 0) ∧
      (validate_encoder_layout_loop layout k s = 1 ↔
        ∀ t, s ≤ t → t < s + k → StreamCovered layout t) := by
  induction k with
  | zero =>
    intro s
    refine ⟨Or.inl rfl, ?_⟩
    constructor
    · intro _ t h1 h2
      simp at h2
      omega
    · intro _
      rfl
  | succ k ih =>
    intro s
    have hl := lookup_first_ne_iff layout _ _ (get_left_channel_spec layout s (-1))
    have hr := lookup_first_ne_iff layout _ _ (get_right_channel_spec layout s (-1))
    have hm := lookup_first_ne_iff layout _ _ (get_mono_channel_spec layout s (-1))
    have hcov : (validate_encoder_layout_loop layout (k + 1) s = 1 ∨
          validate_encoder_layout_loop layout (k + 1) s = 0) ∧
        (validate_encoder_layout_loop layout (k + 1) s = 1 ↔
          StreamCovered layout s ∧ validate_encoder_layout_loop layout k (s + 1) = 1) := by
      rw [validate_encoder_layout_loop]
      unfold StreamCovered
      by_cases hc : s < layout.nb_coupled_streams
      · simp only [hc, if_true, not_true_eq_false, true_implies, false_implies, and_true]
        by_cases h1 : get_left_channel layout s (-1) = -1
        · have : ¬ HasChannel layout (2 * s) := fun hh => (hl.2 hh) h1
          simp [h1, this]
        · have h1' := hl.1 h1
          simp only [h1, if_false, h1', true_and]
          by_cases h2 : get_right_channel layout s (-1) = -1
          · have : ¬ HasChannel layout (2 * s + 1) := fun hh => (hr.2 hh) h2
            simp [h2, this]
          · have h2' := hr.1 h2
            simp only [h2, if_false, h2', true_and]
            exact ⟨(ih (s + 1)).1, trivial⟩
      · simp only [hc, if_false, not_false_eq_true, true_implies, false_implies, true_and]
        by_cases h1 : get_mono_channel layout s (-1) = -1
        · have : ¬ HasChannel layout (2 * layout.nb_coupled_streams + s) :=
            fun hh => (hm.2 hh) h1
          simp [h1, this]
        · have h1' := hm.1 h1
          simp only [h1, if_false, h1', true_and]
          exact ⟨(ih (s + 1)).1, trivial⟩
    refine ⟨hcov.1, ?_⟩
    rw [hcov.2, (ih (s + 1)).2]
    constructor
    · rintro ⟨h0, hall⟩ t h1 h2
      by_cases hts : t = s
      · subst hts
        exact h0
      · exact hall t (by omega) (by push_cast at h2; omega)
    · intro hall
      refine ⟨hall s (le_refl _) (by push_cast; omega), ?_⟩
      intro t h1 h2
      exact hall t (by omega) (by push_cast; omega)

theorem validate_encoder_layout_zero_or_one (layout : ChannelLayout) :
    validate_encoder_layout layout = 1 ∨ validate_encoder_layout layout = 0 :=
  (validate_encoder_layout_loop_spec layout _ 0).1

theorem validate_encoder_layout_iff (layout : ChannelLayout) :
    validate_encoder_layout layout = 1 ↔
      ∀ s, 0 ≤ s → s < layout.nb_streams → StreamCovered layout s := by
  unfold validate_encoder_layout
  rw [(validate_encoder_layout_loop_spec layout _ 0).2]
  constructor
  · intro hall s h1 h2
    exact hall s h1 (by omega)
  · intro hall t h1 h2
    exact hall t h1 (by omega)

/-! ## Layout validation and lookups: the settled statements -/

/-- The layout an init function stores has the caller's byte on every channel. -/
theorem store_layout_entry (st : ChannelLayout) (channels streams coupled_streams : Int)
    (mapping : Nat → Nat) (i : Nat) (h : (i : Int) < channels) :
    (store_layout st channels streams coupled_streams mapping).entry i = mapping_byte mapping i := by
  unfold ChannelLayout.entry store_layout mapping_byte
  simp only [Int.toNat_ofNat]
  rw [if_pos h, Nat.mod_mod]

/-- The verdict of `validate_layout` on the stored layout, read on the arguments of init. -/
theorem validate_layout_store_iff (st : ChannelLayout) (channels streams coupled_streams : Int)
    (mapping : Nat → Nat) :
    validate_layout (store_layout st channels streams coupled_streams mapping) = 1 ↔
      streams + coupled_streams ≤ 255 ∧
      ∀ i : Nat, (i : Int) < channels →
        mapping_byte mapping i = 255 ∨ mapping_byte mapping i < streams + coupled_streams := by
  rw [validate_layout_iff]
  constructor
  · rintro ⟨h1, h2⟩
    refine ⟨h1, ?_⟩
    intro i hi
    have := h2 (i : Int) (Int.ofNat_nonneg _) hi
    rw [store_layout_entry st channels streams coupled_streams mapping i hi] at this
    exact this
  · rintro ⟨h1, h2⟩
    refine ⟨h1, ?_⟩
    intro i hi0 hi1
    have e : ((i.toNat : Nat) : Int) = i := Int.toNat_of_nonneg hi0
    have hi1' : ((i.toNat : Nat) : Int) < channels := by
      rw [e]
      exact hi1
    have := h2 i.toNat hi1'
    rw [← store_layout_entry st channels streams coupled_streams mapping i.toNat hi1', e] at this
    exact this

/-- A channel of the stored layout on a slot is a byte of the caller's mapping below
`channels` with that value. -/
theorem has_channel_store_iff (st : ChannelLayout) (channels streams coupled_streams : Int)
    (mapping : Nat → Nat) (slot : Int) :
    HasChannel (store_layout st channels streams coupled_streams mapping) slot ↔
      ∃ i : Nat, (i : Int) < channels ∧ mapping_byte mapping i = slot := by
  unfold HasChannel
  constructor
  · rintro ⟨i, hi0, hi1, hi⟩
    have e : ((i.toNat : Nat) : Int) = i := Int.toNat_of_nonneg hi0
    have hi1' : ((i.toNat : Nat) : Int) < channels := by
      rw [e]
      exact hi1
    refine ⟨i.toNat, hi1', ?_⟩
    rw [← store_layout_entry st channels streams coupled_streams mapping i.toNat hi1', e]
    exact hi
  · rintro ⟨i, hi1, hi⟩
    refine ⟨(i : Int), Int.ofNat_nonneg _, hi1, ?_⟩
    rw [store_layout_entry st channels streams coupled_streams mapping i hi1]
    exact hi

/-- The verdict of `validate_encoder_layout` on the stored layout, read on the arguments of
init. -/
theorem validate_encoder_layout_store_iff (st : ChannelLayout)
    (channels streams coupled_streams : Int) (mapping : Nat → Nat) :
    validate_encoder_layout (store_layout st channels streams coupled_streams mapping) = 1 ↔
      ∀ s, 0 ≤ s → s < streams →
        (s < coupled_streams →
          (∃ i : Nat, (i : Int) < channels ∧ mapping_byte mapping i = 2 * s) ∧
          (∃ i : Nat, (i : Int) < channels ∧ mapping_byte mapping i = 2 * s + 1)) ∧
        (¬ s < coupled_streams →
          ∃ i : Nat, (i : Int) < channels ∧
            mapping_byte mapping i = 2 * coupled_streams + s) := by
  rw [validate_encoder_layout_iff]
  unfold StreamCovered
  simp only [has_channel_store_iff]
  rfl

/-- The return code of decoder init on its arguments. -/
theorem decoder_init_ret (st : ChannelLayout) (channels streams coupled_streams : Int)
    (mapping : Nat → Nat) :
    ((opus_multistream_decoder_init st channels streams coupled_streams mapping).ret = OPUS_OK ↔
      validate_layout (store_layout st channels streams coupled_streams mapping) = 1) ∧
    ((opus_multistream_decoder_init st channels streams coupled_streams mapping).ret
        = OPUS_BAD_ARG ↔
      ¬ validate_layout (store_layout st channels streams coupled_streams mapping) = 1) := by
  unfold opus_multistream_decoder_init
  simp only
  rcases validate_layout_zero_or_one
    (store_layout st channels streams coupled_streams mapping) with h | h
  · rw [h]
    simp [OPUS_OK, OPUS_BAD_ARG]
  · rw [h]
    simp [OPUS_OK, OPUS_BAD_ARG]

/-- The return code of encoder init on its arguments. -/
theorem encoder_init_ret (st : ChannelLayout) (channels streams coupled_streams : Int)
    (mapping : Nat → Nat) :
    ((opus_multistream_encoder_init st channels streams coupled_streams mapping).ret = OPUS_OK ↔
      validate_layout (store_layout st channels streams coupled_streams mapping) = 1 ∧
      validate_encoder_layout (store_layout st channels streams coupled_streams mapping) = 1) ∧
    ((opus_multistream_encoder_init st channels streams coupled_streams mapping).ret
        = OPUS_BAD_ARG ↔
      ¬ (validate_layout (store_layout st channels streams coupled_streams mapping) = 1 ∧
        validate_encoder_layout
          (store_layout st channels streams coupled_streams mapping) = 1)) := by
  unfold opus_multistream_encoder_init
  simp only
  rcases validate_layout_zero_or_one
    (store_layout st channels streams coupled_streams mapping) with h | h <;>
  rcases validate_encoder_layout_zero_or_one
    (store_layout st channels streams coupled_streams mapping) with h' | h' <;>
  · rw [h, h']
    simp [OPUS_OK, OPUS_BAD_ARG]

/-- C3: `validate_layout` accepts exactly the layouts with
`nb_streams + nb_coupled_streams ≤ 255` whose entries below `nb_channels` are all `255` or less
than `nb_streams + nb_coupled_streams`. Decoder init, whatever the state held before, stores
the three counts and the caller's bytes on the channels below `channels`, returns `OPUS_OK`
exactly when `streams + coupled_streams ≤ 255` and every byte `mapping[i]`, `i < channels`, is
255 or less than `streams + coupled_streams`, and returns `OPUS_BAD_ARG` otherwise; it does not
ask that every stream has a channel: 1 channel, 1 stream and mapping `[255]` is accepted, while
the mapping `[7]` and the counts 200 + 56 are refused. -/
theorem validate_layout_accepts_iff :
    (∀ layout : ChannelLayout,
      validate_layout layout = 1 ↔
        layout.nb_streams + layout.nb_coupled_streams ≤ 255 ∧
        ∀ i, 0 ≤ i → i < layout.nb_channels →
          layout.entry i = 255 ∨
            layout.entry i < layout.nb_streams + layout.nb_coupled_streams) ∧
    (∀ (st : ChannelLayout) (channels streams coupled_streams : Int) (mapping : Nat → Nat),
      ((opus_multistream_decoder_init st channels streams coupled_streams mapping).ret = OPUS_OK ↔
        streams + coupled_streams ≤ 255 ∧
        ∀ i : Nat, (i : Int) < channels →
          mapping_byte mapping i = 255 ∨
            mapping_byte mapping i < streams + coupled_streams) ∧
      ((opus_multistream_decoder_init st channels streams coupled_streams mapping).ret
          = OPUS_BAD_ARG ↔
        ¬ (streams + coupled_streams ≤ 255 ∧
          ∀ i : Nat, (i : Int) < channels →
            mapping_byte mapping i = 255 ∨
              mapping_byte mapping i < streams + coupled_streams)) ∧
      (opus_multistream_decoder_init st channels streams coupled_streams mapping).layout.nb_channels
        = channels ∧
      (opus_multistream_decoder_init st channels streams coupled_streams mapping).layout.nb_streams
        = streams ∧
      (opus_multistream_decoder_init st channels streams coupled_streams
        mapping).layout.nb_coupled_streams = coupled_streams ∧
      ∀ i : Nat, (i : Int) < channels →
        (opus_multistream_decoder_init st channels streams coupled_streams mapping).layout.entry i
          = mapping_byte mapping i) ∧
    (∀ st : ChannelLayout,
      (opus_multistream_decoder_init st 1 1 0 (fun _ => 255)).ret = OPUS_OK ∧
      ¬ HasChannel (opus_multistream_decoder_init st 1 1 0 (fun _ => 255)).layout 0 ∧
      (opus_multistream_decoder_init st 1 1 0 (fun _ => 7)).ret = OPUS_BAD_ARG ∧
      (opus_multistream_decoder_init st 2 200 56 (fun _ => 0)).ret = OPUS_BAD_ARG) ∧
    (opus_multistream_decoder_init ⟨7, 3, 1, fun _ => 5⟩ 3 2 1
        (fun i => [0, 1, 255].getD i 9)).ret = OPUS_OK ∧
    (opus_multistream_decoder_init ⟨7, 3, 1, fun _ => 5⟩ 3 2 1
        (fun i => [0, 1, 3].getD i 9)).ret = OPUS_BAD_ARG := by
  refine ⟨validate_layout_iff, ?_, ?_, by decide, by decide⟩
  · intro st channels streams coupled_streams mapping
    have hret := decoder_init_ret st channels streams coupled_streams mapping
    rw [validate_layout_store_iff] at hret
    have hlay : (opus_multistream_decoder_init st channels streams coupled_streams
        mapping).layout = store_layout st channels streams coupled_streams mapping := by
      unfold opus_multistream_decoder_init
      simp only
      split <;> rfl
    refine ⟨hret.1, hret.2, ?_, ?_, ?_, ?_⟩
    · rw [hlay]
      rfl
    · rw [hlay]
      rfl
    · rw [hlay]
      rfl
    · intro i hi
      rw [hlay]
      exact store_layout_entry st channels streams coupled_streams mapping i hi
  · intro st
    have hbyte : ∀ (v : Nat) (i : Nat), mapping_byte (fun _ => v) i = ((v % 256 : Nat) : Int) :=
      fun _ _ => rfl
    have hlay : (opus_multistream_decoder_init st 1 1 0 (fun _ => 255)).layout
        = store_layout st 1 1 0 (fun _ => 255) := by
      unfold opus_multistream_decoder_init
      simp only
      split <;> rfl
    refine ⟨?_, ?_, ?_, ?_⟩
    · rw [(decoder_init_ret st 1 1 0 (fun _ => 255)).1, validate_layout_store_iff]
      refine ⟨by decide, fun i _ => Or.inl ?_⟩
      rw [hbyte]
      decide
    · rw [hlay, has_channel_store_iff]
      rintro ⟨i, _, hi⟩
      rw [hbyte] at hi
      revert hi
      decide
    · rw [(decoder_init_ret st 1 1 0 (fun _ => 7)).2, validate_layout_store_iff]
      rintro ⟨_, h⟩
      have := h 0 (by decide)
      rw [hbyte] at this
      revert this
      decide
    · rw [(decoder_init_ret st 2 200 56 (fun _ => 0)).2, validate_layout_store_iff]
      rintro ⟨h, _⟩
      revert h
      decide

/-- C4: `validate_encoder_layout` accepts exactly the layouts in which every stream index
`0 ≤ s < nb_streams` has, when `s < nb_coupled_streams`, a channel mapped to `2*s` and one mapped
to `2*s+1`, and otherwise a channel mapped to the slot `2*nb_coupled_streams + s` of the mono
lookup. Encoder init, whatever the state held before, returns `OPUS_OK` exactly when its
arguments pass both tests (`streams + coupled_streams ≤ 255`, every byte `mapping[i]` with
`i < channels` is 255 or less than `streams + coupled_streams`, and every stream index has its
source bytes among `mapping[0..channels)`), and returns `OPUS_BAD_ARG` exactly when one of the
two tests fails. -/
theorem validate_encoder_layout_accepts_iff :
    (∀ layout : ChannelLayout,
      validate_encoder_layout layout = 1 ↔
        ∀ s, 0 ≤ s → s < layout.nb_streams →
          (s < layout.nb_coupled_streams →
            HasChannel layout (2 * s) ∧ HasChannel layout (2 * s + 1)) ∧
          (¬ s < layout.nb_coupled_streams →
            HasChannel layout (2 * layout.nb_coupled_streams + s))) ∧
    (∀ (st : ChannelLayout) (channels streams coupled_streams : Int) (mapping : Nat → Nat),
      ((opus_multistream_encoder_init st channels streams coupled_streams mapping).ret
          = OPUS_OK ↔
        (streams + coupled_streams ≤ 255 ∧
          ∀ i : Nat, (i : Int) < channels →
            mapping_byte mapping i = 255 ∨
              mapping_byte mapping i < streams + coupled_streams) ∧
        (∀ s, 0 ≤ s → s < streams →
          (s < coupled_streams →
            (∃ i : Nat, (i : Int) < channels ∧ mapping_byte mapping i = 2 * s) ∧
            (∃ i : Nat, (i : Int) < channels ∧ mapping_byte mapping i = 2 * s + 1)) ∧
          (¬ s < coupled_streams →
            ∃ i : Nat, (i : Int) < channels ∧
              mapping_byte mapping i = 2 * coupled_streams + s))) ∧
      ((opus_multistream_encoder_init st channels streams coupled_streams mapping).ret
          = OPUS_BAD_ARG ↔
        (¬ (streams + coupled_streams ≤ 255 ∧
            ∀ i : Nat, (i : Int) < channels →
              mapping_byte mapping i = 255 ∨
                mapping_byte mapping i < streams + coupled_streams) ∨
          ¬ (∀ s, 0 ≤ s → s < streams →
            (s < coupled_streams →
              (∃ i : Nat, (i : Int) < channels ∧ mapping_byte mapping i = 2 * s) ∧
              (∃ i : Nat, (i : Int) < channels ∧ mapping_byte mapping i = 2 * s + 1)) ∧
            (¬ s < coupled_streams →
              ∃ i : Nat, (i : Int) < channels ∧
                mapping_byte mapping i = 2 * coupled_streams + s)))) ∧
      ((opus_multistream_encoder_init st channels streams coupled_streams mapping).ret
          = OPUS_BAD_ARG ↔
        (validate_layout (opus_multistream_encoder_init st channels streams coupled_streams
            mapping).layout ≠ 1 ∨
          validate_encoder_layout (opus_multistream_encoder_init st channels streams
            coupled_streams mapping).layout ≠ 1)) ∧
      (opus_multistream_encoder_init st channels streams coupled_streams mapping).layout.nb_channels
        = channels ∧
      (opus_multistream_encoder_init st channels streams coupled_streams mapping).layout.nb_streams
        = streams ∧
      (opus_multistream_encoder_init st channels streams coupled_streams
        mapping).layout.nb_coupled_streams = coupled_streams ∧
      ∀ i : Nat, (i : Int) < channels →
        (opus_multistream_encoder_init st channels streams coupled_streams mapping).layout.entry i
          = mapping_byte mapping i) ∧
    (opus_multistream_encoder_init ⟨7, 3, 1, fun _ => 5⟩ 4 2 2
        (fun i => [0, 1, 2, 3].getD i 9)).ret = OPUS_OK ∧
    (opus_multistream_encoder_init ⟨7, 3, 1, fun _ => 5⟩ 4 2 2
        (fun i => [0, 1, 2, 2].getD i 9)).ret = OPUS_BAD_ARG ∧
    (opus_multistream_encoder_init ⟨7, 3, 1, fun _ => 5⟩ 4 2 2
        (fun i => [0, 1, 2, 4].getD i 9)).ret = OPUS_BAD_ARG ∧
    (opus_multistream_encoder_init ⟨7, 3, 1, fun _ => 5⟩ 1 1 0 (fun _ => 255)).ret
      = OPUS_BAD_ARG ∧
    (opus_multistream_decoder_init ⟨7, 3, 1, fun _ => 5⟩ 1 1 0 (fun _ => 255)).ret = OPUS_OK := by
  refine ⟨validate_encoder_layout_iff, ?_, by decide, by decide, by decide, by decide,
    by decide⟩
  intro st channels streams coupled_streams mapping
  have hret := encoder_init_ret st channels streams coupled_streams mapping
  have hlay : (opus_multistream_encoder_init st channels streams coupled_streams
      mapping).layout = store_layout st channels streams coupled_streams mapping := by
    unfold opus_multistream_encoder_init
    simp only
    split <;> rfl
  have hret2 := hret.2
  rw [validate_layout_store_iff, validate_encoder_layout_store_iff] at hret
  refine ⟨hret.1, ?_, ?_, ?_, ?_, ?_, ?_⟩
  · rw [hret.2]
    exact not_and_or
  · rw [hlay, hret2]
    exact not_and_or
  · rw [hlay]
    rfl
  · rw [hlay]
    rfl
  · rw [hlay]
    rfl
  · intro i hi
    rw [hlay]
    exact store_layout_entry st channels streams coupled_streams mapping i hi

/-- C5: each of the three lookups returns the smallest channel index `i > after` (`i ≥ 0` when
`after < 0`) with `i < nb_channels` whose mapping entry is the slot (left `2*stream_id`, right
`2*stream_id+1`, mono `2*nb_coupled_streams+stream_id`), and `-1` exactly when there is none. -/
theorem lookups_return_next_channel (layout : ChannelLayout) (stream_id after : Int) :
    IsLookupResult layout (2 * stream_id) after (get_left_channel layout stream_id after) ∧
    IsLookupResult layout (2 * stream_id + 1) after
      (get_right_channel layout stream_id after) ∧
    IsLookupResult layout (2 * layout.nb_coupled_streams + stream_id) after
      (get_mono_channel layout stream_id after) :=
  ⟨get_left_channel_spec layout stream_id after, get_right_channel_spec layout stream_id after,
    get_mono_channel_spec layout stream_id after⟩

/-! ## Encoder: evaluations and routing -/

/-- C1: evaluation of the encoder on two mono streams whose sub-encoders return the two-byte
payloads `[10, 7]` and `[11, 9]`. The encoder returns 5, the framing of the specification is
`[10, 1, 7, 11, 9]`, and the first 5 bytes of the output buffer are `[10, 1, 11, 9, 0]`: the
write pointer is not moved past the copied payload, so the second ToC byte lands on the first
payload byte and the last counted byte is never written. Encoder init accepts the layout. -/
theorem encode_framing_two_streams :
    (opus_multistream_encoder_init ⟨0, 0, 0, fun _ => 0⟩ 2 2 0 (fun i => [0, 1].getD i 0)).ret
      = OPUS_OK ∧
    (opus_multistream_encode (layout_of 2 2 0 [0, 1])
        ⟨stub_encode 0 (fun e => 10 + e), stub_encode_size⟩
        (fun j => [7, 9].getD j.toNat 0) 1 (fun _ => 0) 100 (fun _ => 0)).ret = 5 ∧
    (opus_multistream_encode (layout_of 2 2 0 [0, 1])
        ⟨stub_encode 0 (fun e => 10 + e), stub_encode_size⟩
        (fun j => [7, 9].getD j.toNat 0) 1 (fun _ => 0) 100 (fun _ => 0)).calls.map
      (payload_of ⟨stub_encode 0 (fun e => 10 + e), stub_encode_size⟩) = [[10, 7], [11, 9]] ∧
    framed_packet stub_encode_size [[10, 7], [11, 9]] = [10, 1, 7, 11, 9] ∧
    first_bytes
      (opus_multistream_encode (layout_of 2 2 0 [0, 1])
        ⟨stub_encode 0 (fun e => 10 + e), stub_encode_size⟩
        (fun j => [7, 9].getD j.toNat 0) 1 (fun _ => 0) 100 (fun _ => 0)).data 5
      = [10, 1, 11, 9, 0] := by
  decide

/-- C2: evaluation of the round trip with the lossless stub codec on two mono streams, frame
size 1, input samples 7 (channel 0) and 9 (channel 1). The packet is `[10, 1, 11, 9, 0]`;
decoding it returns `OPUS_CORRUPTED_DATA` and leaves 11 on channel 0. The packet is the same
when channel 0 carries 8 instead of 7, so no decoder can give back the sample of channel 0. -/
theorem round_trip_two_streams :
    (opus_multistream_decode_native (layout_of 2 2 0 [0, 1]) (stub_decode 0)
        (opus_multistream_encode (layout_of 2 2 0 [0, 1])
          ⟨stub_encode 0 (fun e => 10 + e), stub_encode_size⟩
          (fun j => [7, 9].getD j.toNat 0) 1 (fun _ => 0) 100 (fun _ => 0)).data
        5 (fun _ => 0) 1 0).map (fun r => (r.ret, r.pcm 0, r.pcm 1))
      = some (OPUS_CORRUPTED_DATA, 11, 0) ∧
    first_bytes
      (opus_multistream_encode (layout_of 2 2 0 [0, 1])
        ⟨stub_encode 0 (fun e => 10 + e), stub_encode_size⟩
        (fun j => [7, 9].getD j.toNat 0) 1 (fun _ => 0) 100 (fun _ => 0)).data 5
      = first_bytes
        (opus_multistream_encode (layout_of 2 2 0 [0, 1])
          ⟨stub_encode 0 (fun e => 10 + e), stub_encode_size⟩
          (fun j => [8, 9].getD j.toNat 0) 1 (fun _ => 0) 100 (fun _ => 0)).data 5 ∧
    (opus_multistream_encoder_init ⟨0, 0, 0, fun _ => 0⟩ 2 2 0 (fun i => [0, 1].getD i 0)).ret
      = OPUS_OK := by
  decide

theorem lookup_first_lowest (layout : ChannelLayout) (slot r : Int)
    (h : IsLookupResult layout slot (-1) r) (hc : HasChannel layout slot) :
    IsLowestChannel layout slot r := by
  have hne := (lookup_first_ne_iff layout slot r h).2 hc
  unfold IsLookupResult at h
  rcases h with ⟨h1, _⟩ | ⟨_, h2, h3, h4, h5⟩
  · exact absurd h1 hne
  · exact ⟨h2, h3, h4, fun i hi1 hi2 => h5 i (by omega) hi1 hi2⟩

theorem deinterleave_coupled_spec (pcm : Int → opus_val16) (nb_channels left right : Int)
    (k : Nat) :
    ∀ (i0 : Int) (buf : Int → opus_val16),
      (∀ j, j < 2 * i0 ∨ 2 * (i0 + k) ≤ j →
        deinterleave_coupled pcm nb_channels left right k i0 buf j = buf j) ∧
      (∀ i, i0 ≤ i → i < i0 + k →
        deinterleave_coupled pcm nb_channels left right k i0 buf (2 * i)
            = pcm (nb_channels * i + left) ∧
        deinterleave_coupled pcm nb_channels left right k i0 buf (2 * i + 1)
            = pcm (nb_channels * i + right)) := by
  induction k with
  | zero =>
    intro i0 buf
    refine ⟨fun j _ => rfl, ?_⟩
    intro i h1 h2
    simp at h2
    omega
  | succ k ih =>
    intro i0 buf
    rw [deinterleave_coupled]
    obtain ⟨ih1, ih2⟩ := ih (i0 + 1)
      (upd (upd buf (2 * i0) (pcm (nb_channels * i0 + left))) (2 * i0 + 1)
        (pcm (nb_channels * i0 + right)))
    constructor
    · intro j hj
      rw [ih1 j (by push_cast at hj; omega)]
      unfold upd
      rw [if_neg (by push_cast at hj; omega), if_neg (by push_cast at hj; omega)]
    · intro i h1 h2
      by_cases hi : i = i0
      · subst hi
        rw [ih1 (2 * i) (by omega), ih1 (2 * i + 1) (by omega)]
        unfold upd
        constructor
        · rw [if_neg (by omega), if_pos rfl]
        · rw [if_pos rfl]
      · exact ih2 i (by omega) (by push_cast at h2; omega)

theorem deinterleave_mono_spec (pcm : Int → opus_val16) (nb_channels chan : Int) (k : Nat) :
    ∀ (i0 : Int) (buf : Int → opus_val16),
      (∀ j, j < i0 ∨ i0 + k ≤ j → deinterleave_mono pcm nb_channels chan k i0 buf j = buf j) ∧
      (∀ i, i0 ≤ i → i < i0 + k →
        deinterleave_mono pcm nb_channels chan k i0 buf i = pcm (nb_channels * i + chan)) := by
  induction k with
  | zero =>
    intro i0 buf
    refine ⟨fun j _ => rfl, ?_⟩
    intro i h1 h2
    simp at h2
    omega
  | succ k ih =>
    intro i0 buf
    rw [deinterleave_mono]
    obtain ⟨ih1, ih2⟩ := ih (i0 + 1) (upd buf i0 (pcm (nb_channels * i0 + chan)))
    constructor
    · intro j hj
      rw [ih1 j (by push_cast at hj; omega)]
      unfold upd
      rw [if_neg (by push_cast at hj; omega)]
    · intro i h1 h2
      by_cases hi : i = i0
      · subst hi
        rw [ih1 i (by omega)]
        unfold upd
        rw [if_pos rfl]
      · exact ih2 i (by omega) (by push_cast at h2; omega)

/-- A property of the recorded calls that every iteration of the encode loop establishes for
the call it makes holds for all calls of the result. -/
theorem encode_loop_calls_forall (layout : ChannelLayout) (env : EncoderEnv)
    (pcm : Int → opus_val16) (frame_size max_data_bytes : Int) (Q : EncCall → Prop)
    (hQ : ∀ (s : Int) (st : EncState), 0 ≤ s → s < layout.nb_streams → (st.ptr : Int) = s →
      Q { enc := st.ptr, s := s, buf := stream_buf layout pcm frame_size s st.buf,
          frame_size := frame_size,
          max_data_bytes := max_data_bytes - st.tot_size - (2 * (layout.nb_streams - s) - 1),
          len := (env.opus_encode_native st.ptr (stream_buf layout pcm frame_size s st.buf)
            frame_size
            (max_data_bytes - st.tot_size - (2 * (layout.nb_streams - s) - 1))).1,
          tot_size := st.tot_size }) (k : Nat) :
    ∀ (s : Int) (st : EncState), 0 ≤ s → k = (layout.nb_streams - s).toNat →
      (st.ptr : Int) = s → (∀ c ∈ st.calls, Q c) →
      ∀ c ∈ (encode_loop layout env pcm frame_size max_data_bytes k s st).calls, Q c := by
  induction k with
  | zero =>
    intro s st _ _ _ hst c hc
    exact hst c hc
  | succ k ih =>
    intro s st hs hk hptr hst
    have hcall := hQ s st hs (by omega) hptr
    rw [encode_loop]
    simp only []
    split
    · intro c hc
      rcases List.mem_append.1 hc with h | h
      · exact hst c h
      · rw [List.mem_singleton.1 h]
        exact hcall
    · apply ih (s + 1) _ (by omega) (by omega)
      · show ((st.ptr + 1 : Nat) : Int) = s + 1
        push_cast
        omega
      · intro c hc
        rcases List.mem_append.1 hc with h | h
        · exact hst c h
        · rw [List.mem_singleton.1 h]
          exact hcall

theorem set_bitrate_loop_enc (layout : ChannelLayout) (request : Int) (value ptr : Nat)
    (k : Nat) :
    ∀ (s : Int) (calls : List CtlCall), (∀ c ∈ calls, c.enc = ptr) →
      ∀ c ∈ set_bitrate_loop layout request value ptr k s calls, c.enc = ptr := by
  induction k with
  | zero =>
    intro s calls h c hc
    exact h c hc
  | succ k ih =>
    intro s calls h
    rw [set_bitrate_loop]
    apply ih
    intro c hc
    rcases List.mem_append.1 hc with h' | h'
    · exact h c h'
    · rw [List.mem_singleton.1 h']

theorem encode_calls_routed (layout : ChannelLayout) (env : EncoderEnv) (pcm : Int → opus_val16)
    (frame_size : Int) (data0 : Int → Nat) (max_data_bytes : Int) (buf0 : Int → opus_val16)
    (_hv : validate_layout layout = 1) (hve : validate_encoder_layout layout = 1) :
    ∀ c ∈ (opus_multistream_encode layout env pcm frame_size data0 max_data_bytes buf0).calls,
      (c.enc : Int) = c.s ∧ 0 ≤ c.s ∧ c.s < layout.nb_streams ∧ c.frame_size = frame_size ∧
      (c.s < layout.nb_coupled_streams →
        ∃ L R, IsLowestChannel layout (2 * c.s) L ∧ IsLowestChannel layout (2 * c.s + 1) R ∧
          ∀ i, 0 ≤ i → i < frame_size →
            c.buf (2 * i) = pcm (layout.nb_channels * i + L) ∧
            c.buf (2 * i + 1) = pcm (layout.nb_channels * i + R)) ∧
      (¬ c.s < layout.nb_coupled_streams →
        ∃ M, IsLowestChannel layout (2 * layout.nb_coupled_streams + c.s) M ∧
          ∀ i, 0 ≤ i → i < frame_size → c.buf i = pcm (layout.nb_channels * i + M)) := by
  unfold opus_multistream_encode
  split
  · intro c hc
    simp at hc
  · refine encode_loop_calls_forall layout env pcm frame_size max_data_bytes
      (fun c => (c.enc : Int) = c.s ∧ 0 ≤ c.s ∧ c.s < layout.nb_streams ∧
        c.frame_size = frame_size ∧
        (c.s < layout.nb_coupled_streams →
          ∃ L R, IsLowestChannel layout (2 * c.s) L ∧ IsLowestChannel layout (2 * c.s + 1) R ∧
            ∀ i, 0 ≤ i → i < frame_size →
              c.buf (2 * i) = pcm (layout.nb_channels * i + L) ∧
              c.buf (2 * i + 1) = pcm (layout.nb_channels * i + R)) ∧
        (¬ c.s < layout.nb_coupled_streams →
          ∃ M, IsLowestChannel layout (2 * layout.nb_coupled_streams + c.s) M ∧
            ∀ i, 0 ≤ i → i < frame_size → c.buf i = pcm (layout.nb_channels * i + M)))
      ?_ _ 0 _ (le_refl _) rfl rfl ?_
    rotate_left
    · intro c hc
      simp at hc
    · intro s st hs1 hs2 hptr
      have hcov := (validate_encoder_layout_iff layout).1 hve s hs1 hs2
      refine ⟨hptr, hs1, hs2, rfl, ?_, ?_⟩
      · intro hc
        have hL := lookup_first_lowest layout _ _ (get_left_channel_spec layout s (-1))
          (hcov.1 hc).1
        have hR := lookup_first_lowest layout _ _ (get_right_channel_spec layout s (-1))
          (hcov.1 hc).2
        refine ⟨_, _, hL, hR, ?_⟩
        intro i hi1 hi2
        show stream_buf layout pcm frame_size s st.buf (2 * i) = _ ∧
          stream_buf layout pcm frame_size s st.buf (2 * i + 1) = _
        unfold stream_buf
        rw [if_pos hc]
        exact (deinterleave_coupled_spec pcm layout.nb_channels _ _ _ 0 st.buf).2 i hi1
          (by simp only [sub_zero]; omega)
      · intro hc
        have hM := lookup_first_lowest layout _ _ (get_mono_channel_spec layout s (-1))
          (hcov.2 hc)
        refine ⟨_, hM, ?_⟩
        intro i hi1 hi2
        show stream_buf layout pcm frame_size s st.buf i = _
        unfold stream_buf
        rw [if_neg hc]
        exact (deinterleave_mono_spec pcm layout.nb_channels _ _ 0 st.buf).2 i hi1
          (by simp only [sub_zero]; omega)

theorem entry_four_channels (i : Int) (h0 : 0 ≤ i) (h4 : i < 4) :
    (layout_of 4 2 2 [0, 1, 2, 3]).entry i = i := by
  interval_cases i <;> rfl

/-- C8: for a layout accepted by both validators, every recorded call of the encoder is the
call of stream `s` on sub-encoder `s` with the caller's `frame_size`, and the buffer it gets
holds, for a coupled stream, `buf[2i] = pcm[nb_channels*i+L]` and `buf[2i+1] =
pcm[nb_channels*i+R]` with `L`, `R` the lowest-index channels mapped to `2*s` and `2*s+1`, and
for a mono stream `buf[i] = pcm[nb_channels*i+M]` with `M` the lowest-index channel mapped to
the mono slot, for all `0 ≤ i < frame_size`. With 4 channels, 2 coupled streams and mapping
`[0,1,2,3]`, stream 0 gets channels 0 and 1 and stream 1 gets channels 2 and 3. -/
theorem encode_routing :
    (∀ (layout : ChannelLayout) (env : EncoderEnv) (pcm : Int → opus_val16) (frame_size : Int)
        (data0 : Int → Nat) (max_data_bytes : Int) (buf0 : Int → opus_val16),
      validate_layout layout = 1 → validate_encoder_layout layout = 1 →
      ∀ c ∈ (opus_multistream_encode layout env pcm frame_size data0 max_data_bytes buf0).calls,
        (c.enc : Int) = c.s ∧ 0 ≤ c.s ∧ c.s < layout.nb_streams ∧ c.frame_size = frame_size ∧
        (c.s < layout.nb_coupled_streams →
          ∃ L R, IsLowestChannel layout (2 * c.s) L ∧ IsLowestChannel layout (2 * c.s + 1) R ∧
            ∀ i, 0 ≤ i → i < frame_size →
              c.buf (2 * i) = pcm (layout.nb_channels * i + L) ∧
              c.buf (2 * i + 1) = pcm (layout.nb_channels * i + R)) ∧
        (¬ c.s < layout.nb_coupled_streams →
          ∃ M, IsLowestChannel layout (2 * layout.nb_coupled_streams + c.s) M ∧
            ∀ i, 0 ≤ i → i < frame_size → c.buf i = pcm (layout.nb_channels * i + M))) ∧
    (∀ (env : EncoderEnv) (pcm : Int → opus_val16) (frame_size : Int)
        (data0 : Int → Nat) (max_data_bytes : Int) (buf0 : Int → opus_val16),
      ∀ c ∈ (opus_multistream_encode (layout_of 4 2 2 [0, 1, 2, 3]) env pcm frame_size data0
          max_data_bytes buf0).calls,
        (c.s = 0 ∨ c.s = 1) ∧ (c.enc : Int) = c.s ∧
        ∀ i, 0 ≤ i → i < frame_size →
          c.buf (2 * i) = pcm (4 * i + 2 * c.s) ∧
          c.buf (2 * i + 1) = pcm (4 * i + (2 * c.s + 1))) := by
  refine ⟨encode_calls_routed, ?_⟩
  intro env pcm frame_size data0 max_data_bytes buf0 c hc
  obtain ⟨h1, h2, h3, _, h5, _⟩ := encode_calls_routed (layout_of 4 2 2 [0, 1, 2, 3]) env pcm
    frame_size data0 max_data_bytes buf0 (by decide) (by decide) c hc
  have h3' : c.s < 2 := h3
  obtain ⟨L, R, hL, hR, hbuf⟩ := h5 h3'
  have eL : L = 2 * c.s := by
    have := entry_four_channels L hL.1 hL.2.1
    rw [hL.2.2.1] at this
    exact this.symm
  have eR : R = 2 * c.s + 1 := by
    have := entry_four_channels R hR.1 hR.2.1
    rw [hR.2.2.1] at this
    exact this.symm
  subst eL eR
  exact ⟨by omega, h1, hbuf⟩

/-- C8, at a concrete input: 4 channels, 2 coupled streams, mapping `[0,1,2,3]`, two frames
`10 11 12 13` and `20 21 22 23`; the first sub-encoder is handed `10 11 20 21` and the second
`12 13 22 23`. -/
theorem encode_routing_witness :
    validate_layout (layout_of 4 2 2 [0, 1, 2, 3]) = 1 ∧
    validate_encoder_layout (layout_of 4 2 2 [0, 1, 2, 3]) = 1 ∧
    (opus_multistream_encode (layout_of 4 2 2 [0, 1, 2, 3])
        ⟨stub_encode 2 (fun _ => 0), stub_encode_size⟩
        (fun j => [10, 11, 12, 13, 20, 21, 22, 23].getD j.toNat 0) 2 (fun _ => 0) 100
        (fun _ => 0)).calls.map (fun c => (c.enc, c.s, [c.buf 0, c.buf 1, c.buf 2, c.buf 3]))
      = [(0, 0, [10, 11, 20, 21]), (1, 1, [12, 13, 22, 23])] ∧
    ∀ c ∈ (opus_multistream_encode (layout_of 4 2 2 [0, 1, 2, 3])
        ⟨stub_encode 2 (fun _ => 0), stub_encode_size⟩
        (fun j => [10, 11, 12, 13, 20, 21, 22, 23].getD j.toNat 0) 2 (fun _ => 0) 100
        (fun _ => 0)).calls,
      (c.enc : Int) = c.s ∧ 0 ≤ c.s ∧ c.s < (layout_of 4 2 2 [0, 1, 2, 3]).nb_streams ∧
      c.frame_size = 2 ∧
      (c.s < (layout_of 4 2 2 [0, 1, 2, 3]).nb_coupled_streams →
        ∃ L R, IsLowestChannel (layout_of 4 2 2 [0, 1, 2, 3]) (2 * c.s) L ∧
          IsLowestChannel (layout_of 4 2 2 [0, 1, 2, 3]) (2 * c.s + 1) R ∧
          ∀ i, 0 ≤ i → i < 2 →
            c.buf (2 * i) = (fun j => [10, 11, 12, 13, 20, 21, 22, 23].getD j.toNat 0)
              ((layout_of 4 2 2 [0, 1, 2, 3]).nb_channels * i + L) ∧
            c.buf (2 * i + 1) = (fun j => [10, 11, 12, 13, 20, 21, 22, 23].getD j.toNat 0)
              ((layout_of 4 2 2 [0, 1, 2, 3]).nb_channels * i + R)) ∧
      (¬ c.s < (layout_of 4 2 2 [0, 1, 2, 3]).nb_coupled_streams →
        ∃ M, IsLowestChannel (layout_of 4 2 2 [0, 1, 2, 3])
            (2 * (layout_of 4 2 2 [0, 1, 2, 3]).nb_coupled_streams + c.s) M ∧
          ∀ i, 0 ≤ i → i < 2 →
            c.buf i = (fun j => [10, 11, 12, 13, 20, 21, 22, 23].getD j.toNat 0)
              ((layout_of 4 2 2 [0, 1, 2, 3]).nb_channels * i + M)) :=
  ⟨by decide, by decide, by decide,
    encode_routing.1 (layout_of 4 2 2 [0, 1, 2, 3]) ⟨stub_encode 2 (fun _ => 0), stub_encode_size⟩
      (fun j => [10, 11, 12, 13, 20, 21, 22, 23].getD j.toNat 0) 2 (fun _ => 0) 100
      (fun _ => 0) (by decide) (by decide)⟩

/-- C9: evaluation of the `OPUS_SET_BITRATE_REQUEST` case. For every layout every call of the
case goes to sub-encoder 0, because `ptr` is not advanced in its loop; with 1 coupled and 1 mono
stream and `X = 96000` sub-encoder 0 is called with `2*(X/3) = 64000` and then with
`X/3 = 32000`, and the mono sub-encoder (number 1) is not called; with 2 mono streams on the
mapping `[0,1]`, a layout that encoder init accepts, sub-encoder 0 is called twice with
`X/2 = 48000` and sub-encoder 1 is not called. -/
theorem set_bitrate_calls_first_encoder :
    (∀ (layout : ChannelLayout) (ctl : Nat → Int → Nat → Int) (X : Nat),
      ∀ c ∈ (opus_multistream_encoder_ctl layout ctl OPUS_SET_BITRATE_REQUEST X).calls,
        c.enc = 0) ∧
    (∀ ctl : Nat → Int → Nat → Int,
      opus_multistream_encoder_ctl (layout_of 3 2 1 [0, 1, 2]) ctl OPUS_SET_BITRATE_REQUEST 96000
        = { ret := OPUS_OK,
            calls := [⟨0, OPUS_SET_BITRATE_REQUEST, 64000⟩,
                      ⟨0, OPUS_SET_BITRATE_REQUEST, 32000⟩] }) ∧
    (∀ ctl : Nat → Int → Nat → Int,
      opus_multistream_encoder_ctl (layout_of 2 2 0 [0, 1]) ctl OPUS_SET_BITRATE_REQUEST 96000
        = { ret := OPUS_OK,
            calls := [⟨0, OPUS_SET_BITRATE_REQUEST, 48000⟩,
                      ⟨0, OPUS_SET_BITRATE_REQUEST, 48000⟩] }) ∧
    (opus_multistream_encoder_init ⟨0, 0, 0, fun _ => 0⟩ 2 2 0 (fun i => [0, 1].getD i 0)).ret
      = OPUS_OK := by
  refine ⟨?_, ?_, fun _ => rfl, by decide⟩
  · intro layout ctl X
    unfold opus_multistream_encoder_ctl
    rw [if_pos rfl]
    apply set_bitrate_loop_enc
    intro c hc
    simp at hc
  · intro ctl
    rfl

/-! ## Decoder: lemmas -/

theorem idx_inj (nb c c' i i' : Int) (h0 : 0 ≤ c) (h1 : c < nb) (h0' : 0 ≤ c') (h1' : c' < nb)
    (h : nb * i + c = nb * i' + c') : i = i' ∧ c = c' := by
  have e1 : (nb * i + c) % nb = c := by
    rw [Int.add_comm, Int.add_mul_emod_self_left]
    exact Int.emod_eq_of_lt h0 h1
  have e2 : (nb * i' + c') % nb = c' := by
    rw [Int.add_comm, Int.add_mul_emod_self_left]
    exact Int.emod_eq_of_lt h0' h1'
  have hc : c = c' := by
    rw [h, e2] at e1
    exact e1.symm
  subst hc
  have hm : nb * i = nb * i' := by linarith
  exact ⟨Int.eq_of_mul_eq_mul_left (by omega) hm, rfl⟩

theorem feeds_unique (layout : ChannelLayout) (t t' c : Int) (h0 : 0 ≤ t) (h0' : 0 ≤ t')
    (h : Feeds layout t c) (h' : Feeds layout t' c) : t = t' := by
  unfold Feeds at h h'
  omega

theorem fill_channel_frame (nb chan : Int) (src : Int → opus_val16) (k : Nat) :
    ∀ (i0 : Int) (pcm : Int → opus_val16) (j : Int),
      (∀ i, i0 ≤ i → i < i0 + k → j ≠ nb * i + chan) →
      fill_channel nb chan src k i0 pcm j = pcm j := by
  induction k with
  | zero =>
    intro i0 pcm j _
    rfl
  | succ k ih =>
    intro i0 pcm j hj
    rw [fill_channel, ih (i0 + 1) _ j (fun i h1 h2 => hj i (by omega) (by push_cast; omega))]
    unfold upd
    rw [if_neg (hj i0 (le_refl _) (by push_cast; omega))]

theorem fill_channel_other (nb chan c : Int) (src : Int → opus_val16) (k : Nat) (i0 : Int)
    (pcm : Int → opus_val16) (hch0 : 0 ≤ chan) (hch1 : chan < nb) (hc0 : 0 ≤ c) (hc1 : c < nb)
    (hne : c ≠ chan) (i : Int) :
    fill_channel nb chan src k i0 pcm (nb * i + c) = pcm (nb * i + c) := by
  apply fill_channel_frame
  intro i' _ _ he
  exact hne (idx_inj nb c chan i i' hc0 hc1 hch0 hch1 he).2

theorem fill_channel_same (nb chan : Int) (src : Int → opus_val16) (hnb : 0 < nb) (k : Nat) :
    ∀ (i0 : Int) (pcm : Int → opus_val16) (i : Int), i0 ≤ i → i < i0 + k →
      fill_channel nb chan src k i0 pcm (nb * i + chan) = src i := by
  induction k with
  | zero =>
    intro i0 pcm i h1 h2
    simp at h2
    omega
  | succ k ih =>
    intro i0 pcm i h1 h2
    rw [fill_channel]
    by_cases hi : i = i0
    · subst hi
      rw [fill_channel_frame]
      · unfold upd
        rw [if_pos rfl]
      · intro i' h1' _ he
        have hm : nb * i = nb * i' := by linarith
        have := Int.eq_of_mul_eq_mul_left (by omega) hm
        omega
    · exact ih (i0 + 1) _ i (by omega) (by push_cast at h2; omega)

/-- One scatter loop with enough fuel leaves the loop, writes `src i` to every channel beyond
the cursor that is mapped to the slot, and leaves the other channels as they were. -/
theorem scatter_spec (layout : ChannelLayout) (slot : Int) (get : Int → Int)
    (hget : ∀ prev, IsLookupResult layout slot prev (get prev)) (src : Int → opus_val16)
    (F : Int) (fuel : Nat) :
    ∀ (prev : Int) (pcm : Int → opus_val16), -1 ≤ prev →
      (layout.nb_channels - (prev + 1)).toNat < fuel →
      ∃ pcm', scatter layout.nb_channels get src F fuel prev pcm = some pcm' ∧
        (∀ c i, 0 ≤ c → c < layout.nb_channels → layout.entry c ≠ slot ∨ c ≤ prev →
          pcm' (layout.nb_channels * i + c) = pcm (layout.nb_channels * i + c)) ∧
        (∀ c i, prev < c → c < layout.nb_channels → layout.entry c = slot → 0 ≤ i → i < F →
          pcm' (layout.nb_channels * i + c) = src i) := by
  induction fuel with
  | zero =>
    intro prev pcm _ h
    omega
  | succ fuel ih =>
    intro prev pcm hprev hfuel
    rw [scatter]
    have hg := hget prev
    unfold IsLookupResult at hg
    rcases hg with ⟨h1, h2⟩ | ⟨h1, h2, h3, h4, h5⟩
    · rw [if_neg (by rw [h1]; simp)]
      refine ⟨pcm, rfl, fun _ _ _ _ _ => rfl, ?_⟩
      intro c i hc1 hc2 hc3 _ _
      exact absurd hc3 (h2 c hc1 (by omega) hc2)
    · rw [if_pos (by omega)]
      obtain ⟨pcm', e, hframe, hval⟩ := ih (get prev)
        (fill_channel layout.nb_channels (get prev) src (F - 0).toNat 0 pcm) (by omega)
        (by omega)
      refine ⟨pcm', e, ?_, ?_⟩
      · intro c i hc0 hc1 hc2
        have hc2' : layout.entry c ≠ slot ∨ c ≤ get prev := by
          rcases hc2 with hc2 | hc2
          · exact Or.inl hc2
          · exact Or.inr (by omega)
        rw [hframe c i hc0 hc1 hc2']
        exact fill_channel_other _ _ _ _ _ _ _ h2 h3 hc0 hc1
          (fun hh => by
            rcases hc2 with hc2 | hc2
            · exact hc2 (by rw [hh]; exact h4)
            · omega) i
      · intro c i hc1 hc2 hc3 hi0 hi1
        by_cases hcg : c = get prev
        · subst hcg
          rw [hframe _ i h2 h3 (Or.inr (le_refl _))]
          exact fill_channel_same _ _ _ (by omega) _ 0 pcm i hi0
            (by simp only [sub_zero]; omega)
        · have hlt : get prev < c := by
            rcases lt_trichotomy c (get prev) with hh | hh | hh
            · exact absurd hc3 (h5 c hc1 (by omega) hh)
            · exact absurd hh hcg
            · exact hh
          exact hval c i hlt hc2 hc3 hi0 hi1

/-- The scatter of one stream leaves its loops, writes the routed sample to every channel the
stream feeds and leaves every other channel as it was. -/
theorem scatter_stream_spec (layout : ChannelLayout) (s : Int) (buf : Int → opus_val16)
    (F : Int) (pcm : Int → opus_val16) :
    ∃ pcm', scatter_stream layout s buf F (layout.nb_channels.toNat + 1) pcm = some pcm' ∧
      (∀ c i, 0 ≤ c → c < layout.nb_channels → ¬ Feeds layout s c →
        pcm' (layout.nb_channels * i + c) = pcm (layout.nb_channels * i + c)) ∧
      (∀ c i, 0 ≤ c → c < layout.nb_channels → Feeds layout s c → 0 ≤ i → i < F →
        pcm' (layout.nb_channels * i + c) = routed_sample layout s buf c i) := by
  unfold scatter_stream
  by_cases hc : s < layout.nb_coupled_streams
  · rw [if_pos hc]
    obtain ⟨pcm1, e1, hf1, hv1⟩ := scatter_spec layout (2 * s) (get_left_channel layout s)
      (get_left_channel_spec layout s) (fun i => buf (2 * i)) F
      (layout.nb_channels.toNat + 1) (-1) pcm (le_refl _) (by omega)
    obtain ⟨pcm2, e2, hf2, hv2⟩ := scatter_spec layout (2 * s + 1) (get_right_channel layout s)
      (get_right_channel_spec layout s) (fun i => buf (2 * i + 1)) F
      (layout.nb_channels.toNat + 1) (-1) pcm1 (le_refl _) (by omega)
    rw [e1]
    refine ⟨pcm2, e2, ?_, ?_⟩
    · intro c i hc0 hc1 hnf
      have h1 : layout.entry c ≠ 2 * s := fun hh => hnf (Or.inl ⟨hc, Or.inl hh⟩)
      have h2 : layout.entry c ≠ 2 * s + 1 := fun hh => hnf (Or.inl ⟨hc, Or.inr hh⟩)
      rw [hf2 c i hc0 hc1 (Or.inl h2), hf1 c i hc0 hc1 (Or.inl h1)]
    · intro c i hc0 hc1 hfeed hi0 hi1
      unfold routed_sample
      rw [if_pos hc]
      rcases hfeed with ⟨_, hh | hh⟩ | ⟨hn, _⟩
      · rw [if_pos hh, hf2 c i hc0 hc1 (Or.inl (by omega))]
        exact hv1 c i (by omega) hc1 hh hi0 hi1
      · rw [if_neg (by omega)]
        exact hv2 c i (by omega) hc1 hh hi0 hi1
      · exact absurd hc hn
  · rw [if_neg hc]
    obtain ⟨pcm1, e1, hf1, hv1⟩ := scatter_spec layout (2 * layout.nb_coupled_streams + s)
      (get_mono_channel layout s) (get_mono_channel_spec layout s) (fun i => buf i) F
      (layout.nb_channels.toNat + 1) (-1) pcm (le_refl _) (by omega)
    refine ⟨pcm1, e1, ?_, ?_⟩
    · intro c i hc0 hc1 hnf
      exact hf1 c i hc0 hc1 (Or.inl (fun hh => hnf (Or.inr ⟨hc, hh⟩)))
    · intro c i hc0 hc1 hfeed hi0 hi1
      unfold routed_sample
      rw [if_neg hc]
      rcases hfeed with ⟨hn, _⟩ | ⟨_, hh⟩
      · exact absurd hn hc
      · exact hv1 c i (by omega) hc1 hh hi0 hi1

/-- The muting loop zeroes the channels mapped to 255 and leaves the others as they were. -/
theorem mute_loop_spec (layout : ChannelLayout) (F : Int) (k : Nat) :
    ∀ (c0 : Int) (pcm : Int → opus_val16), 0 ≤ c0 → k = (layout.nb_channels - c0).toNat →
      (∀ c i, 0 ≤ c → c < layout.nb_channels → layout.entry c ≠ 255 ∨ c < c0 →
        mute_loop layout F k c0 pcm (layout.nb_channels * i + c)
          = pcm (layout.nb_channels * i + c)) ∧
      (∀ c i, c0 ≤ c → c < layout.nb_channels → layout.entry c = 255 → 0 ≤ i → i < F →
        mute_loop layout F k c0 pcm (layout.nb_channels * i + c) = 0) := by
  induction k with
  | zero =>
    intro c0 pcm _ hk
    refine ⟨fun _ _ _ _ _ => rfl, ?_⟩
    intro c i h1 h2 _ _ _
    omega
  | succ k ih =>
    intro c0 pcm hc0 hk
    rw [mute_loop]
    obtain ⟨hf, hz⟩ := ih (c0 + 1)
      (if layout.entry c0 = 255 then
        fill_channel layout.nb_channels c0 (fun _ => 0) (F - 0).toNat 0 pcm
      else pcm) (by omega) (by omega)
    constructor
    · intro c i h0 h1 h2
      rw [hf c i h0 h1 (by omega)]
      split
      · rename_i h255
        exact fill_channel_other _ _ _ _ _ _ _ hc0 (by omega) h0 h1
          (fun hh => by
            rcases h2 with h2 | h2
            · exact h2 (by rw [hh]; exact h255)
            · omega) i
      · rfl
    · intro c i h1 h2 h3 hi0 hi1
      by_cases hcc : c = c0
      · subst hcc
        rw [hf c i (by omega) h2 (Or.inr (by omega)), if_pos h3]
        exact fill_channel_same _ _ _ (by omega) _ 0 pcm i hi0 (by simp only [sub_zero]; omega)
      · exact hz c i (by omega) h2 h3 hi0 hi1


theorem corrupted_not_pos : ¬ (0 : Int) < OPUS_CORRUPTED_DATA := by decide

theorem too_small_not_pos : ¬ (0 : Int) < OPUS_BUFFER_TOO_SMALL := by decide

theorem decode_loop_post (layout : ChannelLayout) (dec_native : SubDecoder) (data : Int → Nat)
    (decode_fec : Int) (k : Nat) :
    ∀ (s : Int) (st : DecState), 0 ≤ s → k = (layout.nb_streams - s).toNat →
      (st.ptr : Int) = s → (0 < s → 0 < st.frame_size) →
      ∃ r, decode_loop layout dec_native data decode_fec (layout.nb_channels.toNat + 1) k s st
          = some r ∧ DecodePost layout s st r := by
  induction k with
  | zero =>
    intro s st hs hk hptr hfs
    refine ⟨_, rfl, [], by simp, by simp, by simp, ?_⟩
    intro _
    obtain ⟨hf, hz⟩ := mute_loop_spec layout st.frame_size (layout.nb_channels - 0).toNat 0
      st.pcm (le_refl _) rfl
    refine ⟨fun _ => rfl, fun t h1 h2 => by omega, by simp, ?_⟩
    intro c i hc0 hc1
    refine ⟨fun h255 hi0 hi1 => hz c i hc0 hc1 h255 hi0 hi1, fun hne => ⟨by simp, ?_⟩⟩
    intro _
    exact hf c i hc0 hc1 (Or.inl hne)
  | succ k ih =>
    intro s st hs hk hptr hfs
    have hsN : s < layout.nb_streams := by omega
    rw [decode_loop]
    by_cases hlen : st.len ≤ 0
    · rw [if_pos hlen]
      refine ⟨_, rfl, [], by simp, by simp, by simp, ?_⟩
      intro h
      exact absurd h corrupted_not_pos
    rw [if_neg hlen]
    simp only []
    generalize hout : dec_native st.ptr (fun j => data (st.off + j)) st.len st.frame_size
      decode_fec 1 = out
    have hmem : ∀ (P : DecCall → Prop),
        P { dec := st.ptr, s := s, len := st.len, frame_size := st.frame_size, out := out } →
        ∀ call ∈ [({ dec := st.ptr, s := s, len := st.len, frame_size := st.frame_size,
                     out := out } : DecCall)], P call := by
      intro P hP call hcall
      rw [List.mem_singleton.1 hcall]
      exact hP
    by_cases h1 : out.ret > st.frame_size
    · rw [if_pos h1]
      refine ⟨_, rfl, [_], rfl, hmem _ ⟨le_refl _, hsN, hptr⟩, ?_, ?_⟩
      · intro hcap
        apply hmem
        intro hle
        have : 0 ≤ st.frame_size := by
          by_cases h0 : s = 0
          · exact hcap h0
          · exact le_of_lt (hfs (by omega))
        show _ = _
        simp only [] at hle
        omega
      · intro h
        exact absurd h too_small_not_pos
    rw [if_neg h1]
    by_cases h2 : s > 0 ∧ out.ret ≠ st.frame_size
    · rw [if_pos h2]
      refine ⟨_, rfl, [_], rfl, hmem _ ⟨le_refl _, hsN, hptr⟩, ?_, ?_⟩
      · intro _
        apply hmem
        intro _
        show OPUS_CORRUPTED_DATA = if s = 0 then _ else _
        rw [if_neg (by omega)]
      · intro h
        exact absurd h corrupted_not_pos
    rw [if_neg h2]
    by_cases h3 : out.ret ≤ 0
    · rw [if_pos h3]
      refine ⟨_, rfl, [_], rfl, hmem _ ⟨le_refl _, hsN, hptr⟩, ?_, ?_⟩
      · intro _
        apply hmem
        intro _
        show out.ret = if s = 0 then out.ret else _
        have hs0 : s = 0 := by
          by_contra hne
          have := hfs (by omega)
          have : out.ret = st.frame_size := by
            by_contra hh
            exact h2 ⟨by omega, hh⟩
          omega
        rw [if_pos hs0]
      · intro h
        exact absurd h (by simpa using h3)
    rw [if_neg h3]
    obtain ⟨pcm1, e1, hf1, hv1⟩ := scatter_stream_spec layout s out.buf out.ret st.pcm
    rw [e1]
    obtain ⟨r, er, suffix, hcalls, hsuf, hneg, hpos⟩ := ih (s + 1)
      { ptr := st.ptr + 1, off := st.off + out.packet_offset,
        len := st.len - out.packet_offset, frame_size := out.ret, pcm := pcm1,
        calls := st.calls ++ [{ dec := st.ptr, s := s, len := st.len,
                                frame_size := st.frame_size, out := out }] }
      (by omega) (by omega) (by show ((st.ptr + 1 : Nat) : Int) = s + 1; push_cast; omega)
      (fun _ => by show 0 < out.ret; omega)
    refine ⟨r, er, { dec := st.ptr, s := s, len := st.len, frame_size := st.frame_size,
                     out := out } :: suffix, ?_, ?_, ?_, ?_⟩
    · rw [hcalls]
      simp
    · intro call hcall
      rcases List.mem_cons.1 hcall with h | h
      · rw [h]
        exact ⟨le_refl _, hsN, hptr⟩
      · obtain ⟨a, b, c⟩ := hsuf call h
        exact ⟨by omega, b, c⟩
    · intro _ call hcall hle
      rcases List.mem_cons.1 hcall with h | h
      · rw [h] at hle
        exact absurd hle h3
      · exact hneg (fun h0 => by omega) call h hle
    · intro hr
      obtain ⟨hfs', hcov, hrets, hpcm⟩ := hpos hr
      have hret : r.ret = out.ret := hfs' (by omega)
      refine ⟨?_, ?_, ?_, ?_⟩
      · intro hs0
        rw [hret]
        by_contra hh
        exact h2 ⟨hs0, hh⟩
      · intro t ht1 ht2
        by_cases hts : t = s
        · exact ⟨_, List.mem_cons_self _ _, hts.symm⟩
        · obtain ⟨call, hc1, hc2⟩ := hcov t (by omega) ht2
          exact ⟨call, List.mem_cons_of_mem _ hc1, hc2⟩
      · intro call hcall
        rcases List.mem_cons.1 hcall with h | h
        · rw [h]
          exact hret.symm
        · exact hrets call h
      · intro c i hc0 hc1
        obtain ⟨hz, hnz⟩ := hpcm c i hc0 hc1
        refine ⟨hz, fun hne => ⟨?_, ?_⟩⟩
        · intro call hcall hfeed hi0 hi1
          rcases List.mem_cons.1 hcall with h | h
          · rw [h] at hfeed ⊢
            have hfeed' : Feeds layout s c := hfeed
            rw [(hnz hne).2 (fun t ht1 _ hft => by
              have := feeds_unique layout t s c (by omega) hs hft hfeed'
              omega)]
            exact hv1 c i hc0 hc1 hfeed' hi0 (by omega)
          · exact (hnz hne).1 call h hfeed hi0 hi1
        · intro hnone
          rw [(hnz hne).2 (fun t ht1 ht2 => hnone t (by omega) ht2)]
          exact hf1 c i hc0 hc1 (hnone s (le_refl _) hsN)

/-- The decoder always returns, and its result meets `DecodePost` from stream 0 on. -/
theorem decode_post (layout : ChannelLayout) (dec_native : SubDecoder) (data : Int → Nat)
    (len : Int) (pcm0 : Int → opus_val16) (frame_size decode_fec : Int) :
    ∃ r, opus_multistream_decode_native layout dec_native data len pcm0 frame_size decode_fec
        = some r ∧
      DecodePost layout 0
        { ptr := 0, off := 0, len := len, frame_size := frame_size, pcm := pcm0, calls := [] }
        r := by
  unfold opus_multistream_decode_native
  by_cases h : len < 2 * layout.nb_streams - 1
  · rw [if_pos h]
    refine ⟨_, rfl, [], by simp, by simp, by simp, ?_⟩
    intro h'
    exact absurd h' too_small_not_pos
  · rw [if_neg h]
    exact decode_loop_post layout dec_native data decode_fec _ 0 _ (le_refl _) rfl rfl
      (fun h0 => absurd h0 (by decide))

/-- The decoder returns; on success every stream was decoded on its own sub-decoder, and every
channel fed by a recorded call holds the samples of that call. -/
theorem decode_routed (layout : ChannelLayout) (dec_native : SubDecoder) (data : Int → Nat)
    (len : Int) (pcm0 : Int → opus_val16) (frame_size decode_fec : Int) :
    ∃ r, opus_multistream_decode_native layout dec_native data len pcm0 frame_size decode_fec
        = some r ∧
      (0 < r.ret → ∀ s, 0 ≤ s → s < layout.nb_streams →
        ∃ call ∈ r.calls, call.s = s ∧ (call.dec : Int) = s ∧ call.out.ret = r.ret) ∧
      ∀ call ∈ r.calls, ∀ ch i, 0 ≤ ch → ch < layout.nb_channels → layout.entry ch ≠ 255 →
        0 ≤ i → i < r.ret →
        (call.s < layout.nb_coupled_streams → layout.entry ch = 2 * call.s →
          r.pcm (layout.nb_channels * i + ch) = call.out.buf (2 * i)) ∧
        (call.s < layout.nb_coupled_streams → layout.entry ch = 2 * call.s + 1 →
          r.pcm (layout.nb_channels * i + ch) = call.out.buf (2 * i + 1)) ∧
        (¬ call.s < layout.nb_coupled_streams →
          layout.entry ch = 2 * layout.nb_coupled_streams + call.s →
          r.pcm (layout.nb_channels * i + ch) = call.out.buf i) := by
  obtain ⟨r, e, suffix, hcalls, hsuf, _, hpos⟩ :=
    decode_post layout dec_native data len pcm0 frame_size decode_fec
  have hc : r.calls = suffix := by
    rw [hcalls]
    rfl
  rw [← hc] at hsuf hpos
  refine ⟨r, e, ?_, ?_⟩
  · intro hr t ht0 ht1
    obtain ⟨_, hcov, hrets, _⟩ := hpos hr
    obtain ⟨call, hm, hs⟩ := hcov t ht0 ht1
    refine ⟨call, hm, hs, ?_, hrets call hm⟩
    rw [(hsuf call hm).2.2, hs]
  · intro call hm ch i hch0 hch1 hne hi0 hi1
    obtain ⟨_, _, _, hpcm⟩ := hpos (by omega)
    have key := ((hpcm ch i hch0 hch1).2 hne).1 call hm
    refine ⟨?_, ?_, ?_⟩
    · intro hcs hent
      rw [key (Or.inl ⟨hcs, Or.inl hent⟩) hi0 hi1]
      unfold routed_sample
      rw [if_pos hcs, if_pos hent]
    · intro hcs hent
      rw [key (Or.inl ⟨hcs, Or.inr hent⟩) hi0 hi1]
      unfold routed_sample
      rw [if_pos hcs, if_neg (by omega)]
    · intro hcs hent
      rw [key (Or.inr ⟨hcs, hent⟩) hi0 hi1]
      unfold routed_sample
      rw [if_neg hcs]

/-- The decoder returns, and the channels mapped to 255 are zero over the returned frame
length. -/
theorem decode_muted (layout : ChannelLayout) (dec_native : SubDecoder) (data : Int → Nat)
    (len : Int) (pcm0 : Int → opus_val16) (frame_size decode_fec : Int) :
    ∃ r, opus_multistream_decode_native layout dec_native data len pcm0 frame_size decode_fec
        = some r ∧
      ∀ c i, 0 ≤ c → c < layout.nb_channels → layout.entry c = 255 → 0 ≤ i → i < r.ret →
        r.pcm (layout.nb_channels * i + c) = 0 := by
  obtain ⟨r, e, suffix, _, _, _, hpos⟩ :=
    decode_post layout dec_native data len pcm0 frame_size decode_fec
  refine ⟨r, e, ?_⟩
  intro c i hc0 hc1 h255 hi0 hi1
  obtain ⟨_, _, _, hpcm⟩ := hpos (by omega)
  exact (hpcm c i hc0 hc1).1 h255 hi0 hi1

/-- C6: the decoder always returns. When it returns a positive frame length `F`, every stream
`s < nb_streams` was decoded by sub-decoder `s` with `F` samples, and for every recorded call
(stream `s`, decoded buffer `buf`) and every channel `ch` whose mapping entry is not 255 the
output holds, for `0 ≤ i < F`, `pcm[nb_channels*i+ch] = buf[2i]` when the entry is the left slot
`2*s` of the coupled `s`, `buf[2i+1]` when it is the right slot `2*s+1`, and `buf[i]` when it is
the slot `2*nb_coupled_streams+s` of the mono `s`. With 4 channels, 2 coupled streams and mapping
`[0,1,2,3]`, channels 0 and 1 hold stream 0 and channels 2 and 3 hold stream 1. -/
theorem decode_scatter :
    (∀ (layout : ChannelLayout) (dec_native : SubDecoder) (data : Int → Nat) (len : Int)
        (pcm0 : Int → opus_val16) (frame_size decode_fec : Int),
      ∃ r, opus_multistream_decode_native layout dec_native data len pcm0 frame_size decode_fec
          = some r ∧
        (0 < r.ret → ∀ s, 0 ≤ s → s < layout.nb_streams →
          ∃ call ∈ r.calls, call.s = s ∧ (call.dec : Int) = s ∧ call.out.ret = r.ret) ∧
        ∀ call ∈ r.calls, ∀ ch i, 0 ≤ ch → ch < layout.nb_channels → layout.entry ch ≠ 255 →
          0 ≤ i → i < r.ret →
          (call.s < layout.nb_coupled_streams → layout.entry ch = 2 * call.s →
            r.pcm (layout.nb_channels * i + ch) = call.out.buf (2 * i)) ∧
          (call.s < layout.nb_coupled_streams → layout.entry ch = 2 * call.s + 1 →
            r.pcm (layout.nb_channels * i + ch) = call.out.buf (2 * i + 1)) ∧
          (¬ call.s < layout.nb_coupled_streams →
            layout.entry ch = 2 * layout.nb_coupled_streams + call.s →
            r.pcm (layout.nb_channels * i + ch) = call.out.buf i)) ∧
    (∀ (dec_native : SubDecoder) (data : Int → Nat) (len : Int) (pcm0 : Int → opus_val16)
        (frame_size decode_fec : Int),
      ∃ r, opus_multistream_decode_native (layout_of 4 2 2 [0, 1, 2, 3]) dec_native data len
          pcm0 frame_size decode_fec = some r ∧
        ∀ call ∈ r.calls, (call.s = 0 ∨ call.s = 1) ∧
          ∀ i, 0 ≤ i → i < r.ret →
            r.pcm (4 * i + 2 * call.s) = call.out.buf (2 * i) ∧
            r.pcm (4 * i + (2 * call.s + 1)) = call.out.buf (2 * i + 1)) := by
  refine ⟨decode_routed, ?_⟩
  intro dec_native data len pcm0 frame_size decode_fec
  obtain ⟨r, e, suffix, hcalls, hsuf, _, _⟩ :=
    decode_post (layout_of 4 2 2 [0, 1, 2, 3]) dec_native data len pcm0 frame_size decode_fec
  obtain ⟨r', e', _, hrouted⟩ :=
    decode_routed (layout_of 4 2 2 [0, 1, 2, 3]) dec_native data len pcm0 frame_size decode_fec
  have hrr : r' = r := by
    rw [e] at e'
    exact (Option.some.inj e').symm
  subst hrr
  have hc : r'.calls = suffix := by
    rw [hcalls]
    rfl
  rw [← hc] at hsuf
  refine ⟨r', e, ?_⟩
  intro call hm
  obtain ⟨hs0, hs1, _⟩ := hsuf call hm
  have hs1' : call.s < 2 := hs1
  refine ⟨by omega, ?_⟩
  intro i hi0 hi1
  have hA := hrouted call hm (2 * call.s) i (by omega) (by show 2 * call.s < 4; omega)
    (by rw [entry_four_channels _ (by omega) (by omega)]; omega) hi0 hi1
  have hB := hrouted call hm (2 * call.s + 1) i (by omega) (by show 2 * call.s + 1 < 4; omega)
    (by rw [entry_four_channels _ (by omega) (by omega)]; omega) hi0 hi1
  exact ⟨hA.1 hs1' (entry_four_channels _ (by omega) (by omega)),
    hB.2.1 hs1' (entry_four_channels _ (by omega) (by omega))⟩

/-- C7: the decoder always returns, and every channel `c` with `mapping[c] = 255` has
`pcm[nb_channels*i+c] = 0` for `0 ≤ i <` the returned frame length, whatever the packet and
the previous contents of the buffer. With 1 channel, 0 streams and mapping `[255]`, the decode
of any packet returns the requested `frame_size`, calls no sub-decoder, and the frame is zero. -/
theorem decode_mutes_unmapped :
    (∀ (layout : ChannelLayout) (dec_native : SubDecoder) (data : Int → Nat) (len : Int)
        (pcm0 : Int → opus_val16) (frame_size decode_fec : Int),
      ∃ r, opus_multistream_decode_native layout dec_native data len pcm0 frame_size decode_fec
          = some r ∧
        ∀ c i, 0 ≤ c → c < layout.nb_channels → layout.entry c = 255 → 0 ≤ i → i < r.ret →
          r.pcm (layout.nb_channels * i + c) = 0) ∧
    (∀ (dec_native : SubDecoder) (data : Int → Nat) (len : Int) (pcm0 : Int → opus_val16)
        (frame_size decode_fec : Int), 0 ≤ len →
      ∃ r, opus_multistream_decode_native (layout_of 1 0 0 [255]) dec_native data len pcm0
          frame_size decode_fec = some r ∧
        r.ret = frame_size ∧ r.calls = [] ∧ ∀ i, 0 ≤ i → i < frame_size → r.pcm i = 0) := by
  refine ⟨decode_muted, ?_⟩
  intro dec_native data len pcm0 frame_size decode_fec hlen
  obtain ⟨r, e, hz⟩ :=
    decode_muted (layout_of 1 0 0 [255]) dec_native data len pcm0 frame_size decode_fec
  have e' : opus_multistream_decode_native (layout_of 1 0 0 [255]) dec_native data len pcm0
      frame_size decode_fec
      = some { ret := frame_size
               pcm := mute_loop (layout_of 1 0 0 [255]) frame_size 1 0 pcm0
               calls := [] } := by
    unfold opus_multistream_decode_native
    rw [if_neg (by show ¬ len < 2 * 0 - 1; omega)]
    rfl
  rw [e'] at e
  have hr := Option.some.inj e
  subst hr
  refine ⟨_, e', rfl, rfl, ?_⟩
  intro i hi0 hi1
  have := hz 0 i (le_refl _) (by decide) (by decide) hi0 hi1
  simpa [layout_of] using this

/-- C10, as the code has it: with a capacity `frame_size ≥ 0` the decoder returns, and when the
recorded call of stream `s` gave a non-positive result `r`, the decoder returns `r` for the
first stream (`s = 0`) and `OPUS_CORRUPTED_DATA` for every later stream. -/
theorem decode_nonpositive_result (layout : ChannelLayout) (dec_native : SubDecoder)
    (data : Int → Nat) (len : Int) (pcm0 : Int → opus_val16) (frame_size decode_fec : Int)
    (hcap : 0 ≤ frame_size) :
    ∃ r, opus_multistream_decode_native layout dec_native data len pcm0 frame_size decode_fec
        = some r ∧
      ∀ call ∈ r.calls, call.out.ret ≤ 0 →
        0 ≤ call.s ∧ call.s < layout.nb_streams ∧ (call.dec : Int) = call.s ∧
        r.ret = if call.s = 0 then call.out.ret else OPUS_CORRUPTED_DATA := by
  obtain ⟨r, e, suffix, hcalls, hsuf, hneg, _⟩ :=
    decode_post layout dec_native data len pcm0 frame_size decode_fec
  have hc : r.calls = suffix := by
    rw [hcalls]
    rfl
  rw [← hc] at hsuf hneg
  refine ⟨r, e, ?_⟩
  intro call hm hle
  obtain ⟨a, b, c⟩ := hsuf call hm
  exact ⟨a, b, c, hneg (fun _ => hcap) call hm hle⟩

/-- C10, the claim as stated fails: with two mono streams, capacity 1, the first sub-decoder
returning 1 sample and the second returning the non-positive result `-3`, the decoder returns
`OPUS_CORRUPTED_DATA = -4`, not `-3`. -/
theorem decode_later_stream_error_not_verbatim :
    (opus_multistream_decode_native (layout_of 2 2 0 [0, 1])
        (fun dec _ _ _ _ _ =>
          if dec = 0 then { ret := 1, packet_offset := 2, buf := fun _ => 0 }
          else { ret := -3, packet_offset := 0, buf := fun _ => 0 })
        (fun _ => 0) 4 (fun _ => 0) 1 0).map
      (fun r => (r.ret, r.calls.map (fun c => (c.s, c.out.ret))))
      = some (-4, [(0, 1), (1, -3)]) := by
  decide

/-- C10, at a concrete input: two mono streams, capacity 1, the second sub-decoder fails. -/
theorem decode_nonpositive_result_witness :
    (0 : Int) ≤ 1 ∧
    ∃ r, opus_multistream_decode_native (layout_of 2 2 0 [0, 1])
        (fun dec _ _ _ _ _ =>
          if dec = 0 then { ret := 1, packet_offset := 2, buf := fun _ => 0 }
          else { ret := -3, packet_offset := 0, buf := fun _ => 0 })
        (fun _ => 0) 4 (fun _ => 0) 1 0 = some r ∧
      ∀ call ∈ r.calls, call.out.ret ≤ 0 →
        0 ≤ call.s ∧ call.s < (layout_of 2 2 0 [0, 1]).nb_streams ∧ (call.dec : Int) = call.s ∧
        r.ret = if call.s = 0 then call.out.ret else OPUS_CORRUPTED_DATA :=
  ⟨by decide, decode_nonpositive_result (layout_of 2 2 0 [0, 1])
    (fun dec _ _ _ _ _ =>
      if dec = 0 then { ret := 1, packet_offset := 2, buf := fun _ => 0 }
      else { ret := -3, packet_offset := 0, buf := fun _ => 0 })
    (fun _ => 0) 4 (fun _ => 0) 1 0 (by decide)⟩

/-- C6, at a concrete input: 4 channels, 2 coupled streams, mapping `[0,1,2,3]`, the stub
decoder on a packet of two sub-packets with the sample pairs `10 11 20 21` and `12 13 22 23`;
the decoder returns 2 and the output is `10 11 12 13 20 21 22 23`. -/
theorem decode_scatter_witness :
    (opus_multistream_decode_native (layout_of 4 2 2 [0, 1, 2, 3]) (stub_decode 2)
        (fun j => [0, 4, 10, 11, 20, 21, 0, 4, 12, 13, 22, 23].getD j.toNat 0) 12
        (fun _ => 99) 2 0).map
      (fun r => (r.ret, (List.range 8).map (fun j => r.pcm (j : Int)),
        r.calls.map (fun c => (c.dec, c.s, c.out.ret))))
      = some (2, [10, 11, 12, 13, 20, 21, 22, 23], [(0, 0, 2), (1, 1, 2)]) ∧
    ∃ r, opus_multistream_decode_native (layout_of 4 2 2 [0, 1, 2, 3]) (stub_decode 2)
        (fun j => [0, 4, 10, 11, 20, 21, 0, 4, 12, 13, 22, 23].getD j.toNat 0) 12
        (fun _ => 99) 2 0 = some r ∧
      ∀ call ∈ r.calls, (call.s = 0 ∨ call.s = 1) ∧
        ∀ i, 0 ≤ i → i < r.ret →
          r.pcm (4 * i + 2 * call.s) = call.out.buf (2 * i) ∧
          r.pcm (4 * i + (2 * call.s + 1)) = call.out.buf (2 * i + 1) :=
  ⟨by decide, decode_scatter.2 (stub_decode 2)
    (fun j => [0, 4, 10, 11, 20, 21, 0, 4, 12, 13, 22, 23].getD j.toNat 0) 12
    (fun _ => 99) 2 0⟩

/-- C7, at a concrete input: 1 channel, 0 streams, mapping `[255]`, a 3-byte packet, a buffer
that held 7 everywhere and `frame_size = 4`; the decoder returns 4 and the frame is zero. -/
theorem decode_mutes_unmapped_witness :
    (0 : Int) ≤ 3 ∧
    (opus_multistream_decode_native (layout_of 1 0 0 [255]) (stub_decode 0)
        (fun j => [1, 2, 3].getD j.toNat 0) 3 (fun _ => 7) 4 0).map
      (fun r => (r.ret, (List.range 5).map (fun j => r.pcm (j : Int))))
      = some (4, [0, 0, 0, 0, 7]) ∧
    ∃ r, opus_multistream_decode_native (layout_of 1 0 0 [255]) (stub_decode 0)
        (fun j => [1, 2, 3].getD j.toNat 0) 3 (fun _ => 7) 4 0 = some r ∧
      r.ret = 4 ∧ r.calls = [] ∧ ∀ i, 0 ≤ i → i < 4 → r.pcm i = 0 :=
  ⟨by decide, by decide, decode_mutes_unmapped.2 (stub_decode 0)
    (fun j => [1, 2, 3].getD j.toNat 0) 3 (fun _ => 7) 4 0 (by decide)⟩

/-! ## Encoder: errors, guard and byte budget -/

/-- The log of the encode loop entered at stream `s`: the calls go to the streams from `s` on,
each on its own sub-encoder and with the budget computed from `tot_size`; stream `s` is called
when it exists; a call that returns a negative length is the last one and decides the return
value. -/
theorem encode_loop_log (layout : ChannelLayout) (env : EncoderEnv) (pcm : Int → opus_val16)
    (frame_size max_data_bytes : Int) (k : Nat) :
    ∀ (s : Int) (st : EncState), 0 ≤ s → k = (layout.nb_streams - s).toNat →
      (st.ptr : Int) = s →
      ∃ suffix,
        (encode_loop layout env pcm frame_size max_data_bytes k s st).calls
          = st.calls ++ suffix ∧
        (s < layout.nb_streams → ∃ c rest, suffix = c :: rest ∧ c.s = s) ∧
        (∀ c ∈ suffix, s ≤ c.s ∧ c.s < layout.nb_streams ∧ (c.enc : Int) = c.s) ∧
        (∀ c ∈ suffix, c.len < 0 →
          (encode_loop layout env pcm frame_size max_data_bytes k s st).ret = c.len ∧
          (∀ c' ∈ suffix, c'.s ≤ c.s) ∧ ∀ c' ∈ suffix, c'.s < c.s → 0 ≤ c'.len) := by
  induction k with
  | zero =>
    intro s st _ hk _
    refine ⟨[], by simp [encode_loop], fun h => by omega, by simp, by simp⟩
  | succ k ih =>
    intro s st hs hk hptr
    have hsN : s < layout.nb_streams := by omega
    rw [encode_loop]
    simp only []
    generalize env.opus_encode_native st.ptr (stream_buf layout pcm frame_size s st.buf)
      frame_size (max_data_bytes - st.tot_size - (2 * (layout.nb_streams - s) - 1)) = out
    by_cases hlen : out.1 < 0
    · rw [if_pos hlen]
      refine ⟨[_], rfl, fun _ => ⟨_, [], rfl, rfl⟩, ?_, ?_⟩
      · intro c hc
        rw [List.mem_singleton.1 hc]
        exact ⟨le_refl _, hsN, hptr⟩
      · intro c hc _
        rw [List.mem_singleton.1 hc]
        refine ⟨rfl, ?_, ?_⟩
        · intro c' hc'
          rw [List.mem_singleton.1 hc']
        · intro c' hc' hlt
          rw [List.mem_singleton.1 hc'] at hlt
          exact absurd hlt (lt_irrefl _)
    · rw [if_neg hlen]
      generalize hcall : EncCall.mk _ _ _ _ _ _ _ = call
      have hcs : call.s = s := by rw [← hcall]
      have hce : call.enc = st.ptr := by rw [← hcall]
      have hcl : call.len = out.1 := by rw [← hcall]
      generalize hst : EncState.mk _ _ _ _ _ _ = st'
      have hsp : st'.ptr = st.ptr + 1 := by rw [← hst]
      have hsc : st'.calls = st.calls ++ [call] := by rw [← hst]
      obtain ⟨suffix, hcalls, _, hsuf, hneg⟩ := ih (s + 1) st' (by omega) (by omega)
        (by rw [hsp]; push_cast; omega)
      rw [hsc] at hcalls
      refine ⟨call :: suffix, ?_, fun _ => ⟨call, suffix, rfl, hcs⟩, ?_, ?_⟩
      · rw [hcalls, List.append_assoc]
        rfl
      · intro c hc
        rcases List.mem_cons.1 hc with h | h
        · rw [h, hcs, hce]
          exact ⟨le_refl _, hsN, hptr⟩
        · obtain ⟨a, b⟩ := hsuf c h
          exact ⟨by omega, b⟩
      · intro c hc hneg'
        rcases List.mem_cons.1 hc with h | h
        · rw [h, hcl] at hneg'
          exact absurd hneg' hlen
        · obtain ⟨a, b, d⟩ := hneg c h hneg'
          have hcs2 := (hsuf c h).1
          refine ⟨a, ?_, ?_⟩
          · intro c' hc'
            rcases List.mem_cons.1 hc' with h' | h'
            · rw [h', hcs]
              omega
            · exact b c' h'
          · intro c' hc' hlt
            rcases List.mem_cons.1 hc' with h' | h'
            · rw [h', hcl]
              omega
            · exact d c' h' hlt

/-- The log of the encoder: see `encode_loop_log`. -/
theorem encode_log (layout : ChannelLayout) (env : EncoderEnv) (pcm : Int → opus_val16)
    (frame_size : Int) (data0 : Int → Nat) (max_data_bytes : Int) (buf0 : Int → opus_val16)
    (hmax : ¬ max_data_bytes < 2 * layout.nb_streams - 1) :
    (0 < layout.nb_streams → ∃ c rest,
      (opus_multistream_encode layout env pcm frame_size data0 max_data_bytes buf0).calls
        = c :: rest ∧ c.s = 0) ∧
    (∀ c ∈ (opus_multistream_encode layout env pcm frame_size data0 max_data_bytes buf0).calls,
      0 ≤ c.s ∧ c.s < layout.nb_streams ∧ (c.enc : Int) = c.s) ∧
    (∀ c ∈ (opus_multistream_encode layout env pcm frame_size data0 max_data_bytes buf0).calls,
      c.len < 0 →
      (opus_multistream_encode layout env pcm frame_size data0 max_data_bytes buf0).ret = c.len ∧
      (∀ c' ∈ (opus_multistream_encode layout env pcm frame_size data0 max_data_bytes
          buf0).calls, c'.s ≤ c.s) ∧
      ∀ c' ∈ (opus_multistream_encode layout env pcm frame_size data0 max_data_bytes buf0).calls,
        c'.s < c.s → 0 ≤ c'.len) := by
  unfold opus_multistream_encode
  rw [if_neg hmax]
  obtain ⟨suffix, hcalls, hfirst, hsuf, hneg⟩ := encode_loop_log layout env pcm frame_size
    max_data_bytes (layout.nb_streams - 0).toNat 0
    { ptr := 0, dp := 0, tot_size := 0, buf := buf0, data := data0, calls := [] }
    (le_refl _) rfl rfl
  have hc : (encode_loop layout env pcm frame_size max_data_bytes (layout.nb_streams - 0).toNat
      0 { ptr := 0, dp := 0, tot_size := 0, buf := buf0, data := data0, calls := [] }).calls
      = suffix := by
    rw [hcalls]
    rfl
  rw [hc]
  exact ⟨hfirst, hsuf, hneg⟩

/-- C12: when a recorded call of the encoder (stream `s`, sub-encoder `s`) returned a negative
code `e`, the encoder returns exactly `e`, every earlier stream returned a non-negative length,
and no stream or sub-encoder beyond `s` was called. -/
theorem encode_error_propagation (layout : ChannelLayout) (env : EncoderEnv)
    (pcm : Int → opus_val16) (frame_size : Int) (data0 : Int → Nat) (max_data_bytes : Int)
    (buf0 : Int → opus_val16) :
    ∀ c ∈ (opus_multistream_encode layout env pcm frame_size data0 max_data_bytes buf0).calls,
      c.len < 0 →
      (opus_multistream_encode layout env pcm frame_size data0 max_data_bytes buf0).ret = c.len ∧
      (c.enc : Int) = c.s ∧
      (∀ c' ∈ (opus_multistream_encode layout env pcm frame_size data0 max_data_bytes
          buf0).calls, c'.s ≤ c.s ∧ c'.enc ≤ c.enc) ∧
      ∀ c' ∈ (opus_multistream_encode layout env pcm frame_size data0 max_data_bytes buf0).calls,
        c'.s < c.s → 0 ≤ c'.len := by
  by_cases hmax : max_data_bytes < 2 * layout.nb_streams - 1
  · intro c hc
    unfold opus_multistream_encode at hc
    rw [if_pos hmax] at hc
    simp at hc
  · obtain ⟨_, hsuf, hneg⟩ :=
      encode_log layout env pcm frame_size data0 max_data_bytes buf0 hmax
    intro c hc hlen
    obtain ⟨h1, h2, h3⟩ := hneg c hc hlen
    refine ⟨h1, (hsuf c hc).2.2, ?_, h3⟩
    intro c' hc'
    have a := h2 c' hc'
    have b := (hsuf c' hc').2.2
    have d := (hsuf c hc).2.2
    exact ⟨a, by omega⟩

/-- C12, at a concrete input: three mono streams, the second sub-encoder returns `-3`; the
encoder returns `-3` and the third sub-encoder is not called. -/
theorem encode_error_propagation_witness :
    ((opus_multistream_encode (layout_of 3 3 0 [0, 1, 2])
        ⟨fun enc _ _ _ => if enc = 1 then (-3, fun _ => 0) else (2, fun _ => 5), stub_encode_size⟩
        (fun _ => 0) 1 (fun _ => 0) 100 (fun _ => 0)).ret,
      (opus_multistream_encode (layout_of 3 3 0 [0, 1, 2])
        ⟨fun enc _ _ _ => if enc = 1 then (-3, fun _ => 0) else (2, fun _ => 5), stub_encode_size⟩
        (fun _ => 0) 1 (fun _ => 0) 100 (fun _ => 0)).calls.map (fun c => (c.enc, c.s, c.len)))
      = (-3, [(0, 0, 2), (1, 1, -3)]) ∧
    ∀ c ∈ (opus_multistream_encode (layout_of 3 3 0 [0, 1, 2])
        ⟨fun enc _ _ _ => if enc = 1 then (-3, fun _ => 0) else (2, fun _ => 5), stub_encode_size⟩
        (fun _ => 0) 1 (fun _ => 0) 100 (fun _ => 0)).calls,
      c.len < 0 →
      (opus_multistream_encode (layout_of 3 3 0 [0, 1, 2])
        ⟨fun enc _ _ _ => if enc = 1 then (-3, fun _ => 0) else (2, fun _ => 5), stub_encode_size⟩
        (fun _ => 0) 1 (fun _ => 0) 100 (fun _ => 0)).ret = c.len ∧
      (c.enc : Int) = c.s ∧
      (∀ c' ∈ (opus_multistream_encode (layout_of 3 3 0 [0, 1, 2])
          ⟨fun enc _ _ _ => if enc = 1 then (-3, fun _ => 0) else (2, fun _ => 5),
            stub_encode_size⟩
          (fun _ => 0) 1 (fun _ => 0) 100 (fun _ => 0)).calls, c'.s ≤ c.s ∧ c'.enc ≤ c.enc) ∧
      ∀ c' ∈ (opus_multistream_encode (layout_of 3 3 0 [0, 1, 2])
          ⟨fun enc _ _ _ => if enc = 1 then (-3, fun _ => 0) else (2, fun _ => 5),
            stub_encode_size⟩
          (fun _ => 0) 1 (fun _ => 0) 100 (fun _ => 0)).calls,
        c'.s < c.s → 0 ≤ c'.len :=
  ⟨by decide, encode_error_propagation (layout_of 3 3 0 [0, 1, 2])
    ⟨fun enc _ _ _ => if enc = 1 then (-3, fun _ => 0) else (2, fun _ => 5), stub_encode_size⟩
    (fun _ => 0) 1 (fun _ => 0) 100 (fun _ => 0)⟩

/-- C13, as the code has it: with `max_data_bytes < 2*nb_streams - 1` the encoder returns
`OPUS_BUFFER_TOO_SMALL`, calls no sub-encoder and leaves the output buffer alone; with at least
one stream and `max_data_bytes ≥ 2*nb_streams - 1` the first call of the log is the call of
stream 0 on sub-encoder 0. -/
theorem encode_size_guard :
    (∀ (layout : ChannelLayout) (env : EncoderEnv) (pcm : Int → opus_val16) (frame_size : Int)
        (data0 : Int → Nat) (max_data_bytes : Int) (buf0 : Int → opus_val16),
      max_data_bytes < 2 * layout.nb_streams - 1 →
      (opus_multistream_encode layout env pcm frame_size data0 max_data_bytes buf0).ret
        = OPUS_BUFFER_TOO_SMALL ∧
      (opus_multistream_encode layout env pcm frame_size data0 max_data_bytes buf0).calls = [] ∧
      (opus_multistream_encode layout env pcm frame_size data0 max_data_bytes buf0).data
        = data0) ∧
    (∀ (layout : ChannelLayout) (env : EncoderEnv) (pcm : Int → opus_val16) (frame_size : Int)
        (data0 : Int → Nat) (max_data_bytes : Int) (buf0 : Int → opus_val16),
      1 ≤ layout.nb_streams → 2 * layout.nb_streams - 1 ≤ max_data_bytes →
      ∃ c rest,
        (opus_multistream_encode layout env pcm frame_size data0 max_data_bytes buf0).calls
          = c :: rest ∧ c.s = 0 ∧ c.enc = 0) := by
  constructor
  · intro layout env pcm frame_size data0 max_data_bytes buf0 h
    unfold opus_multistream_encode
    rw [if_pos h]
    exact ⟨rfl, rfl, rfl⟩
  · intro layout env pcm frame_size data0 max_data_bytes buf0 hN hmax
    obtain ⟨hfirst, hsuf, _⟩ :=
      encode_log layout env pcm frame_size data0 max_data_bytes buf0 (by omega)
    obtain ⟨c, rest, e, hs⟩ := hfirst (by omega)
    refine ⟨c, rest, e, hs, ?_⟩
    have := (hsuf c (by rw [e]; exact List.mem_cons_self _ _)).2.2
    omega

/-- C13, the claim as stated fails: an encoder with 0 streams is accepted by encoder init;
with `max_data_bytes = 0 ≥ 2*0 - 1` the guard does not fire, the encoder returns 0 and no
sub-encoder is called. -/
theorem encode_no_stream_no_call :
    (opus_multistream_encoder_init ⟨0, 0, 0, fun _ => 0⟩ 0 0 0 (fun _ => 0)).ret = OPUS_OK ∧
    2 * (layout_of 0 0 0 []).nb_streams - 1 ≤ 0 ∧
    (opus_multistream_encode (layout_of 0 0 0 []) ⟨stub_encode 0 (fun _ => 0), stub_encode_size⟩
      (fun _ => 0) 1 (fun _ => 0) 0 (fun _ => 0)).ret = 0 ∧
    (opus_multistream_encode (layout_of 0 0 0 []) ⟨stub_encode 0 (fun _ => 0), stub_encode_size⟩
      (fun _ => 0) 1 (fun _ => 0) 0 (fun _ => 0)).calls.length = 0 := by
  decide

/-- C13, at concrete inputs: two mono streams; with `max_data_bytes = 2 = 2*2 - 2` the encoder
refuses, with `max_data_bytes = 3 = 2*2 - 1` sub-encoder 0 is called first. -/
theorem encode_size_guard_witness :
    ((2 : Int) < 2 * (layout_of 2 2 0 [0, 1]).nb_streams - 1 ∧
      (opus_multistream_encode (layout_of 2 2 0 [0, 1])
        ⟨stub_encode 0 (fun _ => 0), stub_encode_size⟩ (fun _ => 0) 0 (fun _ => 0) 2
        (fun _ => 0)).ret = OPUS_BUFFER_TOO_SMALL ∧
      (opus_multistream_encode (layout_of 2 2 0 [0, 1])
        ⟨stub_encode 0 (fun _ => 0), stub_encode_size⟩ (fun _ => 0) 0 (fun _ => 0) 2
        (fun _ => 0)).calls = [] ∧
      (opus_multistream_encode (layout_of 2 2 0 [0, 1])
        ⟨stub_encode 0 (fun _ => 0), stub_encode_size⟩ (fun _ => 0) 0 (fun _ => 0) 2
        (fun _ => 0)).data = fun _ => 0) ∧
    (1 ≤ (layout_of 2 2 0 [0, 1]).nb_streams ∧
      2 * (layout_of 2 2 0 [0, 1]).nb_streams - 1 ≤ (3 : Int) ∧
      ∃ c rest,
        (opus_multistream_encode (layout_of 2 2 0 [0, 1])
          ⟨stub_encode 0 (fun _ => 0), stub_encode_size⟩ (fun _ => 0) 0 (fun _ => 0) 3
          (fun _ => 0)).calls = c :: rest ∧ c.s = 0 ∧ c.enc = 0) :=
  ⟨⟨by decide, encode_size_guard.1 (layout_of 2 2 0 [0, 1])
      ⟨stub_encode 0 (fun _ => 0), stub_encode_size⟩ (fun _ => 0) 0 (fun _ => 0) 2
      (fun _ => 0) (by decide)⟩,
    ⟨by decide, by decide, encode_size_guard.2 (layout_of 2 2 0 [0, 1])
      ⟨stub_encode 0 (fun _ => 0), stub_encode_size⟩ (fun _ => 0) 0 (fun _ => 0) 3
      (fun _ => 0) (by decide) (by decide)⟩⟩

/-- C17, as the code has it: the byte budget of every recorded call of stream `s` is
`(max_data_bytes - tot_size) - (2*(nb_streams - s) - 1)`, with `tot_size` the bytes accumulated
when the call is made: the reserve is 1 for the final stream `s = nb_streams - 1`, 3 for the
stream before it, and 2 more for each further stream that is still to come. -/
theorem encode_budget (layout : ChannelLayout) (env : EncoderEnv) (pcm : Int → opus_val16)
    (frame_size : Int) (data0 : Int → Nat) (max_data_bytes : Int) (buf0 : Int → opus_val16) :
    ∀ c ∈ (opus_multistream_encode layout env pcm frame_size data0 max_data_bytes buf0).calls,
      0 ≤ c.s ∧ c.s < layout.nb_streams ∧
      c.max_data_bytes = (max_data_bytes - c.tot_size) - (2 * (layout.nb_streams - c.s) - 1) ∧
      (c.s = layout.nb_streams - 1 → c.max_data_bytes = (max_data_bytes - c.tot_size) - 1) ∧
      (c.s = layout.nb_streams - 2 → c.max_data_bytes = (max_data_bytes - c.tot_size) - 3) := by
  unfold opus_multistream_encode
  split
  · intro c hc
    simp at hc
  · refine encode_loop_calls_forall layout env pcm frame_size max_data_bytes
      (fun c => 0 ≤ c.s ∧ c.s < layout.nb_streams ∧
        c.max_data_bytes
          = (max_data_bytes - c.tot_size) - (2 * (layout.nb_streams - c.s) - 1) ∧
        (c.s = layout.nb_streams - 1 → c.max_data_bytes = (max_data_bytes - c.tot_size) - 1) ∧
        (c.s = layout.nb_streams - 2 → c.max_data_bytes = (max_data_bytes - c.tot_size) - 3))
      ?_ _ 0 _ (le_refl _) rfl rfl ?_
    · intro s st hs1 hs2 _
      refine ⟨hs1, hs2, rfl, ?_, ?_⟩
      · intro h
        simp only [] at h ⊢
        omega
      · intro h
        simp only [] at h ⊢
        omega
    · intro c hc
      simp at hc

/-- C17, the claim as stated fails: with two mono streams and `max_data_bytes = 100` the first
sub-encoder, which is not the final one, is called with `tot_size = 0` and the budget
`97 = 100 - 0 - 3`, not `98 = 100 - 0 - 2`; the final one is called with `tot_size = 3` and the
budget `96 = 100 - 3 - 1`. -/
theorem encode_budget_first_of_two :
    (opus_multistream_encode (layout_of 2 2 0 [0, 1])
        ⟨stub_encode 0 (fun e => 10 + e), stub_encode_size⟩
        (fun j => [7, 9].getD j.toNat 0) 1 (fun _ => 0) 100 (fun _ => 0)).calls.map
      (fun c => (c.s, c.tot_size, c.max_data_bytes))
      = [(0, 0, 97), (1, 3, 96)] := by
  decide

/-- C17, at a concrete input: the two mono streams of the evaluation above. -/
theorem encode_budget_witness :
    (opus_multistream_encode (layout_of 2 2 0 [0, 1])
        ⟨stub_encode 0 (fun e => 10 + e), stub_encode_size⟩
        (fun j => [7, 9].getD j.toNat 0) 1 (fun _ => 0) 100 (fun _ => 0)).calls.length = 2 ∧
    ∀ c ∈ (opus_multistream_encode (layout_of 2 2 0 [0, 1])
        ⟨stub_encode 0 (fun e => 10 + e), stub_encode_size⟩
        (fun j => [7, 9].getD j.toNat 0) 1 (fun _ => 0) 100 (fun _ => 0)).calls,
      0 ≤ c.s ∧ c.s < (layout_of 2 2 0 [0, 1]).nb_streams ∧
      c.max_data_bytes
        = (100 - c.tot_size) - (2 * ((layout_of 2 2 0 [0, 1]).nb_streams - c.s) - 1) ∧
      (c.s = (layout_of 2 2 0 [0, 1]).nb_streams - 1 →
        c.max_data_bytes = (100 - c.tot_size) - 1) ∧
      (c.s = (layout_of 2 2 0 [0, 1]).nb_streams - 2 →
        c.max_data_bytes = (100 - c.tot_size) - 3) :=
  ⟨by decide,
    encode_budget (layout_of 2 2 0 [0, 1]) ⟨stub_encode 0 (fun e => 10 + e), stub_encode_size⟩
      (fun j => [7, 9].getD j.toNat 0) 1 (fun _ => 0) 100 (fun _ => 0)⟩

/-- The invariant behind the output bound: while every call returns a length between 1 and its
budget and every length field has at most 2 bytes, `tot_size` stays within
`max_data_bytes - (2*(nb_streams - s) - 1)` before stream `s` and within `max_data_bytes - 1`
after the last stream. -/
theorem encode_loop_bound (layout : ChannelLayout) (env : EncoderEnv) (pcm : Int → opus_val16)
    (frame_size max_data_bytes : Int) (hsz : ∀ v, (env.encode_size v).length ≤ 2) (k : Nat) :
    ∀ (s : Int) (st : EncState), 0 ≤ s → k = (layout.nb_streams - s).toNat →
      (st.ptr : Int) = s →
      (s < layout.nb_streams →
        st.tot_size ≤ max_data_bytes - (2 * (layout.nb_streams - s) - 1)) →
      (layout.nb_streams ≤ s → st.tot_size ≤ max_data_bytes - 1) →
      (∀ c ∈ st.calls, 0 ≤ c.max_data_bytes) →
      (∀ c ∈ (encode_loop layout env pcm frame_size max_data_bytes k s st).calls,
        1 ≤ c.len ∧ c.len ≤ c.max_data_bytes) →
      (∀ c ∈ (encode_loop layout env pcm frame_size max_data_bytes k s st).calls,
        0 ≤ c.max_data_bytes) ∧
      (encode_loop layout env pcm frame_size max_data_bytes k s st).ret
        ≤ max_data_bytes - 1 := by
  induction k with
  | zero =>
    intro s st _ hk _ _ h2 h3 _
    exact ⟨h3, h2 (by omega)⟩
  | succ k ih =>
    intro s st hs hk hptr h1 _ h3
    have hsN : s < layout.nb_streams := by omega
    have h1' := h1 hsN
    rw [encode_loop]
    simp only []
    generalize env.opus_encode_native st.ptr (stream_buf layout pcm frame_size s st.buf)
      frame_size (max_data_bytes - st.tot_size - (2 * (layout.nb_streams - s) - 1)) = out
    generalize hcall : EncCall.mk _ _ _ _ _ _ _ = call
    have hcl : call.len = out.1 := by rw [← hcall]
    have hcm : call.max_data_bytes
        = max_data_bytes - st.tot_size - (2 * (layout.nb_streams - s) - 1) := by rw [← hcall]
    by_cases hlen : out.1 < 0
    · rw [if_pos hlen]
      intro hgood
      have := hgood call (List.mem_append_right _ (List.mem_singleton.2 rfl))
      omega
    · rw [if_neg hlen]
      generalize hst : EncState.mk _ _ _ _ _ _ = st'
      have hsp : st'.ptr = st.ptr + 1 := by rw [← hst]
      have hsc : st'.calls = st.calls ++ [call] := by rw [← hst]
      have htot : st'.tot_size
          = (if s ≠ layout.nb_streams - 1 then
              st.tot_size + ((env.encode_size (out.1 - 1)).length : Int)
            else st.tot_size) + out.1 := by
        rw [← hst]
        show _ + out.1 = _ + out.1
        congr 1
        split <;> rfl
      intro hgood
      obtain ⟨suffix, hcalls, -⟩ := encode_loop_log layout env pcm frame_size max_data_bytes k
        (s + 1) st' (by omega) (by omega) (by rw [hsp]; push_cast; omega)
      have hcg := hgood call (by
        rw [hcalls, hsc]
        exact List.mem_append_left _ (List.mem_append_right _ (List.mem_singleton.2 rfl)))
      have hb := hsz (out.1 - 1)
      apply ih (s + 1) st' (by omega) (by omega) (by rw [hsp]; push_cast; omega)
      · intro hlt
        rw [htot, if_pos (by omega)]
        omega
      · intro hge
        rw [htot, if_neg (by omega)]
        omega
      · intro c hc
        rw [hsc] at hc
        rcases List.mem_append.1 hc with h | h
        · exact h3 c h
        · rw [List.mem_singleton.1 h]
          omega
      · exact hgood

/-- When every recorded call returned a length between 1 and its budget, the value returned
by the encoder is below `max_data_bytes`. -/
theorem encode_ret_bound (layout : ChannelLayout) (env : EncoderEnv) (pcm : Int → opus_val16)
    (frame_size : Int) (data0 : Int → Nat) (max_data_bytes : Int) (buf0 : Int → opus_val16)
    (hN : 1 ≤ layout.nb_streams) (hmax : 2 * layout.nb_streams - 1 ≤ max_data_bytes)
    (hsz : ∀ v, (env.encode_size v).length = 1 ∨ (env.encode_size v).length = 2)
    (hlen : ∀ c ∈ (opus_multistream_encode layout env pcm frame_size data0 max_data_bytes
        buf0).calls, 1 ≤ c.len ∧ c.len ≤ c.max_data_bytes) :
    (opus_multistream_encode layout env pcm frame_size data0 max_data_bytes buf0).ret
      ≤ max_data_bytes - 1 := by
  unfold opus_multistream_encode at hlen ⊢
  rw [if_neg (by omega)] at hlen ⊢
  exact (encode_loop_bound layout env pcm frame_size max_data_bytes
    (fun v => by rcases hsz v with h | h <;> omega) _ 0 _ (le_refl _) rfl rfl
    (fun _ => by show (0 : Int) ≤ _; omega) (fun h => by omega)
    (fun c hc => by simp at hc) hlen).2

/-- The budgets of the encode loop entered at stream `s`: the first call is made with the
`tot_size` of the entry state, and when that `tot_size` leaves the reserve of stream `s`, a call
whose predecessors in the loop all returned a length between 1 and their budget gets a
non-negative budget, its `tot_size` leaving the reserve of its own stream. -/
theorem encode_loop_budget (layout : ChannelLayout) (env : EncoderEnv) (pcm : Int → opus_val16)
    (frame_size max_data_bytes : Int) (hsz : ∀ v, (env.encode_size v).length ≤ 2) (k : Nat) :
    ∀ (s : Int) (st : EncState), 0 ≤ s → k = (layout.nb_streams - s).toNat →
      ∃ suffix,
        (encode_loop layout env pcm frame_size max_data_bytes k s st).calls
          = st.calls ++ suffix ∧
        (s < layout.nb_streams →
          ∃ c rest, suffix = c :: rest ∧ c.s = s ∧ c.tot_size = st.tot_size) ∧
        (st.tot_size ≤ max_data_bytes - (2 * (layout.nb_streams - s) - 1) →
          ∀ pre c post, suffix = pre ++ c :: post →
            (∀ c' ∈ pre, 1 ≤ c'.len ∧ c'.len ≤ c'.max_data_bytes) →
            0 ≤ c.max_data_bytes ∧
            c.tot_size ≤ max_data_bytes - (2 * (layout.nb_streams - c.s) - 1)) := by
  induction k with
  | zero =>
    intro s st _ hk
    refine ⟨[], by simp [encode_loop], fun h => by omega, ?_⟩
    intro _ pre c post h
    cases pre <;> simp at h
  | succ k ih =>
    intro s st hs hk
    have hsN : s < layout.nb_streams := by omega
    rw [encode_loop]
    simp only []
    generalize env.opus_encode_native st.ptr (stream_buf layout pcm frame_size s st.buf)
      frame_size (max_data_bytes - st.tot_size - (2 * (layout.nb_streams - s) - 1)) = out
    generalize hcall : EncCall.mk _ _ _ _ _ _ _ = call
    have hcs : call.s = s := by rw [← hcall]
    have hct : call.tot_size = st.tot_size := by rw [← hcall]
    have hcl : call.len = out.1 := by rw [← hcall]
    have hcm : call.max_data_bytes
        = max_data_bytes - st.tot_size - (2 * (layout.nb_streams - s) - 1) := by rw [← hcall]
    by_cases hlen : out.1 < 0
    · rw [if_pos hlen]
      refine ⟨[call], rfl, fun _ => ⟨call, [], rfl, hcs, hct⟩, ?_⟩
      intro hinv pre c post h _
      cases pre with
      | nil =>
        simp only [List.nil_append, List.cons.injEq] at h
        rw [← h.1, hcm, hct, hcs]
        omega
      | cons c0 pre' =>
        simp only [List.cons_append, List.cons.injEq] at h
        have h2 := h.2
        cases pre' <;> simp at h2
    · rw [if_neg hlen]
      generalize hst : EncState.mk _ _ _ _ _ _ = st'
      have hsc : st'.calls = st.calls ++ [call] := by rw [← hst]
      have htot : st'.tot_size
          = (if s ≠ layout.nb_streams - 1 then
              st.tot_size + ((env.encode_size (out.1 - 1)).length : Int)
            else st.tot_size) + out.1 := by
        rw [← hst]
        show _ + out.1 = _ + out.1
        congr 1
        split <;> rfl
      obtain ⟨suffix, hcalls, -, hinv'⟩ := ih (s + 1) st' (by omega) (by omega)
      rw [hsc] at hcalls
      refine ⟨call :: suffix, ?_, fun _ => ⟨call, suffix, rfl, hcs, hct⟩, ?_⟩
      · rw [hcalls, List.append_assoc]
        rfl
      · intro hinv pre c post h hgood
        cases pre with
        | nil =>
          simp only [List.nil_append, List.cons.injEq] at h
          rw [← h.1, hcm, hct, hcs]
          omega
        | cons c0 pre' =>
          simp only [List.cons_append, List.cons.injEq] at h
          have hg := hgood c0 (List.mem_cons_self _ _)
          rw [← h.1, hcl, hcm] at hg
          have hb := hsz (out.1 - 1)
          apply hinv' _ pre' c post h.2
            (fun c' hc' => hgood c' (List.mem_cons_of_mem _ hc'))
          rw [htot]
          split <;> omega

/-- C20: for an encoder with at least one stream, `max_data_bytes ≥ 2*nb_streams - 1` and an
`encode_size` that writes 1 or 2 bytes: the first sub-encoder is called with the budget
`max_data_bytes - (2*nb_streams - 1) ≥ 0`; every call whose predecessors all returned a length
between 1 and the budget they were given gets a budget `≥ 0`, the bytes accumulated before it
leaving the reserve `2*(nb_streams - s) - 1` of its stream; and when every call returned such a
length, the value returned is at most `max_data_bytes - 1`, hence at most `max_data_bytes`. The
bound on the length field is needed: with an `encode_size` of 3 bytes, `max_data_bytes = 10` and
a first sub-encoder that fills its budget of 7, the second budget is `-1`. -/
theorem encode_output_bound :
    (∀ (layout : ChannelLayout) (env : EncoderEnv) (pcm : Int → opus_val16) (frame_size : Int)
        (data0 : Int → Nat) (max_data_bytes : Int) (buf0 : Int → opus_val16),
      1 ≤ layout.nb_streams → 2 * layout.nb_streams - 1 ≤ max_data_bytes →
      (∀ v, (env.encode_size v).length = 1 ∨ (env.encode_size v).length = 2) →
      (∃ c rest,
        (opus_multistream_encode layout env pcm frame_size data0 max_data_bytes buf0).calls
          = c :: rest ∧ c.s = 0 ∧ c.tot_size = 0 ∧
        c.max_data_bytes = max_data_bytes - (2 * layout.nb_streams - 1)) ∧
      (∀ pre c post,
        (opus_multistream_encode layout env pcm frame_size data0 max_data_bytes buf0).calls
          = pre ++ c :: post →
        (∀ c' ∈ pre, 1 ≤ c'.len ∧ c'.len ≤ c'.max_data_bytes) →
        0 ≤ c.max_data_bytes ∧
        c.tot_size ≤ max_data_bytes - (2 * (layout.nb_streams - c.s) - 1)) ∧
      ((∀ c ∈ (opus_multistream_encode layout env pcm frame_size data0 max_data_bytes
          buf0).calls, 1 ≤ c.len ∧ c.len ≤ c.max_data_bytes) →
        (∀ c ∈ (opus_multistream_encode layout env pcm frame_size data0 max_data_bytes
          buf0).calls, 0 ≤ c.max_data_bytes) ∧
        (opus_multistream_encode layout env pcm frame_size data0 max_data_bytes buf0).ret
          ≤ max_data_bytes - 1 ∧
        (opus_multistream_encode layout env pcm frame_size data0 max_data_bytes buf0).ret
          ≤ max_data_bytes)) ∧
    (opus_multistream_encode (layout_of 2 2 0 [0, 1])
        ⟨fun _ _ _ budget => (budget, fun _ => 0), fun _ => [0, 0, 0]⟩
        (fun _ => 0) 1 (fun _ => 0) 10 (fun _ => 0)).calls.map
      (fun c => (c.s, c.tot_size, c.max_data_bytes, c.len))
      = [(0, 0, 7, 7), (1, 10, -1, -1)] := by
  refine ⟨?_, by decide⟩
  intro layout env pcm frame_size data0 max_data_bytes buf0 hN hmax hsz
  have hsz' : ∀ v, (env.encode_size v).length ≤ 2 := fun v => by
    rcases hsz v with h | h <;> omega
  have hbud := encode_budget layout env pcm frame_size data0 max_data_bytes buf0
  have hkey : ∃ suffix,
      (opus_multistream_encode layout env pcm frame_size data0 max_data_bytes buf0).calls
        = suffix ∧
      (∃ c rest, suffix = c :: rest ∧ c.s = 0 ∧ c.tot_size = 0) ∧
      (∀ pre c post, suffix = pre ++ c :: post →
        (∀ c' ∈ pre, 1 ≤ c'.len ∧ c'.len ≤ c'.max_data_bytes) →
        0 ≤ c.max_data_bytes ∧
        c.tot_size ≤ max_data_bytes - (2 * (layout.nb_streams - c.s) - 1)) := by
    unfold opus_multistream_encode
    rw [if_neg (by omega)]
    obtain ⟨suffix, hcalls, hfirst, hinv⟩ := encode_loop_budget layout env pcm frame_size
      max_data_bytes hsz' (layout.nb_streams - 0).toNat 0
      { ptr := 0, dp := 0, tot_size := 0, buf := buf0, data := data0, calls := [] }
      (le_refl _) rfl
    refine ⟨suffix, ?_, hfirst (by omega), hinv (by show (0 : Int) ≤ _; omega)⟩
    rw [hcalls]
    rfl
  obtain ⟨suffix, hcalls, ⟨c, rest, hcr, hcs, hct⟩, hinv⟩ := hkey
  rw [hcalls] at hbud ⊢
  refine ⟨?_, hinv, ?_⟩
  · refine ⟨c, rest, hcr, hcs, hct, ?_⟩
    have := (hbud c (by rw [hcr]; exact List.mem_cons_self _ _)).2.2.1
    rw [this, hct, hcs]
    omega
  · intro hgood
    have hret := encode_ret_bound layout env pcm frame_size data0 max_data_bytes buf0 hN hmax
      hsz (by rw [hcalls]; exact hgood)
    refine ⟨?_, hret, by omega⟩
    intro c' hc'
    obtain ⟨pre, post, hpp⟩ := List.append_of_mem hc'
    exact (hinv pre c' post hpp (fun c'' hc'' => hgood c'' (by
      rw [hpp]
      exact List.mem_append_left _ hc''))).1

theorem stub_encode_size_length (v : Int) :
    (stub_encode_size v).length = 1 ∨ (stub_encode_size v).length = 2 := by
  unfold stub_encode_size
  split
  · left
    rfl
  · right
    rfl

/-- C20, at concrete inputs: two mono streams and the lossless stub. With
`max_data_bytes = 100` the budgets are 97 and 96, both calls stay within them and the encoder
returns 5; at the boundary `max_data_bytes = 3 = 2*2 - 1` the first budget is 0. -/
theorem encode_output_bound_witness :
    (opus_multistream_encode (layout_of 2 2 0 [0, 1])
        ⟨stub_encode 0 (fun e => 10 + e), stub_encode_size⟩
        (fun j => [7, 9].getD j.toNat 0) 1 (fun _ => 0) 100 (fun _ => 0)).calls.map
      (fun c => (c.s, c.tot_size, c.max_data_bytes, c.len)) = [(0, 0, 97, 2), (1, 3, 96, 2)] ∧
    (opus_multistream_encode (layout_of 2 2 0 [0, 1])
        ⟨stub_encode 0 (fun e => 10 + e), stub_encode_size⟩
        (fun j => [7, 9].getD j.toNat 0) 1 (fun _ => 0) 100 (fun _ => 0)).ret = 5 ∧
    ((opus_multistream_encode (layout_of 2 2 0 [0, 1])
        ⟨stub_encode 0 (fun e => 10 + e), stub_encode_size⟩
        (fun j => [7, 9].getD j.toNat 0) 1 (fun _ => 0) 3 (fun _ => 0)).calls.map
      (fun c => (c.s, c.tot_size, c.max_data_bytes))).head? = some (0, 0, 0) ∧
    1 ≤ (layout_of 2 2 0 [0, 1]).nb_streams ∧
    2 * (layout_of 2 2 0 [0, 1]).nb_streams - 1 ≤ (100 : Int) ∧
    (∀ c ∈ (opus_multistream_encode (layout_of 2 2 0 [0, 1])
        ⟨stub_encode 0 (fun e => 10 + e), stub_encode_size⟩
        (fun j => [7, 9].getD j.toNat 0) 1 (fun _ => 0) 100 (fun _ => 0)).calls,
      1 ≤ c.len ∧ c.len ≤ c.max_data_bytes) ∧
    (∀ c ∈ (opus_multistream_encode (layout_of 2 2 0 [0, 1])
        ⟨stub_encode 0 (fun e => 10 + e), stub_encode_size⟩
        (fun j => [7, 9].getD j.toNat 0) 1 (fun _ => 0) 100 (fun _ => 0)).calls,
      0 ≤ c.max_data_bytes) ∧
    (opus_multistream_encode (layout_of 2 2 0 [0, 1])
        ⟨stub_encode 0 (fun e => 10 + e), stub_encode_size⟩
        (fun j => [7, 9].getD j.toNat 0) 1 (fun _ => 0) 100 (fun _ => 0)).ret ≤ 100 - 1 ∧
    (opus_multistream_encode (layout_of 2 2 0 [0, 1])
        ⟨stub_encode 0 (fun e => 10 + e), stub_encode_size⟩
        (fun j => [7, 9].getD j.toNat 0) 1 (fun _ => 0) 100 (fun _ => 0)).ret ≤ 100 :=
  ⟨by decide, by decide, by decide, by decide, by decide, by decide,
    (encode_output_bound.1 (layout_of 2 2 0 [0, 1])
      ⟨stub_encode 0 (fun e => 10 + e), stub_encode_size⟩
      (fun j => [7, 9].getD j.toNat 0) 1 (fun _ => 0) 100 (fun _ => 0)
      (by decide) (by decide) stub_encode_size_length).2.2 (by decide)⟩

/-! ## Construction, control broadcast and cursor enumeration -/

theorem bad_arg_ne_ok : ¬ OPUS_BAD_ARG = OPUS_OK := by decide

/-- C15, as the code has it: neither init checks `nb_coupled_streams ≤ nb_streams`; for the
layouts that do satisfy it and for which init returns `OPUS_OK`, exactly `nb_streams` sub-codecs
are initialised, the first `nb_coupled_streams` with 2 channels and the remainder with 1. -/
theorem init_sub_codecs (st : ChannelLayout) (channels streams coupled_streams : Int)
    (mapping : Nat → Nat) (hle : coupled_streams ≤ streams) :
    ((opus_multistream_encoder_init st channels streams coupled_streams mapping).ret = OPUS_OK →
      (opus_multistream_encoder_init st channels streams coupled_streams mapping).inits
        = List.replicate coupled_streams.toNat 2
          ++ List.replicate (streams.toNat - coupled_streams.toNat) 1 ∧
      (opus_multistream_encoder_init st channels streams coupled_streams mapping).inits.length
        = streams.toNat) ∧
    ((opus_multistream_decoder_init st channels streams coupled_streams mapping).ret = OPUS_OK →
      (opus_multistream_decoder_init st channels streams coupled_streams mapping).inits
        = List.replicate coupled_streams.toNat 2
          ++ List.replicate (streams.toNat - coupled_streams.toNat) 1 ∧
      (opus_multistream_decoder_init st channels streams coupled_streams mapping).inits.length
        = streams.toNat) := by
  have hcalls : init_calls (store_layout st channels streams coupled_streams mapping)
      = List.replicate coupled_streams.toNat 2
        ++ List.replicate (streams.toNat - coupled_streams.toNat) 1 := by
    unfold init_calls store_layout
    simp only [sub_zero]
    congr 2
    omega
  have hlen : (List.replicate coupled_streams.toNat (2 : Int)
      ++ List.replicate (streams.toNat - coupled_streams.toNat) 1).length = streams.toNat := by
    rw [List.length_append, List.length_replicate, List.length_replicate]
    omega
  constructor
  · unfold opus_multistream_encoder_init
    simp only []
    split
    · intro h
      exact absurd h bad_arg_ne_ok
    · intro _
      exact ⟨hcalls, by rw [hcalls]; exact hlen⟩
  · unfold opus_multistream_decoder_init
    simp only []
    split
    · intro h
      exact absurd h bad_arg_ne_ok
    · intro _
      exact ⟨hcalls, by rw [hcalls]; exact hlen⟩

/-- C15, the claim as stated fails: with 2 channels, 1 stream, 2 coupled streams and mapping
`[0,1]` both init functions return `OPUS_OK` although `nb_coupled_streams > nb_streams`, and
each initialises 2 sub-codecs with 2 channels for the 1 stream of the layout. -/
theorem init_accepts_more_coupled_than_streams :
    (opus_multistream_encoder_init ⟨0, 0, 0, fun _ => 0⟩ 2 1 2 (fun i => [0, 1].getD i 0)).ret
      = OPUS_OK ∧
    (opus_multistream_encoder_init ⟨0, 0, 0, fun _ => 0⟩ 2 1 2 (fun i => [0, 1].getD i 0)).inits
      = [2, 2] ∧
    (opus_multistream_decoder_init ⟨0, 0, 0, fun _ => 0⟩ 2 1 2 (fun i => [0, 1].getD i 0)).ret
      = OPUS_OK ∧
    (opus_multistream_decoder_init ⟨0, 0, 0, fun _ => 0⟩ 2 1 2 (fun i => [0, 1].getD i 0)).inits
      = [2, 2] ∧
    ¬ (opus_multistream_decoder_init ⟨0, 0, 0, fun _ => 0⟩ 2 1 2
        (fun i => [0, 1].getD i 0)).layout.nb_coupled_streams
      ≤ (opus_multistream_decoder_init ⟨0, 0, 0, fun _ => 0⟩ 2 1 2
        (fun i => [0, 1].getD i 0)).layout.nb_streams := by
  decide

/-- C15, at a concrete input: 3 channels, 2 streams of which 1 is coupled, mapping `[0,1,255]`
for the decoder. -/
theorem init_sub_codecs_witness :
    (1 : Int) ≤ 2 ∧
    (opus_multistream_decoder_init ⟨0, 0, 0, fun _ => 0⟩ 3 2 1
      (fun i => [0, 1, 255].getD i 0)).ret = OPUS_OK ∧
    (opus_multistream_decoder_init ⟨0, 0, 0, fun _ => 0⟩ 3 2 1
      (fun i => [0, 1, 255].getD i 0)).inits = [2, 1] ∧
    (opus_multistream_decoder_init ⟨0, 0, 0, fun _ => 0⟩ 3 2 1
      (fun i => [0, 1, 255].getD i 0)).inits
      = List.replicate (1 : Int).toNat 2
        ++ List.replicate ((2 : Int).toNat - (1 : Int).toNat) 1 ∧
    (opus_multistream_decoder_init ⟨0, 0, 0, fun _ => 0⟩ 3 2 1
      (fun i => [0, 1, 255].getD i 0)).inits.length = (2 : Int).toNat :=
  ⟨by decide, by decide, by decide,
    (init_sub_codecs ⟨0, 0, 0, fun _ => 0⟩ 3 2 1 (fun i => [0, 1, 255].getD i 0)
      (by decide)).2 (by decide)⟩

theorem range_map_shift {α : Type} (f : Nat → α) (n : Nat) :
    f 0 :: (List.range n).map (fun i => f (i + 1)) = (List.range (n + 1)).map f := by
  rw [List.range_succ_eq_map, List.map_cons, List.map_map]
  rfl

/-- The broadcast loop entered at sub-encoder `ptr`: either some call fails first, at offset
`j`, and the loop stops there, or all `k` calls succeed. -/
theorem broadcast_loop_spec (ctl : Nat → Int → Nat → Int) (request : Int) (value : Nat)
    (k : Nat) :
    ∀ (s : Int) (ptr : Nat) (ret : Int) (calls : List CtlCall),
      (∃ j, j < k ∧ ctl (ptr + j) request value < 0 ∧
        (∀ i, i < j → 0 ≤ ctl (ptr + i) request value) ∧
        (broadcast_loop ctl request value k s ptr ret calls).ret = ctl (ptr + j) request value ∧
        (broadcast_loop ctl request value k s ptr ret calls).calls
          = calls ++ (List.range (j + 1)).map (fun i => ⟨ptr + i, request, value⟩)) ∨
      ((∀ i, i < k → 0 ≤ ctl (ptr + i) request value) ∧
        (broadcast_loop ctl request value k s ptr ret calls).calls
          = calls ++ (List.range k).map (fun i => ⟨ptr + i, request, value⟩) ∧
        (broadcast_loop ctl request value k s ptr ret calls).ret
          = if k = 0 then ret else ctl (ptr + (k - 1)) request value) := by
  induction k with
  | zero =>
    intro s ptr ret calls
    right
    refine ⟨fun i hi => absurd hi (Nat.not_lt_zero _), by simp [broadcast_loop], rfl⟩
  | succ k ih =>
    intro s ptr ret calls
    rw [broadcast_loop]
    by_cases hneg : ctl ptr request value < 0
    · rw [if_pos hneg]
      left
      exact ⟨0, Nat.succ_pos _, hneg, fun i hi => absurd hi (Nat.not_lt_zero _), rfl, rfl⟩
    · rw [if_neg hneg]
      have hshift : ∀ n, ([⟨ptr, request, value⟩] : List CtlCall)
          ++ (List.range n).map (fun i => ⟨ptr + 1 + i, request, value⟩)
          = (List.range (n + 1)).map (fun i => ⟨ptr + i, request, value⟩) := by
        intro n
        rw [← range_map_shift (fun i => (⟨ptr + i, request, value⟩ : CtlCall)) n]
        simp only [List.singleton_append, Nat.add_zero, Nat.add_assoc, Nat.add_comm 1]
      rcases ih (s + 1) (ptr + 1) (ctl ptr request value)
        (calls ++ [⟨ptr, request, value⟩]) with ⟨j, h1, h2, h3, h4, h5⟩ | ⟨h1, h2, h3⟩
      · left
        refine ⟨j + 1, Nat.succ_lt_succ h1, ?_, ?_, ?_, ?_⟩
        · rw [← Nat.add_assoc, Nat.add_right_comm]
          exact h2
        · intro i hi
          cases i with
          | zero => exact not_lt.1 hneg
          | succ i =>
            have := h3 i (Nat.lt_of_succ_lt_succ hi)
            rw [Nat.add_right_comm] at this
            exact this
        · rw [h4, ← Nat.add_assoc, Nat.add_right_comm]
        · rw [h5, List.append_assoc, hshift]
      · right
        refine ⟨?_, ?_, ?_⟩
        · intro i hi
          cases i with
          | zero => exact not_lt.1 hneg
          | succ i =>
            have := h1 i (Nat.lt_of_succ_lt_succ hi)
            rw [Nat.add_right_comm] at this
            exact this
        · rw [h2, List.append_assoc, hshift]
        · rw [h3, if_neg (Nat.succ_ne_zero _)]
          cases k with
          | zero => rfl
          | succ k =>
            rw [if_neg (Nat.succ_ne_zero _)]
            congr 1
            omega

/-- C16: for a request other than `OPUS_SET_BITRATE_REQUEST` the control call of the encoder
either meets a first sub-encoder `k < nb_streams` whose result is negative, returns that result
and has called exactly the sub-encoders `0..k`, in this order and with the unchanged value, or
no sub-encoder fails, all `nb_streams` are called once each in order, and the result of the last
one is returned (`OPUS_OK` when there is no stream). -/
theorem ctl_broadcast (layout : ChannelLayout) (ctl : Nat → Int → Nat → Int) (request : Int)
    (value : Nat) (hreq : request ≠ OPUS_SET_BITRATE_REQUEST) :
    (∃ k : Nat, (k : Int) < layout.nb_streams ∧ ctl k request value < 0 ∧
      (∀ i, i < k → 0 ≤ ctl i request value) ∧
      (opus_multistream_encoder_ctl layout ctl request value).ret = ctl k request value ∧
      (opus_multistream_encoder_ctl layout ctl request value).calls
        = (List.range (k + 1)).map (fun i => ⟨i, request, value⟩)) ∨
    ((∀ i : Nat, (i : Int) < layout.nb_streams → 0 ≤ ctl i request value) ∧
      (opus_multistream_encoder_ctl layout ctl request value).calls
        = (List.range layout.nb_streams.toNat).map (fun i => ⟨i, request, value⟩) ∧
      (opus_multistream_encoder_ctl layout ctl request value).ret
        = if layout.nb_streams.toNat = 0 then OPUS_OK
          else ctl (layout.nb_streams.toNat - 1) request value) := by
  unfold opus_multistream_encoder_ctl
  rw [if_neg hreq]
  simp only [sub_zero]
  rcases broadcast_loop_spec ctl request value layout.nb_streams.toNat 0 0 OPUS_OK []
    with ⟨j, h1, h2, h3, h4, h5⟩ | ⟨h1, h2, h3⟩
  · left
    simp only [Nat.zero_add, List.nil_append] at h2 h3 h4 h5
    exact ⟨j, by omega, h2, h3, h4, h5⟩
  · right
    simp only [Nat.zero_add, List.nil_append] at h1 h2 h3
    exact ⟨fun i hi => h1 i (by omega), h2, h3⟩

/-- C16, at a concrete input: three mono streams, the request code 4006, the second sub-encoder
answers `-1`: the sub-encoders 0 and 1 are called with the value 5 and `-1` is returned. -/
theorem ctl_broadcast_witness :
    (4006 : Int) ≠ OPUS_SET_BITRATE_REQUEST ∧
    opus_multistream_encoder_ctl (layout_of 3 3 0 [0, 1, 2])
        (fun enc _ _ => if enc = 1 then -1 else 0) 4006 5
      = { ret := -1, calls := [⟨0, 4006, 5⟩, ⟨1, 4006, 5⟩] } ∧
    ((∃ k : Nat, (k : Int) < (layout_of 3 3 0 [0, 1, 2]).nb_streams ∧
      (fun enc (_ : Int) (_ : Nat) => if enc = 1 then (-1 : Int) else 0) k 4006 5 < 0 ∧
      (∀ i, i < k →
        0 ≤ (fun enc (_ : Int) (_ : Nat) => if enc = 1 then (-1 : Int) else 0) i 4006 5) ∧
      (opus_multistream_encoder_ctl (layout_of 3 3 0 [0, 1, 2])
          (fun enc _ _ => if enc = 1 then -1 else 0) 4006 5).ret
        = (fun enc (_ : Int) (_ : Nat) => if enc = 1 then (-1 : Int) else 0) k 4006 5 ∧
      (opus_multistream_encoder_ctl (layout_of 3 3 0 [0, 1, 2])
          (fun enc _ _ => if enc = 1 then -1 else 0) 4006 5).calls
        = (List.range (k + 1)).map (fun i => ⟨i, 4006, 5⟩)) ∨
    ((∀ i : Nat, (i : Int) < (layout_of 3 3 0 [0, 1, 2]).nb_streams →
        0 ≤ (fun enc (_ : Int) (_ : Nat) => if enc = 1 then (-1 : Int) else 0) i 4006 5) ∧
      (opus_multistream_encoder_ctl (layout_of 3 3 0 [0, 1, 2])
          (fun enc _ _ => if enc = 1 then -1 else 0) 4006 5).calls
        = (List.range (layout_of 3 3 0 [0, 1, 2]).nb_streams.toNat).map
          (fun i => ⟨i, 4006, 5⟩) ∧
      (opus_multistream_encoder_ctl (layout_of 3 3 0 [0, 1, 2])
          (fun enc _ _ => if enc = 1 then -1 else 0) 4006 5).ret
        = if (layout_of 3 3 0 [0, 1, 2]).nb_streams.toNat = 0 then OPUS_OK
          else (fun enc (_ : Int) (_ : Nat) => if enc = 1 then (-1 : Int) else 0)
            ((layout_of 3 3 0 [0, 1, 2]).nb_streams.toNat - 1) 4006 5)) :=
  ⟨by decide, by decide,
    ctl_broadcast (layout_of 3 3 0 [0, 1, 2]) (fun enc _ _ => if enc = 1 then -1 else 0)
      4006 5 (by decide)⟩

theorem cursor_walk_length (get : Int → Int) (fuel : Nat) :
    ∀ (prev : Int) (chans : List Int), cursor_walk get fuel prev = some chans →
      chans.length < fuel := by
  induction fuel with
  | zero =>
    intro prev chans h
    simp [cursor_walk] at h
  | succ fuel ih =>
    intro prev chans h
    rw [cursor_walk] at h
    by_cases hc : get prev ≠ -1
    · rw [if_pos hc] at h
      cases hw : cursor_walk get fuel (get prev) with
      | none =>
        rw [hw] at h
        simp at h
      | some rest =>
        rw [hw] at h
        simp only [Option.map_some', Option.some.injEq] at h
        rw [← h]
        have := ih _ _ hw
        simp only [List.length_cons]
        omega
    · rw [if_neg hc] at h
      simp only [Option.some.injEq] at h
      rw [← h]
      exact Nat.succ_pos _

/-- The cursor protocol with enough fuel returns, in increasing order, the channels beyond the
cursor that are mapped to the slot. -/
theorem cursor_walk_spec (layout : ChannelLayout) (slot : Int) (get : Int → Int)
    (hget : ∀ prev, IsLookupResult layout slot prev (get prev)) (fuel : Nat) :
    ∀ prev : Int, -1 ≤ prev → (layout.nb_channels - (prev + 1)).toNat < fuel →
      ∃ chans, cursor_walk get fuel prev = some chans ∧
        chans.Pairwise (fun a b => a < b) ∧
        ∀ i, i ∈ chans ↔ prev < i ∧ i < layout.nb_channels ∧ layout.entry i = slot := by
  induction fuel with
  | zero =>
    intro prev _ h
    omega
  | succ fuel ih =>
    intro prev hprev hfuel
    rw [cursor_walk]
    have hg := hget prev
    unfold IsLookupResult at hg
    rcases hg with ⟨h1, h2⟩ | ⟨h1, h2, h3, h4, h5⟩
    · rw [if_neg (by rw [h1]; simp)]
      refine ⟨[], rfl, List.Pairwise.nil, ?_⟩
      intro i
      constructor
      · intro hi
        simp at hi
      · rintro ⟨a, b, c⟩
        exact absurd c (h2 i a (by omega) b)
    · rw [if_pos (by omega)]
      obtain ⟨rest, e, hpw, hmem⟩ := ih (get prev) (by omega) (by omega)
      rw [e]
      refine ⟨get prev :: rest, rfl, ?_, ?_⟩
      · exact List.pairwise_cons.2 ⟨fun a ha => ((hmem a).1 ha).1, hpw⟩
      · intro i
        rw [List.mem_cons, hmem i]
        constructor
        · rintro (hi | ⟨a, b, c⟩)
          · rw [hi]
            exact ⟨h1, h3, h4⟩
          · exact ⟨by omega, b, c⟩
        · rintro ⟨a, b, c⟩
          rcases lt_trichotomy i (get prev) with hh | hh | hh
          · exact absurd c (h5 i a (by omega) hh)
          · exact Or.inl hh
          · exact Or.inr ⟨hh, b, c⟩

theorem enumerates_slot (layout : ChannelLayout) (slot : Int) (get : Int → Int)
    (hget : ∀ prev, IsLookupResult layout slot prev (get prev)) :
    EnumeratesSlot layout get slot := by
  obtain ⟨chans, e, hpw, hmem⟩ := cursor_walk_spec layout slot get hget
    (layout.nb_channels.toNat + 1) (-1) (le_refl _) (by omega)
  have hlen := cursor_walk_length get _ _ _ e
  refine ⟨chans, e, by omega, fun _ => by omega, hpw, ?_, ?_⟩
  · exact hpw.imp (fun h => ne_of_lt h)
  · intro i
    rw [hmem i]
    constructor
    · rintro ⟨a, b, c⟩
      exact ⟨by omega, b, c⟩
    · rintro ⟨a, b, c⟩
      exact ⟨by omega, b, c⟩

/-- The scatter loop visits the channels of the cursor protocol, in its order: its result is
the copy loop folded over the channels that `cursor_walk` returns. -/
theorem scatter_eq_cursor_walk (nb_channels : Int) (get : Int → Int) (src : Int → opus_val16)
    (F : Int) (fuel : Nat) :
    ∀ (prev : Int) (pcm : Int → opus_val16),
      scatter nb_channels get src F fuel prev pcm
        = (cursor_walk get fuel prev).map (fun chans =>
            chans.foldl (fun p chan => fill_channel nb_channels chan src (F - 0).toNat 0 p)
              pcm) := by
  induction fuel with
  | zero =>
    intro prev pcm
    rfl
  | succ fuel ih =>
    intro prev pcm
    rw [scatter, cursor_walk]
    by_cases hc : get prev ≠ -1
    · rw [if_pos hc, if_pos hc, ih]
      cases cursor_walk get fuel (get prev) <;> rfl
    · rw [if_neg hc, if_neg hc]
      rfl

/-- C18: for every layout and `stream_id`, the cursor protocol on each of the three lookups,
started with `after = -1` and fed with the previous result until the lookup returns `-1`, ends
within `nb_channels + 1` calls and returns, in strictly increasing order and each exactly once,
precisely the channels `i < nb_channels` whose mapping entry is the slot of the lookup; the
scatter loops of the decoder visit exactly these channels. -/
theorem cursor_enumeration (layout : ChannelLayout) (stream_id : Int) :
    EnumeratesSlot layout (get_left_channel layout stream_id) (2 * stream_id) ∧
    EnumeratesSlot layout (get_right_channel layout stream_id) (2 * stream_id + 1) ∧
    EnumeratesSlot layout (get_mono_channel layout stream_id)
      (2 * layout.nb_coupled_streams + stream_id) ∧
    ∀ (get : Int → Int) (src : Int → opus_val16) (F : Int) (pcm : Int → opus_val16),
      scatter layout.nb_channels get src F (layout.nb_channels.toNat + 1) (-1) pcm
        = (cursor_walk get (layout.nb_channels.toNat + 1) (-1)).map (fun chans =>
            chans.foldl
              (fun p chan => fill_channel layout.nb_channels chan src (F - 0).toNat 0 p) pcm) :=
  ⟨enumerates_slot layout _ _ (get_left_channel_spec layout stream_id),
    enumerates_slot layout _ _ (get_right_channel_spec layout stream_id),
    enumerates_slot layout _ _ (get_mono_channel_spec layout stream_id),
    fun get src F pcm => scatter_eq_cursor_walk layout.nb_channels get src F _ (-1) pcm⟩

/-! ## Decoder: guards and frame-length agreement -/

/-- The log of the decode loop entered at stream `s`: the loop returns; the calls go to the
streams `s, s+1, ...` in order; each call gets the `frame_size` current at its stream, which
from the second stream on is the result of the first; a call whose result exceeds the
`frame_size` it was given makes the decoder return `OPUS_BUFFER_TOO_SMALL`, and a later-stream
call whose result differs from it without exceeding it makes it return `OPUS_CORRUPTED_DATA`;
when the calls made so far all pass and leave no bytes for a stream that is due, the decoder
returns `OPUS_CORRUPTED_DATA` and makes no further call. -/
theorem decode_loop_log (layout : ChannelLayout) (dec_native : SubDecoder) (data : Int → Nat)
    (decode_fec : Int) (k : Nat) :
    ∀ (s : Int) (st : DecState), 0 ≤ s → k = (layout.nb_streams - s).toNat →
      ∃ r, decode_loop layout dec_native data decode_fec (layout.nb_channels.toNat + 1) k s st
          = some r ∧
        ∃ suffix, r.calls = st.calls ++ suffix ∧
          suffix.map DecCall.s = (List.range suffix.length).map (fun j : Nat => s + (j : Int)) ∧
          (∀ call ∈ suffix, s ≤ call.s ∧
            ((call.s = s ∨ 0 < s) → call.frame_size = st.frame_size) ∧
            (call.out.ret > call.frame_size → r.ret = OPUS_BUFFER_TOO_SMALL) ∧
            (call.out.ret ≤ call.frame_size → 0 < call.s → call.out.ret ≠ call.frame_size →
              r.ret = OPUS_CORRUPTED_DATA)) ∧
          (s = 0 → ∀ c0 ∈ suffix, c0.s = 0 → ∀ call ∈ suffix, 0 < call.s →
            call.frame_size = c0.out.ret) ∧
          (∀ pre post, suffix = pre ++ post → (∀ c ∈ pre, c.passes) →
            s + (pre.length : Int) < layout.nb_streams → st.len - consumed pre ≤ 0 →
            r.ret = OPUS_CORRUPTED_DATA ∧ post = []) := by
  induction k with
  | zero =>
    intro s st hs hk
    refine ⟨_, rfl, [], by simp, rfl, by simp, by simp, ?_⟩
    intro pre post hpp _ hlt _
    have : pre = [] := by
      cases pre with
      | nil => rfl
      | cons c pre' => simp at hpp
    rw [this] at hlt
    simp only [List.length_nil, Nat.cast_zero, add_zero] at hlt
    omega
  | succ k ih =>
    intro s st hs hk
    have hsN : s < layout.nb_streams := by omega
    rw [decode_loop]
    by_cases hlen : st.len ≤ 0
    · rw [if_pos hlen]
      refine ⟨_, rfl, [], by simp, rfl, by simp, by simp, ?_⟩
      intro pre post hpp _ _ _
      refine ⟨rfl, ?_⟩
      cases pre with
      | nil => exact hpp.symm
      | cons c pre' => simp at hpp
    rw [if_neg hlen]
    simp only []
    generalize dec_native st.ptr (fun j => data (st.off + j)) st.len st.frame_size
      decode_fec 1 = out
    generalize hcall : DecCall.mk _ _ _ _ _ = call
    have hcs : call.s = s := by rw [← hcall]
    have hcf : call.frame_size = st.frame_size := by rw [← hcall]
    have hco : call.out = out := by rw [← hcall]
    -- what holds for the log `[call]` of an iteration that returns after its call
    have hlast : ∀ (ret : Int) (pcm : Int → opus_val16),
        ¬ (0 < out.ret ∧ out.ret ≤ st.frame_size ∧ (0 < s → out.ret = st.frame_size)) →
        (out.ret > st.frame_size → ret = OPUS_BUFFER_TOO_SMALL) →
        (out.ret ≤ st.frame_size → 0 < s → out.ret ≠ st.frame_size →
          ret = OPUS_CORRUPTED_DATA) →
        ∃ r, some ({ ret := ret, pcm := pcm, calls := st.calls ++ [call] } : DecResult)
            = some r ∧
          ∃ suffix, r.calls = st.calls ++ suffix ∧
            suffix.map DecCall.s = (List.range suffix.length).map (fun j : Nat => s + (j : Int)) ∧
            (∀ call ∈ suffix, s ≤ call.s ∧
              ((call.s = s ∨ 0 < s) → call.frame_size = st.frame_size) ∧
              (call.out.ret > call.frame_size → r.ret = OPUS_BUFFER_TOO_SMALL) ∧
              (call.out.ret ≤ call.frame_size → 0 < call.s →
                call.out.ret ≠ call.frame_size → r.ret = OPUS_CORRUPTED_DATA)) ∧
            (s = 0 → ∀ c0 ∈ suffix, c0.s = 0 → ∀ call ∈ suffix, 0 < call.s →
              call.frame_size = c0.out.ret) ∧
            (∀ pre post, suffix = pre ++ post → (∀ c ∈ pre, c.passes) →
              s + (pre.length : Int) < layout.nb_streams → st.len - consumed pre ≤ 0 →
              r.ret = OPUS_CORRUPTED_DATA ∧ post = []) := by
      intro ret pcm hfail hA hB
      refine ⟨_, rfl, [call], rfl, ?_, ?_, ?_, ?_⟩
      · simp [hcs, List.range_succ]
      · intro c hc
        rw [List.mem_singleton.1 hc, hcs, hcf, hco]
        exact ⟨le_refl _, fun _ => rfl, hA, hB⟩
      · intro hs0 c0 _ _ c hc hpos
        rw [List.mem_singleton.1 hc, hcs] at hpos
        omega
      · intro pre post hpp hpass _ hrem
        cases pre with
        | nil =>
          simp only [consumed, List.map_nil, List.sum_nil, sub_zero] at hrem
          exact absurd hrem hlen
        | cons c pre' =>
          simp only [List.cons_append, List.cons.injEq] at hpp
          have hpc := hpass c (List.mem_cons_self _ _)
          rw [← hpp.1] at hpc
          unfold DecCall.passes at hpc
          rw [hcs, hcf, hco] at hpc
          exact absurd hpc hfail
    by_cases h1 : out.ret > st.frame_size
    · rw [if_pos h1]
      exact hlast _ _ (fun h => by omega) (fun _ => rfl) (fun h => by omega)
    rw [if_neg h1]
    by_cases h2 : s > 0 ∧ out.ret ≠ st.frame_size
    · rw [if_pos h2]
      exact hlast _ _ (fun h => h2.2 (h.2.2 h2.1)) (fun h => absurd h h1) (fun _ _ _ => rfl)
    rw [if_neg h2]
    by_cases h3 : out.ret ≤ 0
    · rw [if_pos h3]
      exact hlast _ _ (fun h => by omega) (fun h => absurd h h1)
        (fun _ hs0 hne => absurd ⟨hs0, hne⟩ h2)
    rw [if_neg h3]
    obtain ⟨pcm1, e1, -⟩ := scatter_stream_spec layout s out.buf out.ret st.pcm
    rw [e1]
    simp only [Option.some_bind]
    generalize hst : DecState.mk _ _ _ _ _ _ = st'
    have hsf : st'.frame_size = out.ret := by rw [← hst]
    have hsl : st'.len = st.len - out.packet_offset := by rw [← hst]
    have hsc : st'.calls = st.calls ++ [call] := by rw [← hst]
    obtain ⟨r, er, suffix, hcalls, hord, hA, -, hC⟩ := ih (s + 1) st' (by omega) (by omega)
    rw [hsc] at hcalls
    refine ⟨r, er, call :: suffix, ?_, ?_, ?_, ?_, ?_⟩
    · rw [hcalls, List.append_assoc]
      rfl
    · rw [List.map_cons, hord, List.length_cons,
        ← range_map_shift (fun j : Nat => s + (j : Int)) suffix.length, hcs]
      simp only [Nat.cast_zero, add_zero, Nat.cast_add, Nat.cast_one, List.cons.injEq, true_and]
      apply List.map_congr_left
      intro j _
      omega
    · intro c hc
      rcases List.mem_cons.1 hc with h | h
      · rw [h, hcs, hcf, hco]
        exact ⟨le_refl _, fun _ => rfl, fun h => absurd h h1,
          fun _ hs0 hne => absurd ⟨hs0, hne⟩ h2⟩
      · obtain ⟨a, b, c1, c2⟩ := hA c h
        refine ⟨by omega, ?_, c1, c2⟩
        intro hor
        have hs0 : 0 < s := by omega
        rw [b (Or.inr (by omega)), hsf]
        by_contra hne
        exact h2 ⟨hs0, hne⟩
    · intro hs0 c0 hc0 hc0s c hc hpos
      have hc0' : c0 = call := by
        rcases List.mem_cons.1 hc0 with h | h
        · exact h
        · have := (hA c0 h).1
          omega
      rcases List.mem_cons.1 hc with h | h
      · rw [h, hcs] at hpos
        omega
      · rw [(hA c h).2.1 (Or.inr (by omega)), hsf, hc0', hco]
    · intro pre post hpp hpass hlt hrem
      cases pre with
      | nil =>
        simp only [consumed, List.map_nil, List.sum_nil, sub_zero] at hrem
        exact absurd hrem hlen
      | cons c pre' =>
        simp only [List.cons_append, List.cons.injEq] at hpp
        apply hC pre' post hpp.2 (fun c' hc' => hpass c' (List.mem_cons_of_mem _ hc'))
        · simp only [List.length_cons, Nat.cast_add, Nat.cast_one] at hlt
          omega
        · rw [hsl]
          simp only [consumed, List.map_cons, List.sum_cons] at hrem ⊢
          rw [← hpp.1, hco] at hrem
          omega

/-- The log of the decoder when the size guard passes: see `decode_loop_log`. -/
theorem decode_log (layout : ChannelLayout) (dec_native : SubDecoder) (data : Int → Nat)
    (len : Int) (pcm0 : Int → opus_val16) (frame_size decode_fec : Int)
    (hg : ¬ len < 2 * layout.nb_streams - 1) :
    ∃ r, opus_multistream_decode_native layout dec_native data len pcm0 frame_size decode_fec
        = some r ∧
      r.calls.map DecCall.s = (List.range r.calls.length).map (fun j : Nat => (j : Int)) ∧
      (∀ call ∈ r.calls,
        (call.out.ret > call.frame_size → r.ret = OPUS_BUFFER_TOO_SMALL) ∧
        (call.out.ret ≤ call.frame_size → 0 < call.s → call.out.ret ≠ call.frame_size →
          r.ret = OPUS_CORRUPTED_DATA)) ∧
      (∀ c0 ∈ r.calls, c0.s = 0 → ∀ call ∈ r.calls, 0 < call.s →
        call.frame_size = c0.out.ret) ∧
      (∀ pre post, r.calls = pre ++ post → (∀ c ∈ pre, c.passes) →
        (pre.length : Int) < layout.nb_streams → len - consumed pre ≤ 0 →
        r.ret = OPUS_CORRUPTED_DATA ∧ post = []) := by
  unfold opus_multistream_decode_native
  rw [if_neg hg]
  obtain ⟨r, e, suffix, hcalls, hord, hA, hB, hC⟩ := decode_loop_log layout dec_native data
    decode_fec (layout.nb_streams - 0).toNat 0
    { ptr := 0, off := 0, len := len, frame_size := frame_size, pcm := pcm0, calls := [] }
    (le_refl _) rfl
  have hc : r.calls = suffix := by
    rw [hcalls]
    rfl
  rw [← hc] at hord hA hB hC
  refine ⟨r, e, ?_, fun call hm => (hA call hm).2.2, hB rfl, ?_⟩
  · rw [hord]
    apply List.map_congr_left
    intro j _
    omega
  · intro pre post hpp hpass hlt hrem
    exact hC pre post hpp hpass (by omega) hrem

/-- C11, as the code has it: the decoder always returns. When the first stream decoded `n0`
samples and a later stream decoded a count `n ≠ n0`, the decoder returns
`OPUS_BUFFER_TOO_SMALL` when `n > n0` and `OPUS_CORRUPTED_DATA` when `n < n0`: after the first
stream the capacity test is made against `n0`, not against the capacity of the caller. When the
decoder returns a positive value, every stream was decoded and every call decoded that many
samples. -/
theorem decode_frame_length_agreement (layout : ChannelLayout) (dec_native : SubDecoder)
    (data : Int → Nat) (len : Int) (pcm0 : Int → opus_val16) (frame_size decode_fec : Int) :
    ∃ r, opus_multistream_decode_native layout dec_native data len pcm0 frame_size decode_fec
        = some r ∧
      (∀ c0 ∈ r.calls, c0.s = 0 → ∀ c ∈ r.calls, 0 < c.s → c.out.ret ≠ c0.out.ret →
        (c0.out.ret < c.out.ret → r.ret = OPUS_BUFFER_TOO_SMALL) ∧
        (c.out.ret < c0.out.ret → r.ret = OPUS_CORRUPTED_DATA)) ∧
      (0 < r.ret →
        (∀ s, 0 ≤ s → s < layout.nb_streams → ∃ call ∈ r.calls, call.s = s) ∧
        ∀ call ∈ r.calls, call.out.ret = r.ret) := by
  obtain ⟨r, e, suffix, hcalls, _, _, hpos⟩ :=
    decode_post layout dec_native data len pcm0 frame_size decode_fec
  have hc : r.calls = suffix := by
    rw [hcalls]
    rfl
  rw [← hc] at hpos
  refine ⟨r, e, ?_, fun hr => ⟨(hpos hr).2.1, (hpos hr).2.2.1⟩⟩
  by_cases hg : len < 2 * layout.nb_streams - 1
  · intro c0 hc0
    unfold opus_multistream_decode_native at e
    rw [if_pos hg] at e
    rw [← Option.some.inj e] at hc0
    simp at hc0
  · obtain ⟨r', e', _, hA, hB, _⟩ :=
      decode_log layout dec_native data len pcm0 frame_size decode_fec hg
    have hrr : r' = r := by
      rw [e] at e'
      exact (Option.some.inj e').symm
    subst hrr
    intro c0 hc0 hc0s c hcm hcs hne
    have hfs := hB c0 hc0 hc0s c hcm hcs
    obtain ⟨h1, h2⟩ := hA c hcm
    rw [hfs] at h1 h2
    exact ⟨fun h => h1 h, fun h => h2 (le_of_lt h) hcs hne⟩

/-- C11, the claim as stated fails: two mono streams, capacity `frame_size = 2`; the first
stream decodes 1 sample and the second decodes 2, a positive count that differs from 1 and does
not exceed the capacity; the decoder returns `OPUS_BUFFER_TOO_SMALL = -2`, not
`OPUS_CORRUPTED_DATA`. -/
theorem decode_longer_later_stream_too_small :
    (opus_multistream_decode_native (layout_of 2 2 0 [0, 1])
        (fun dec _ _ _ _ _ =>
          if dec = 0 then { ret := 1, packet_offset := 2, buf := fun _ => 0 }
          else { ret := 2, packet_offset := 2, buf := fun _ => 0 })
        (fun _ => 0) 4 (fun _ => 0) 2 0).map
      (fun r => (r.ret, r.calls.map (fun c => (c.s, c.out.ret))))
      = some (OPUS_BUFFER_TOO_SMALL, [(0, 1), (1, 2)]) ∧
    OPUS_BUFFER_TOO_SMALL ≠ OPUS_CORRUPTED_DATA := by
  decide

/-- C11, at a concrete input: the two mono streams of the evaluation above. -/
theorem decode_frame_length_agreement_witness :
    ∃ r, opus_multistream_decode_native (layout_of 2 2 0 [0, 1])
        (fun dec _ _ _ _ _ =>
          if dec = 0 then { ret := 1, packet_offset := 2, buf := fun _ => 0 }
          else { ret := 2, packet_offset := 2, buf := fun _ => 0 })
        (fun _ => 0) 4 (fun _ => 0) 2 0 = some r ∧
      (∀ c0 ∈ r.calls, c0.s = 0 → ∀ c ∈ r.calls, 0 < c.s → c.out.ret ≠ c0.out.ret →
        (c0.out.ret < c.out.ret → r.ret = OPUS_BUFFER_TOO_SMALL) ∧
        (c.out.ret < c0.out.ret → r.ret = OPUS_CORRUPTED_DATA)) ∧
      (0 < r.ret →
        (∀ s, 0 ≤ s → s < (layout_of 2 2 0 [0, 1]).nb_streams → ∃ call ∈ r.calls, call.s = s) ∧
        ∀ call ∈ r.calls, call.out.ret = r.ret) :=
  decode_frame_length_agreement (layout_of 2 2 0 [0, 1])
    (fun dec _ _ _ _ _ =>
      if dec = 0 then { ret := 1, packet_offset := 2, buf := fun _ => 0 }
      else { ret := 2, packet_offset := 2, buf := fun _ => 0 })
    (fun _ => 0) 4 (fun _ => 0) 2 0

/-- C14: with an input length below `2*nb_streams - 1` the decoder returns
`OPUS_BUFFER_TOO_SMALL`, calls no sub-decoder and leaves the output alone. When the guard
passes, the decoder returns, its calls are those of the streams `0, 1, 2, ...` in order, and if
the first `s < nb_streams` calls all passed their checks and consumed the whole input
(`len - consumed ≤ 0`), the decoder returns `OPUS_CORRUPTED_DATA` and the log ends there: the
sub-decoder of stream `s` is not called. -/
theorem decode_size_guards :
    (∀ (layout : ChannelLayout) (dec_native : SubDecoder) (data : Int → Nat) (len : Int)
        (pcm0 : Int → opus_val16) (frame_size decode_fec : Int),
      len < 2 * layout.nb_streams - 1 →
      opus_multistream_decode_native layout dec_native data len pcm0 frame_size decode_fec
        = some { ret := OPUS_BUFFER_TOO_SMALL, pcm := pcm0, calls := [] }) ∧
    (∀ (layout : ChannelLayout) (dec_native : SubDecoder) (data : Int → Nat) (len : Int)
        (pcm0 : Int → opus_val16) (frame_size decode_fec : Int),
      2 * layout.nb_streams - 1 ≤ len →
      ∃ r, opus_multistream_decode_native layout dec_native data len pcm0 frame_size decode_fec
          = some r ∧
        r.calls.map DecCall.s = (List.range r.calls.length).map (fun j : Nat => (j : Int)) ∧
        ∀ pre post, r.calls = pre ++ post → (∀ c ∈ pre, c.passes) →
          (pre.length : Int) < layout.nb_streams → len - consumed pre ≤ 0 →
          r.ret = OPUS_CORRUPTED_DATA ∧ post = []) := by
  constructor
  · intro layout dec_native data len pcm0 frame_size decode_fec h
    unfold opus_multistream_decode_native
    rw [if_pos h]
  · intro layout dec_native data len pcm0 frame_size decode_fec h
    obtain ⟨r, e, hord, _, _, hC⟩ :=
      decode_log layout dec_native data len pcm0 frame_size decode_fec (by omega)
    exact ⟨r, e, hord, hC⟩

/-- C14, at concrete inputs: two mono streams; a 2-byte packet is refused by the guard; of a
3-byte packet the first sub-decoder decodes 1 sample and consumes all 3 bytes, and the decoder
returns `OPUS_CORRUPTED_DATA` after this one call. -/
theorem decode_size_guards_witness :
    ((2 : Int) < 2 * (layout_of 2 2 0 [0, 1]).nb_streams - 1 ∧
      opus_multistream_decode_native (layout_of 2 2 0 [0, 1])
          (fun _ _ _ _ _ _ => { ret := 1, packet_offset := 3, buf := fun _ => 0 })
          (fun _ => 0) 2 (fun _ => 0) 1 0
        = some { ret := OPUS_BUFFER_TOO_SMALL, pcm := fun _ => 0, calls := [] }) ∧
    (2 * (layout_of 2 2 0 [0, 1]).nb_streams - 1 ≤ (3 : Int) ∧
      (opus_multistream_decode_native (layout_of 2 2 0 [0, 1])
          (fun _ _ _ _ _ _ => { ret := 1, packet_offset := 3, buf := fun _ => 0 })
          (fun _ => 0) 3 (fun _ => 0) 1 0).map
        (fun r => (r.ret, r.calls.map (fun c => (c.dec, c.s, c.out.ret, c.out.packet_offset))))
        = some (OPUS_CORRUPTED_DATA, [(0, 0, 1, 3)]) ∧
      ∃ r, opus_multistream_decode_native (layout_of 2 2 0 [0, 1])
          (fun _ _ _ _ _ _ => { ret := 1, packet_offset := 3, buf := fun _ => 0 })
          (fun _ => 0) 3 (fun _ => 0) 1 0 = some r ∧
        r.calls.map DecCall.s = (List.range r.calls.length).map (fun j : Nat => (j : Int)) ∧
        ∀ pre post, r.calls = pre ++ post → (∀ c ∈ pre, c.passes) →
          (pre.length : Int) < (layout_of 2 2 0 [0, 1]).nb_streams → 3 - consumed pre ≤ 0 →
          r.ret = OPUS_CORRUPTED_DATA ∧ post = []) :=
  ⟨⟨by decide, decode_size_guards.1 (layout_of 2 2 0 [0, 1])
      (fun _ _ _ _ _ _ => { ret := 1, packet_offset := 3, buf := fun _ => 0 })
      (fun _ => 0) 2 (fun _ => 0) 1 0 (by decide)⟩,
    ⟨by decide, by decide, decode_size_guards.2 (layout_of 2 2 0 [0, 1])
      (fun _ _ _ _ _ _ => { ret := 1, packet_offset := 3, buf := fun _ => 0 })
      (fun _ => 0) 3 (fun _ => 0) 1 0 (by decide)⟩⟩

/-- C19: evaluation of the decoder on 3 channels, 1 coupled and 1 mono stream, mapping
`[0,1,2]`. Decoder init accepts the layout and `nb_coupled_streams ≤ nb_streams`. Channel 2 has
the entry `2 ≥ 2*nb_coupled_streams`, which is not 255, but the mono lookup of the only mono
stream (stream 1) looks for the entry `2*1 + 1 = 3`: it returns `-1` and its cursor walk is
empty, while the walks of the coupled stream give channels 0 and 1. A decode of one frame
returns 1 and leaves channel 2 as it was (99): neither the scatter nor the zero-fill wrote it. -/
theorem decode_mixed_layout_leaves_channel :
    (opus_multistream_decoder_init ⟨0, 0, 0, fun _ => 0⟩ 3 2 1
      (fun i => [0, 1, 2].getD i 0)).ret = OPUS_OK ∧
    validate_layout (layout_of 3 2 1 [0, 1, 2]) = 1 ∧
    (layout_of 3 2 1 [0, 1, 2]).nb_coupled_streams ≤ (layout_of 3 2 1 [0, 1, 2]).nb_streams ∧
    (layout_of 3 2 1 [0, 1, 2]).entry 2 = 2 ∧
    get_mono_channel (layout_of 3 2 1 [0, 1, 2]) 1 (-1) = -1 ∧
    cursor_walk (get_mono_channel (layout_of 3 2 1 [0, 1, 2]) 1) 4 (-1) = some [] ∧
    cursor_walk (get_left_channel (layout_of 3 2 1 [0, 1, 2]) 0) 4 (-1) = some [0] ∧
    cursor_walk (get_right_channel (layout_of 3 2 1 [0, 1, 2]) 0) 4 (-1) = some [1] ∧
    (opus_multistream_decode_native (layout_of 3 2 1 [0, 1, 2]) (stub_decode 1)
        (fun j => [0, 2, 10, 11, 0, 1, 12].getD j.toNat 0) 7 (fun _ => 99) 1 0).map
      (fun r => (r.ret, [r.pcm 0, r.pcm 1, r.pcm 2],
        r.calls.map (fun c => (c.dec, c.s, c.out.ret))))
      = some (1, [10, 11, 99], [(0, 0, 1), (1, 1, 1)]) := by
  refine ⟨?_, ?_, ?_, ?_, ?_, ?_, ?_, ?_, ?_⟩ <;> decide

/-- C18, at a concrete input: 5 channels with mapping `[0,1,0,255,0]`; the walk on the left
lookup of stream 0 makes 4 calls and returns the channels 0, 2 and 4. -/
theorem cursor_enumeration_witness :
    cursor_walk (get_left_channel (layout_of 5 1 1 [0, 1, 0, 255, 0]) 0) 4 (-1)
      = some [0, 2, 4] ∧
    cursor_walk (get_left_channel (layout_of 5 1 1 [0, 1, 0, 255, 0]) 0) 3 (-1) = none ∧
    EnumeratesSlot (layout_of 5 1 1 [0, 1, 0, 255, 0])
      (get_left_channel (layout_of 5 1 1 [0, 1, 0, 255, 0]) 0) (2 * 0) :=
  ⟨by decide, by decide, (cursor_enumeration (layout_of 5 1 1 [0, 1, 0, 255, 0]) 0).1⟩

/-! ## Mixed layouts and the encoder validators -/

/-- A layout with at least one coupled and one mono stream that both validators accept has
`2*nb_coupled_streams + nb_streams = 256`: the slot that the mono lookup uses for the last
stream is not below `nb_streams + nb_coupled_streams`, so the channel found there carries 255. -/
theorem mixed_layout_slot_sum (layout : ChannelLayout) (hc : 1 ≤ layout.nb_coupled_streams)
    (hm : layout.nb_coupled_streams < layout.nb_streams) (hv : validate_layout layout = 1)
    (hve : validate_encoder_layout layout = 1) :
    2 * layout.nb_coupled_streams + layout.nb_streams = 256 := by
  obtain ⟨_, hent⟩ := (validate_layout_iff layout).1 hv
  have hcov := (validate_encoder_layout_iff layout).1 hve (layout.nb_streams - 1)
    (by omega) (by omega)
  obtain ⟨i, hi0, hi1, hi⟩ := hcov.2 (by omega)
  rcases hent i hi0 hi1 with h | h
  · omega
  · omega

theorem sentinel_mixed_entry (i : Int) (h0 : 0 ≤ i) (h1 : i < 255) :
    sentinel_mixed_layout.entry i = if i < 2 then i else i + 1 := by
  unfold ChannelLayout.entry sentinel_mixed_layout
  simp only []
  split <;> split <;> omega

theorem sentinel_mixed_valid :
    validate_layout sentinel_mixed_layout = 1 ∧
    validate_encoder_layout sentinel_mixed_layout = 1 := by
  constructor
  · rw [validate_layout_iff]
    refine ⟨by decide, ?_⟩
    intro i _ _
    have := entry_le sentinel_mixed_layout i
    show _ ∨ _ < (255 : Int)
    omega
  · rw [validate_encoder_layout_iff]
    intro s hs0 hs1
    have hs1' : s < 254 := hs1
    constructor
    · intro hc
      have hc' : s < 1 := hc
      have hs : s = 0 := by omega
      subst hs
      exact ⟨⟨0, by decide, by decide, by decide⟩, ⟨1, by decide, by decide, by decide⟩⟩
    · intro hc
      have hc' : ¬ s < 1 := hc
      refine ⟨s + 1, by omega, by show s + 1 < 255; omega, ?_⟩
      rw [sentinel_mixed_entry (s + 1) (by omega) (by omega), if_neg (by omega)]
      show s + 1 + 1 = 2 * 1 + s
      omega

/-- C21: every layout with at least one coupled and one mono stream
(`nb_coupled_streams ≥ 1`, `nb_streams > nb_coupled_streams`) that `validate_layout` and
`validate_encoder_layout` both accept has `2*nb_coupled_streams + nb_streams = 256`, i.e. the
slot `2*nb_coupled_streams + (nb_streams - 1)` of its last mono stream is the sentinel 255; in
particular encoder init returns `OPUS_BAD_ARG` for every channel count and mapping when
`nb_streams = 2` and `nb_coupled_streams = 1`. -/
theorem mixed_layout_needs_sentinel_slot :
    (∀ layout : ChannelLayout, 1 ≤ layout.nb_coupled_streams →
      layout.nb_coupled_streams < layout.nb_streams →
      validate_layout layout = 1 → validate_encoder_layout layout = 1 →
      2 * layout.nb_coupled_streams + layout.nb_streams = 256 ∧
      2 * layout.nb_coupled_streams + (layout.nb_streams - 1) = 255) ∧
    (∀ (st : ChannelLayout) (channels : Int) (mapping : Nat → Nat),
      (opus_multistream_encoder_init st channels 2 1 mapping).ret = OPUS_BAD_ARG) := by
  constructor
  · intro layout hc hm hv hve
    have := mixed_layout_slot_sum layout hc hm hv hve
    exact ⟨this, by omega⟩
  · intro st channels mapping
    unfold opus_multistream_encoder_init
    simp only []
    split
    · rfl
    · rename_i hacc
      exfalso
      have h1 : validate_layout (store_layout st channels 2 1 mapping) = 1 := by
        rcases validate_layout_zero_or_one (store_layout st channels 2 1 mapping) with h | h
        · exact h
        · exact absurd (Or.inl h) hacc
      have h2 : validate_encoder_layout (store_layout st channels 2 1 mapping) = 1 := by
        rcases validate_encoder_layout_zero_or_one (store_layout st channels 2 1 mapping)
          with h | h
        · exact h
        · exact absurd (Or.inr h) hacc
      have hsum := mixed_layout_slot_sum (store_layout st channels 2 1 mapping)
        (by show (1 : Int) ≤ 1; decide) (by show (1 : Int) < 2; decide) h1 h2
      have hsum' : (2 : Int) * 1 + 2 = 256 := hsum
      omega

/-- C21, at a concrete input: the layout with 255 channels, 1 coupled and 253 mono streams
whose last channel is mapped to 255 is accepted by both validators, and `2*1 + 254 = 256`. -/
theorem mixed_layout_needs_sentinel_slot_witness :
    1 ≤ sentinel_mixed_layout.nb_coupled_streams ∧
    sentinel_mixed_layout.nb_coupled_streams < sentinel_mixed_layout.nb_streams ∧
    validate_layout sentinel_mixed_layout = 1 ∧
    validate_encoder_layout sentinel_mixed_layout = 1 ∧
    2 * sentinel_mixed_layout.nb_coupled_streams + sentinel_mixed_layout.nb_streams = 256 ∧
    2 * sentinel_mixed_layout.nb_coupled_streams + (sentinel_mixed_layout.nb_streams - 1)
      = 255 :=
  ⟨by decide, by decide, sentinel_mixed_valid.1, sentinel_mixed_valid.2,
    mixed_layout_needs_sentinel_slot.1 sentinel_mixed_layout (by decide) (by decide)
      sentinel_mixed_valid.1 sentinel_mixed_valid.2⟩

end OpusMS
